import Mathlib

/-! # CSV to JSON record pipeline

A shallow embedding of the record transformation pipeline of the repository
(`src/middleware/upload.js`, `src/services/userService.js`): the CSV line
tokenizer, the dotted-path object builder, mandatory-field validation, the
mapping to the flat storage record, the insert loop and the age-distribution
query.

Modelling choices:

* a JavaScript string is the list of its characters;
* a JavaScript object is the list of its own properties, in insertion order.  The
  built-in objects of the runtime (`Object.prototype`, its functions, the members a
  string or a number inherits) are taken to be as at start-up and are not carried as
  values: a write to the accessor `__proto__` is modelled (it stores nothing), the
  inherited `toString` is modelled where an object is printed, and a walk of
  `setNestedProperty` that steps into a built-in member ends with the marker
  `JsError.builtinReached`, which stands for a run this embedding does not follow
  further (the code then writes into a built-in object);
* a JavaScript number is the exact value of an IEEE-754 double; `Number`,
  `Number::toString` and `parseInt` follow ECMA-262 with exact rounding;
* code that mutates an object in place returns the updated object, and code that
  throws returns an `Except.error`;
* the database is explicit state passed to the insert loop.
-/

namespace CsvJson

/-- A JavaScript string, as the list of its characters. -/
abbrev Str := List Char

/-! ## String primitives -/

/-- The characters removed by `String.prototype.trim` (ECMAScript WhiteSpace and
LineTerminator); the same set is skipped by `Number` and `parseInt`. -/
def isWhiteSpace (c : Char) : Bool :=
  c.toNat ∈ [0x09, 0x0A, 0x0B, 0x0C, 0x0D, 0x20, 0xA0, 0x1680,
    0x2000, 0x2001, 0x2002, 0x2003, 0x2004, 0x2005, 0x2006, 0x2007, 0x2008, 0x2009, 0x200A,
    0x2028, 0x2029, 0x202F, 0x205F, 0x3000, 0xFEFF]

/-- Drop leading white space. -/
def trimStart (s : Str) : Str := s.dropWhile isWhiteSpace

/-- Drop trailing white space. -/
def trimEnd (s : Str) : Str := (s.reverse.dropWhile isWhiteSpace).reverse

/-- The method `String.prototype.trim`. -/
def trim (s : Str) : Str := trimEnd (trimStart s)

/-- The method `String.prototype.split` with a one-character separator: always returns at
least one piece. -/
def splitOn (sep : Char) : Str → List Str
  | [] => [[]]
  | c :: cs =>
    match splitOn sep cs with
    | [] => [[]]
    | p :: ps => if c = sep then [] :: p :: ps else (c :: p) :: ps

/-! ## Line tokenizer (`CSVParser.parseCSVLine`) -/

/-- The three loop variables of `parseCSVLine`. -/
structure LineState where
  result : List Str
  current : Str
  inQuotes : Bool
deriving DecidableEq, Repr

/-- One iteration of the `for` loop of `parseCSVLine`. -/
def parseCSVLineStep (st : LineState) (char : Char) : LineState :=
  if char = '"' then
    { st with inQuotes := !st.inQuotes }
  else if char = ',' ∧ st.inQuotes = false then
    { st with result := st.result ++ [trim st.current], current := [] }
  else
    { st with current := st.current ++ [char] }

/-- The loop of `parseCSVLine` run over a whole line from the initial state. -/
def parseCSVLineLoop (line : Str) : LineState :=
  line.foldl parseCSVLineStep { result := [], current := [], inQuotes := false }

/-- The method `CSVParser.parseCSVLine`: the fields of one line; the last buffer is flushed
at the end. -/
def parseCSVLine (line : Str) : List Str :=
  let st := parseCSVLineLoop line
  st.result ++ [trim st.current]

/-! ### The tokenizer as the spec words it -/

/-- Position `i` of `line` holds a comma preceded by an even number of double quotes. -/
def isSeparatorAt (line : Str) (i : Nat) : Bool :=
  line.get? i == some ',' && (line.take i).count '"' % 2 == 0

/-- The positions of the separating commas of a line, in increasing order. -/
def separatorPositions (line : Str) : List Nat :=
  (List.range line.length).filter (isSeparatorAt line)

/-- The text of a field lying between positions `lo` (inclusive) and `hi` (exclusive):
the quote characters are dropped, everything else is kept, and the field is trimmed. -/
def fieldBetween (line : Str) (lo hi : Nat) : Str :=
  trim (((line.take hi).drop lo).filter (fun c => c ≠ '"'))

/-- Cut a line at the given positions, starting a field at `lo`; the last field runs to
the end of the line. -/
def cutAt (line : Str) : Nat → List Nat → List Str
  | lo, [] => [fieldBetween line lo line.length]
  | lo, p :: ps => fieldBetween line lo p :: cutAt line (p + 1) ps

/-- The fields of a line cut at its separating commas. -/
def fieldsBySeparators (line : Str) : List Str :=
  cutAt line 0 (separatorPositions line)

/-- The fields completed by cutting at the given positions, with the start of the field
still open. -/
def cutDone (line : Str) : Nat → List Nat → List Str × Nat
  | lo, [] => ([], lo)
  | lo, p :: ps => (fieldBetween line lo p :: (cutDone line (p + 1) ps).1, (cutDone line (p + 1) ps).2)

/-! ## Numbers

`Number(value)`, `isNaN(value)`, template-literal printing and `parseInt(value, 10)` are
built-ins of the language; they are modelled here after ECMA-262 (StringToNumber,
Number::toString, parseInt), rounding every mathematical value to the nearest double with
ties to even, whatever the number of digits (as Node's engine does). -/

/-- The value of a JavaScript Number.  A finite double is `± n / 2 ^ d` in lowest terms
(`d = 0` for an integer, `n` odd otherwise); zero carries a sign. -/
inductive JSNum where
  | nan
  | inf (neg : Bool)
  | fin (neg : Bool) (n : Nat) (d : Nat)
deriving DecidableEq, Repr

/-- Bring `n / 2 ^ d` to lowest terms. -/
def norm2 : Nat → Nat → Nat × Nat
  | n, 0 => (n, 0)
  | n, d + 1 => if n = 0 then (0, 0) else if n % 2 = 0 then norm2 (n / 2) d else (n, d + 1)

/-- Halve `n` until it is below 2, counting the steps. -/
def log2Fuel : Nat → Nat → Nat
  | 0, _ => 0
  | fuel + 1, n => if n < 2 then 0 else log2Fuel fuel (n / 2) + 1

/-- The position of the leading bit of `n`. -/
def floorLog2 (n : Nat) : Nat := log2Fuel n n

/-- The integer `l` with `2 ^ l ≤ num / den < 2 ^ (l + 1)`, for positive `num` and `den`. -/
def floorLog2Rat (num den : Nat) : Int :=
  let l : Int := (floorLog2 num : Int) - (floorLog2 den : Int)
  if (if 0 ≤ l then den * 2 ^ l.toNat ≤ num else den ≤ num * 2 ^ (-l).toNat) then l else l - 1

/-- The double nearest to `± num / den` (ties to even): 53 bits of precision, exponent at
least `-1074`, infinite when the rounded value reaches `2 ^ 1024`. -/
def roundRat (neg : Bool) (num den : Nat) : JSNum :=
  if num = 0 ∨ den = 0 then .fin neg 0 0
  else
    let e : Int := max (floorLog2Rat num den - 52) (-1074)
    let n1 := if 0 ≤ e then num else num * 2 ^ (-e).toNat
    let d1 := if 0 ≤ e then den * 2 ^ e.toNat else den
    let q := n1 / d1
    let r := n1 % d1
    let q1 := if d1 < 2 * r ∨ (2 * r = d1 ∧ q % 2 = 1) then q + 1 else q
    if 0 ≤ e then
      if 1024 ≤ floorLog2 (q1 * 2 ^ e.toNat) then .inf neg else .fin neg (q1 * 2 ^ e.toNat) 0
    else
      .fin neg (norm2 q1 (-e).toNat).1 (norm2 q1 (-e).toNat).2

/-- The double nearest to `± m * 10 ^ e`. -/
def roundDec (neg : Bool) (m : Nat) (e : Int) : JSNum :=
  if 0 ≤ e then roundRat neg (m * 10 ^ e.toNat) 1 else roundRat neg m (10 ^ (-e).toNat)

/-- A decimal digit. -/
def isDigit (c : Char) : Bool := 48 ≤ c.toNat && c.toNat ≤ 57

/-- The number written by a string of decimal digits. -/
def digitsValue (ds : Str) : Nat := ds.foldl (fun acc c => 10 * acc + (c.toNat - 48)) 0

/-- The value of a digit in a radix up to 16, if it is one. -/
def radixDigit (radix : Nat) (c : Char) : Option Nat :=
  let v :=
    if 48 ≤ c.toNat ∧ c.toNat ≤ 57 then c.toNat - 48
    else if 97 ≤ c.toNat ∧ c.toNat ≤ 102 then c.toNat - 87
    else if 65 ≤ c.toNat ∧ c.toNat ≤ 70 then c.toNat - 55
    else 16
  if v < radix then some v else none

/-- The number written by a non-empty string of digits in the given radix. -/
def radixValue (radix : Nat) : Str → Option Nat
  | [] => none
  | ds => ds.foldl (fun acc c => acc.bind (fun a => (radixDigit radix c).map (fun v => radix * a + v))) (some 0)

/-- Drop one leading sign character, if there is one. -/
def stripSign : Str → Str
  | '+' :: r => r
  | '-' :: r => r
  | r => r

/-- An optional ExponentPart running to the end of the text. -/
def parseExponent : Str → Option Int
  | [] => some 0
  | c :: rest =>
    if c = 'e' ∨ c = 'E' then
      let sgn : Bool := rest.head? = some '-'
      let ds := stripSign rest
      if ds ≠ [] ∧ ds.all isDigit then
        some (if sgn then -(digitsValue ds : Int) else (digitsValue ds : Int))
      else none
    else none

/-- StrUnsignedDecimalLiteral: `Infinity`, or digits with an optional fraction and exponent. -/
def strUnsignedDecimalLiteral (neg : Bool) (s : Str) : JSNum :=
  if s = "Infinity".toList then .inf neg
  else
    let ip := s.takeWhile isDigit
    let r1 := s.dropWhile isDigit
    let fp := match r1 with
      | '.' :: t => t.takeWhile isDigit
      | _ => []
    let r2 := match r1 with
      | '.' :: t => t.dropWhile isDigit
      | _ => r1
    if ip = [] ∧ fp = [] then .nan
    else
      match parseExponent r2 with
      | none => .nan
      | some ex => roundDec neg (digitsValue (ip ++ fp)) (ex - fp.length)

/-- A value written in radix 2, 8 or 16 after its prefix. -/
def nonDecimalLiteral (radix : Nat) (ds : Str) : JSNum :=
  match radixValue radix ds with
  | some v => roundRat false v 1
  | none => .nan

/-- StrNumericLiteral: a signed decimal literal or an unsigned binary, octal or
hexadecimal integer. -/
def strNumericLiteral : Str → JSNum
  | '0' :: 'x' :: ds => nonDecimalLiteral 16 ds
  | '0' :: 'X' :: ds => nonDecimalLiteral 16 ds
  | '0' :: 'o' :: ds => nonDecimalLiteral 8 ds
  | '0' :: 'O' :: ds => nonDecimalLiteral 8 ds
  | '0' :: 'b' :: ds => nonDecimalLiteral 2 ds
  | '0' :: 'B' :: ds => nonDecimalLiteral 2 ds
  | '+' :: t => strUnsignedDecimalLiteral false t
  | '-' :: t => strUnsignedDecimalLiteral true t
  | s => strUnsignedDecimalLiteral false s

/-- The conversion `Number(s)` of a string: white space is stripped, the empty text is `0`,
text that is not a numeric literal is `NaN`. -/
def toNumber (s : Str) : JSNum :=
  if trim s = [] then .fin false 0 0 else strNumericLiteral (trim s)

/-- The test `isNaN(s)` on a string. -/
def isNaN (s : Str) : Bool := toNumber s = .nan

/-- Decimal digits of a natural number, most significant first, by repeated division. -/
def natDigitsFuel : Nat → Nat → Str → Str
  | 0, _, acc => acc
  | fuel + 1, n, acc =>
    if n / 10 = 0 then Char.ofNat (48 + n % 10) :: acc
    else natDigitsFuel fuel (n / 10) (Char.ofNat (48 + n % 10) :: acc)

/-- The decimal numeral of a natural number. -/
def natDigits (n : Nat) : Str := natDigitsFuel (n + 1) n []

/-- The least `j` from the given start with `den ≤ num * 10 ^ j`. -/
def leastPow10 (num den : Nat) : Nat → Nat → Nat
  | 0, j => j
  | fuel + 1, j => if den ≤ num * 10 ^ j then j else leastPow10 num den fuel (j + 1)

/-- The integer `n` with `10 ^ (n - 1) ≤ num / den < 10 ^ n`, for a positive double
`num / den` (the smallest one is above `10 ^ (-324)`). -/
def decExponent (num den : Nat) : Int :=
  if den ≤ num then ((natDigits (num / den)).length : Int)
  else 1 - (leastPow10 num den 400 1 : Int)

/-- Number::toString, step 5, for a `k`-digit significand: the integer `s` (possibly
`10 ^ k`) such that `s * 10 ^ (n - k)` rounds to the double `x = num / den`, the closest
to `x` when two do (the even one on a tie); `none` when `k` digits are too few. -/
def shortestAt (x : JSNum) (num den : Nat) (n : Int) (k : Nat) : Option Nat :=
  let scale : Int := (k : Int) - n
  let up := if 0 ≤ scale then 10 ^ scale.toNat else 1
  let down := if 0 ≤ scale then 1 else 10 ^ (-scale).toNat
  let lo := (num * up) / (den * down)
  let hi := lo + 1
  let okLo : Bool := roundRat false (lo * down) up = x
  let okHi : Bool := roundRat false (hi * down) up = x
  let a := num * up - lo * (den * down)
  let b := hi * (den * down) - num * up
  if okLo && okHi then
    (if a < b then some lo else if b < a then some hi else if lo % 2 = 0 then some lo else some hi)
  else if okLo then some lo
  else if okHi then some hi
  else none

/-- Try significands of `k`, `k + 1`, ... digits, returning the first that works. -/
def shortestFrom (x : JSNum) (num den : Nat) (n : Int) : Nat → Nat → Option (Nat × Nat)
  | 0, _ => none
  | fuel + 1, k =>
    match shortestAt x num den n k with
    | some s => some (s, k)
    | none => shortestFrom x num den n fuel (k + 1)

/-- The shortest significand of a positive double: `(s, k)` with `k` as small as possible;
seventeen digits always suffice. -/
def shortestDigits (x : JSNum) (num den : Nat) (n : Int) : Option (Nat × Nat) :=
  shortestFrom x num den n 17 1

/-- Number::toString, steps 6 to 10: lay out the `k` digits `ds` of the significand with
decimal exponent `n`. -/
def layoutDigits (ds : Str) (k : Nat) (n : Int) : Str :=
  if (k : Int) ≤ n ∧ n ≤ 21 then ds ++ List.replicate (n.toNat - k) '0'
  else if 0 < n ∧ n ≤ 21 then ds.take n.toNat ++ '.' :: ds.drop n.toNat
  else if -6 < n ∧ n ≤ 0 then '0' :: '.' :: (List.replicate (-n).toNat '0' ++ ds)
  else
    let ex : Str := (if 0 ≤ n - 1 then '+' else '-') :: natDigits (n - 1).natAbs
    if k = 1 then ds ++ 'e' :: ex
    else ds.take 1 ++ '.' :: (ds.drop 1 ++ 'e' :: ex)

/-- The first seventeen digits of `num / den`, whose decimal exponent is `n`. -/
def seventeenDigits (num den : Nat) (n : Int) : Nat :=
  if 0 ≤ 17 - n then num * 10 ^ (17 - n).toNat / den else num / (den * 10 ^ (n - 17).toNat)

/-- Number::toString for a positive finite double `num / den`.  Seventeen digits always
identify a double; they are what is printed should the search for fewer digits fail. -/
def positiveToString (num den : Nat) : Str :=
  let x := roundRat false num den
  let n := decExponent num den
  match shortestDigits x num den n with
  | none => layoutDigits (natDigits (seventeenDigits num den n)) 17 n
  | some (s, k) =>
    if s = 10 ^ k then layoutDigits (natDigits (10 ^ (k - 1))) k (n + 1)
    else layoutDigits (natDigits s) k n

/-- Number::toString in radix 10. -/
def numToString : JSNum → Str
  | .nan => "NaN".toList
  | .inf neg => if neg then "-Infinity".toList else "Infinity".toList
  | .fin neg n d =>
    if n = 0 then "0".toList
    else if neg then '-' :: positiveToString n (2 ^ d)
    else positiveToString n (2 ^ d)

/-- The call `parseInt(s, 10)` on a string: leading white space, an optional sign, then the
longest run of decimal digits; `NaN` when there is no digit. -/
def parseIntStr (s : Str) : JSNum :=
  let t := trimStart s
  let neg : Bool := t.head? = some '-'
  let z := (stripSign t).takeWhile isDigit
  if z = [] then .nan else roundRat neg (digitsValue z) 1

/-! ## Values and records -/

/-- The errors the pipeline can raise: a `TypeError` of the runtime, an `Error` thrown by
the code (or reported by the database) with its message, or the `ReferenceError` of the
runtime for a name that is not in scope.  The last constructor is not an error of the
program: it marks a run in which `setNestedProperty` reads a member that a value inherits
from a built-in object (or sets a prototype); what the code does from there on depends on
the built-in objects of the runtime, which are not values of this embedding. -/
inductive JsError where
  | typeError
  | error (message : Str)
  | referenceError (name : Str)
  | builtinReached
deriving DecidableEq, Repr

deriving instance DecidableEq for Except

/-- The JavaScript values the pipeline builds: string and number leaves, and plain objects
(prototype `Object.prototype`) as lists of own properties in insertion order; integer-like
keys keep their insertion place.  What an object inherits is not part of the value: see
`Val.readsBuiltin` and `Val.assign`. -/
inductive Val where
  | str (s : Str)
  | num (x : JSNum)
  | obj (fields : List (Str × Val))

mutual
/-- Decidable equality of values. -/
def Val.decEq : (a b : Val) → Decidable (a = b)
  | .str s, .str t => if h : s = t then isTrue (h ▸ rfl) else isFalse (fun e => h (Val.str.inj e))
  | .num s, .num t => if h : s = t then isTrue (h ▸ rfl) else isFalse (fun e => h (Val.num.inj e))
  | .obj s, .obj t =>
    match Val.decEqFields s t with
    | isTrue h => isTrue (h ▸ rfl)
    | isFalse h => isFalse (fun e => h (Val.obj.inj e))
  | .str _, .num _ => isFalse (fun e => Val.noConfusion e)
  | .str _, .obj _ => isFalse (fun e => Val.noConfusion e)
  | .num _, .str _ => isFalse (fun e => Val.noConfusion e)
  | .num _, .obj _ => isFalse (fun e => Val.noConfusion e)
  | .obj _, .str _ => isFalse (fun e => Val.noConfusion e)
  | .obj _, .num _ => isFalse (fun e => Val.noConfusion e)
/-- Decidable equality of property lists. -/
def Val.decEqFields : (a b : List (Str × Val)) → Decidable (a = b)
  | [], [] => isTrue rfl
  | [], _ :: _ => isFalse (fun e => List.noConfusion e)
  | _ :: _, [] => isFalse (fun e => List.noConfusion e)
  | (k, v) :: r, (k2, v2) :: r2 =>
    if hk : k = k2 then
      match Val.decEq v v2 with
      | isTrue hv =>
        match Val.decEqFields r r2 with
        | isTrue hr => isTrue (by rw [hk, hv, hr])
        | isFalse hr => isFalse (fun e => hr (List.cons.inj e).2)
      | isFalse hv => isFalse (fun e => hv (Prod.mk.inj (List.cons.inj e).1).2)
    else isFalse (fun e => hk (Prod.mk.inj (List.cons.inj e).1).1)
end

instance : DecidableEq Val := Val.decEq

/-- Own-property lookup in a property list. -/
def lookupField (key : Str) : List (Str × Val) → Option Val
  | [] => none
  | (k, v) :: rest => if k = key then some v else lookupField key rest

/-- Own-property write in a property list: an existing property keeps its place, a new one
goes last. -/
def setField (key : Str) (v : Val) : List (Str × Val) → List (Str × Val)
  | [] => [(key, v)]
  | (k, w) :: rest => if k = key then (k, v) :: rest else (k, w) :: setField key v rest

/-- Remove an own property (`delete o[key]`, and the rest pattern of a destructuring). -/
def removeField (key : Str) (fs : List (Str × Val)) : List (Str × Val) :=
  fs.filter (fun p => p.1 ≠ key)

/-- ToBoolean of a number: `NaN` and the two zeros are falsy. -/
def JSNum.truthy : JSNum → Bool
  | .nan => false
  | .inf _ => true
  | .fin _ n _ => n ≠ 0

/-- ToBoolean: the empty string, `0` and `NaN` are falsy; every object is truthy. -/
def Val.truthy : Val → Bool
  | .str s => s ≠ []
  | .num x => x.truthy
  | .obj _ => true

/-- ToBoolean of the result of a property read, `undefined` being falsy. -/
def truthyOpt : Option Val → Bool
  | none => false
  | some v => v.truthy

/-- The key `__proto__`, an accessor property of `Object.prototype`. -/
def protoKey : Str := "__proto__".toList

/-- The names of the properties of `Object.prototype` (ECMA-262 with Annex B): every plain
object inherits them. -/
def objectPrototypeNames : List Str :=
  ["constructor".toList, "__defineGetter__".toList, "__defineSetter__".toList,
   "hasOwnProperty".toList, "__lookupGetter__".toList, "__lookupSetter__".toList,
   "isPrototypeOf".toList, "propertyIsEnumerable".toList, "toString".toList,
   "valueOf".toList, "__proto__".toList, "toLocaleString".toList]

/-- The names of the properties of `String.prototype` (ECMA-262 with Annex B). -/
def stringPrototypeNames : List Str :=
  ["constructor".toList, "at".toList, "charAt".toList, "charCodeAt".toList,
   "codePointAt".toList, "concat".toList, "endsWith".toList, "includes".toList,
   "indexOf".toList, "isWellFormed".toList, "lastIndexOf".toList, "localeCompare".toList,
   "match".toList, "matchAll".toList, "normalize".toList, "padEnd".toList,
   "padStart".toList, "repeat".toList, "replace".toList, "replaceAll".toList,
   "search".toList, "slice".toList, "split".toList, "startsWith".toList,
   "substring".toList, "toLocaleLowerCase".toList, "toLocaleUpperCase".toList,
   "toLowerCase".toList, "toString".toList, "toUpperCase".toList, "toWellFormed".toList,
   "trim".toList, "trimEnd".toList, "trimStart".toList, "valueOf".toList,
   "substr".toList, "anchor".toList, "big".toList, "blink".toList, "bold".toList,
   "fixed".toList, "fontcolor".toList, "fontsize".toList, "italics".toList, "link".toList,
   "small".toList, "strike".toList, "sub".toList, "sup".toList, "trimLeft".toList,
   "trimRight".toList]

/-- The names of the properties of `Number.prototype`. -/
def numberPrototypeNames : List Str :=
  ["constructor".toList, "toExponential".toList, "toFixed".toList, "toLocaleString".toList,
   "toPrecision".toList, "toString".toList, "valueOf".toList]

/-- The read `current[key]` restricted to own properties; `none` is `undefined`.  This is
the whole read when `key` names nothing that `current` inherits: so it is for the keys the
validator and the transformer read (`name`, `firstName`, `lastName`, `age`, `address`),
which are members of neither `Object.prototype` nor `String.prototype` nor
`Number.prototype`, so that such a read from a plain object is its own property and from a
string or number is `undefined`.  `setNestedWalk`, which reads arbitrary keys, asks
`Val.readsBuiltin` first. -/
def Val.getProp (current : Val) (key : Str) : Option Val :=
  match current with
  | .obj fs => lookupField key fs
  | _ => none

/-- Whether the read `current[key]` yields something other than an own property of a plain
object or `undefined`: for an object, `key` is not an own property and names a member of
`Object.prototype`; for a string, `key` is `length`, an index (taken here as any key made
of digits) or names a member of `String.prototype` or `Object.prototype`; for a number,
`key` names a member of `Number.prototype` or `Object.prototype`. -/
def Val.readsBuiltin (current : Val) (key : Str) : Bool :=
  match current with
  | .obj fs => (lookupField key fs).isNone && objectPrototypeNames.contains key
  | .str _ =>
    key = "length".toList || (key ≠ [] && key.all isDigit) ||
      stringPrototypeNames.contains key || objectPrototypeNames.contains key
  | .num _ => numberPrototypeNames.contains key || objectPrototypeNames.contains key

/-- The write `current[key] = v` in strict mode (class bodies are strict code), returning
`current` as updated.  On an object it creates or overwrites the own property, except that
`__proto__`, when it is not an own property, is the accessor inherited from
`Object.prototype`: its setter ignores a string or a number, so nothing is stored, and given
an object it replaces the prototype (marked `builtinReached`).  On a string or a number
the same setter returns without effect, and a write to any other key raises a
`TypeError`. -/
def Val.assign (current : Val) (key : Str) (v : Val) : Except JsError Val :=
  match current with
  | .obj fs =>
    if key = protoKey ∧ lookupField key fs = none then
      match v with
      | .obj _ => .error .builtinReached
      | _ => .ok current
    else .ok (.obj (setField key v fs))
  | _ => if key = protoKey then .ok current else .error .typeError

/-- The object `current` once the object held by its own property `key` has become
`child`.  (The code mutates the child in place; here the updated child is put back.) -/
def Val.withProp (current : Val) (key : Str) (child : Val) : Val :=
  match current with
  | .obj fs => .obj (setField key child fs)
  | _ => current

/-- The leaf stored by `setNestedProperty`: `Number(value)` when `!isNaN(value) && value !== ''`,
the string otherwise. -/
def coerceValue (value : Str) : Val :=
  if isNaN value = false ∧ value ≠ [] then .num (toNumber value) else .str value

/-- The walk of `setNestedProperty` along the keys, from `current`, returning `current`
as updated.  At a key before the last, a read that meets a built-in member ends the walk
with `builtinReached`; otherwise the own property is read, `current[key] = {}` is written
when it is falsy or absent, and the walk goes on in `current[key]`.  The writes go through
`Val.assign`, so the walk raises a `TypeError` when it has to write into a string or a
number. -/
def setNestedWalk : List Str → Val → Val → Except JsError Val
  | [], current, _ => .ok current
  | [lastKey], current, leaf => current.assign (trim lastKey) leaf
  | key :: k2 :: rest, current, leaf =>
    if current.readsBuiltin (trim key) then .error .builtinReached
    else
      match (if truthyOpt (current.getProp (trim key)) then Except.ok current
             else current.assign (trim key) (.obj [])) with
      | .error e => .error e
      | .ok cur1 =>
        match cur1.getProp (trim key) with
        | none => .error .typeError
        | some child =>
          match setNestedWalk (k2 :: rest) child leaf with
          | .error e => .error e
          | .ok child1 => .ok (cur1.withProp (trim key) child1)

/-- The method `CSVParser.setNestedProperty(obj, path, value)`, returning the updated `obj`. -/
def setNestedProperty (obj : Val) (path : Str) (value : Str) : Except JsError Val :=
  setNestedWalk (splitOn '.' path) obj (coerceValue value)

/-- The expression `values[i] ? values[i].trim() : ''`: a missing or empty cell is `''`. -/
def cellValue : Option Str → Str
  | some v => if v ≠ [] then trim v else []
  | none => []

/-- The loop of `createObjectFromCSV` from index `i` on: `values` holds `values[i]`,
`values[i + 1]`, ... -/
def createObjectLoop : List Str → List Str → Val → Except JsError Val
  | [], _, obj => .ok obj
  | header :: hs, values, obj =>
    match setNestedProperty obj (trim header) (cellValue values.head?) with
    | .error e => .error e
    | .ok obj1 => createObjectLoop hs values.tail obj1

/-- The method `CSVParser.createObjectFromCSV(headers, values)`. -/
def createObjectFromCSV (headers values : List Str) : Except JsError Val :=
  createObjectLoop headers values (.obj [])

/-- The `mandatoryFields` of the parser. -/
def mandatoryFields : List Str :=
  ["name.firstName".toList, "name.lastName".toList, "age".toList]

/-- The message of the error thrown for a missing field. -/
def missingField (field : Str) : JsError :=
  .error ("Missing mandatory field: ".toList ++ field)

/-- The inner loop of `validateMandatoryFields` for one field, over its remaining keys. -/
def validateWalk (field : Str) : List Str → Val → Except JsError Unit
  | [], _ => .ok ()
  | key :: rest, current =>
    if current.truthy = false ∨ truthyOpt (current.getProp key) = false then
      .error (missingField field)
    else
      match current.getProp key with
      | none => .error (missingField field)
      | some child => validateWalk field rest child

/-- The outer loop of `validateMandatoryFields` over the fields still to check. -/
def validateFields (record : Val) : List Str → Except JsError Unit
  | [] => .ok ()
  | field :: rest =>
    match validateWalk field (splitOn '.' field) record with
    | .error e => .error e
    | .ok _ => validateFields record rest

/-- The method `CSVParser.validateMandatoryFields(record)`: returns, or throws for the first
field whose walk meets a falsy value. -/
def validateMandatoryFields (record : Val) : Except JsError Unit :=
  validateFields record mandatoryFields

/-- ToString of a value, as a template literal and `parseInt` apply it: an object prints
as `[object Object]`, unless an own `toString` property (never a function here) hides the
inherited method, which raises a `TypeError`. -/
def toStringVal : Val → Except JsError Str
  | .str s => .ok s
  | .num x => .ok (numToString x)
  | .obj fs =>
    if (lookupField "toString".toList fs).isSome then .error .typeError
    else .ok "[object Object]".toList

/-- ToString of the result of a property read. -/
def toStringOpt : Option Val → Except JsError Str
  | none => .ok "undefined".toList
  | some v => toStringVal v

/-- The call `parseInt(v, 10)` on the result of a property read. -/
def parseIntVal (v : Option Val) : Except JsError JSNum :=
  match toStringOpt v with
  | .error e => .error e
  | .ok s => .ok (parseIntStr s)

/-- The record returned by `transformRecordForDatabase`; `none` is `null`. -/
structure FlatRecord where
  name : Str
  age : JSNum
  address : Option Val
  additional_info : Option Val
deriving DecidableEq

/-- The own properties of a value (none for a string or number). -/
def Val.fields : Val → List (Str × Val)
  | .obj fs => fs
  | _ => []

/-- The method `CSVParser.transformRecordForDatabase(record)`. -/
def transformRecordForDatabase (record : Val) : Except JsError FlatRecord :=
  match validateMandatoryFields record with
  | .error e => .error e
  | .ok _ =>
    let name := record.getProp "name".toList
    let age := record.getProp "age".toList
    let rest := removeField "age".toList (removeField "name".toList record.fields)
    let first := name.bind (fun n => n.getProp "firstName".toList)
    let last := name.bind (fun n => n.getProp "lastName".toList)
    match toStringOpt first with
    | .error e => .error e
    | .ok f =>
      match toStringOpt last with
      | .error e => .error e
      | .ok l =>
        let fullName := trim (f ++ ' ' :: l)
        let hasAddress := truthyOpt (lookupField "address".toList rest)
        let address := if hasAddress then lookupField "address".toList rest else none
        let additionalInfo := if hasAddress then removeField "address".toList rest else rest
        match parseIntVal age with
        | .error e => .error e
        | .ok a =>
          .ok { name := fullName
                age := a
                address := address
                additional_info := if 0 < additionalInfo.length then some (.obj additionalInfo) else none }

/-- The node of the tree `v` reached along a path of keys: each step reads an own property
of a mapping; a string or number has no children. -/
def getPath : Val → List Str → Option Val
  | v, [] => some v
  | v, key :: rest =>
    match v.getProp key with
    | none => none
    | some child => getPath child rest

/-- The keys `setNestedProperty` uses for a header: the trimmed header is split on `.` and
each segment is trimmed. -/
def headerPath (header : Str) : List Str :=
  (splitOn '.' (trim header)).map trim

/-- A string or number leaf. -/
def Val.isLeaf : Val → Bool
  | .obj _ => false
  | _ => true

/-! ## Batch parsing (`CSVParser.parseCSV`) -/

/-- The lines kept by `parseCSV`: the text is split on `\n` and the lines that trim to
the empty string are dropped. -/
def nonBlankLines (fileContent : Str) : List Str :=
  (splitOn '\n' fileContent).filter (fun line => trim line ≠ [])

/-- The row loop of `parseCSV` over the remaining data lines: a line whose field count
differs from the header count is skipped (`continue`), a line whose record cannot be
built is skipped by the `catch`, any other line appends its record. -/
def parseRows (headers : List Str) : List Str → List Val → List Val
  | [], records => records
  | line :: rest, records =>
    if (parseCSVLine line).length ≠ headers.length then parseRows headers rest records
    else
      match createObjectFromCSV headers (parseCSVLine line) with
      | .error _ => parseRows headers rest records
      | .ok record => parseRows headers rest (records ++ [record])

/-- The error `parseCSV` rejects with when there are fewer than two lines. -/
def emptySourceError : JsError :=
  .error ("CSV parsing failed: ".toList ++
    "CSV file must contain at least header and one data row".toList)

/-- The method `CSVParser.parseCSV`, on the content read from the file. -/
def parseCSV (fileContent : Str) : Except JsError (List Val) :=
  if (nonBlankLines fileContent).length < 2 then .error emptySourceError
  else
    match nonBlankLines fileContent with
    | [] => .error emptySourceError
    | headerLine :: dataLines => .ok (parseRows (parseCSVLine headerLine) dataLines [])

/-! ## The insert loop of `POST /process-csv` -/

/-- The loop `for (const record of records)` of the handler, with the sink as explicit
state: `query s t` is the outcome of the `INSERT` of `t` in sink state `s`, the new state
and whether the statement succeeded.  A record whose transformation throws never reaches
the sink; a failing statement is caught and the record skipped. -/
def insertLoop {S : Type} (query : S → FlatRecord → S × Bool) : List Val → S → Nat → S × Nat
  | [], s, insertedCount => (s, insertedCount)
  | record :: rest, s, insertedCount =>
    match transformRecordForDatabase record with
    | .error _ => insertLoop query rest s insertedCount
    | .ok transformed =>
      if (query s transformed).2 then insertLoop query rest (query s transformed).1 (insertedCount + 1)
      else insertLoop query rest (query s transformed).1 insertedCount

/-- The pipeline of the handler up to the end of the insert loop: `parseCSV`, then the
loop from `insertedCount = 0`, returning the sink state and `insertedCount` reached.  With
no record the handler answers 400 before any insert: the sink is untouched and nothing is
counted.  A failure of `parseCSV` reaches the `catch` of the handler. -/
def ingest {S : Type} (query : S → FlatRecord → S × Bool) (fileContent : Str) (s : S) :
    Except JsError (S × Nat) :=
  match parseCSV fileContent with
  | .error e => .error e
  | .ok records => if records.length = 0 then .ok (s, 0) else .ok (insertLoop query records s 0)

/-! ## Age distribution query -/

/-- The condition `age < 20` of the distribution query. -/
def under_20 (age : Int) : Bool := age < 20

/-- The condition `age >= 20 AND age <= 40`. -/
def between_20_40 (age : Int) : Bool := 20 ≤ age && age ≤ 40

/-- The condition `age > 40 AND age <= 60`. -/
def between_40_60 (age : Int) : Bool := 40 < age && age ≤ 60

/-- The condition `age > 60`. -/
def over_60 (age : Int) : Bool := 60 < age

/-- SQL `SUM(CASE WHEN cond THEN 1 ELSE 0 END)` over the `age` column (`int4 NOT NULL`);
`none` is the `NULL` that `SUM` yields over no rows. -/
def sumCase (cond : Int → Bool) (ages : List Int) : Option Nat :=
  if ages = [] then none else some ((ages.map (fun a => if cond a then 1 else 0)).sum)

/-- The row returned by the distribution query. -/
structure DistributionRow where
  total_count : Nat
  under_20 : Option Nat
  between_20_40 : Option Nat
  between_40_60 : Option Nat
  over_60 : Option Nat
deriving DecidableEq, Repr

/-- The distribution query of the handler and of `generateAgeDistributionReport` (the two
texts are the same), over the ages of the rows of `public.users`. -/
def distributionQuery (ages : List Int) : DistributionRow :=
  { total_count := ages.length
    under_20 := sumCase under_20 ages
    between_20_40 := sumCase between_20_40 ages
    between_40_60 := sumCase between_40_60 ages
    over_60 := sumCase over_60 ages }

/-- The record a data line contributes to the result of `parseCSV`, if any: none when its
field count differs from the header count or when building the record throws. -/
def recordOfLine (headers : List Str) (line : Str) : Option Val :=
  if (parseCSVLine line).length = headers.length then
    (createObjectFromCSV headers (parseCSVLine line)).toOption
  else none

/-! ## Predicates used in the statements about the builder -/

/-- A path of keys that keeps the walk of `setNestedProperty` among plain objects: no key
before the last names a member of `Object.prototype`, and the last key is not
`__proto__`. -/
def plainPath : List Str → Bool
  | [] => true
  | [k] => k ≠ protoKey
  | k :: k2 :: rest => !objectPrototypeNames.contains k && plainPath (k2 :: rest)

/-- Every header keeps the walk among plain objects (see `plainPath`). -/
def plainHeaders (headers : List Str) : Bool :=
  headers.all (fun h => plainPath (headerPath h))

/-- The key `age`. -/
def ageKey : Str := "age".toList

/-- No header extends `age`: a header whose path starts with `age` is the header `age`
itself (there is no header such as `age.x`). -/
def ageHeadersFlat (headers : List Str) : Bool :=
  headers.all (fun h => (headerPath h).head? ≠ some ageKey || headerPath h = [ageKey])

/-- The cells of a row under the headers `age` are all empty (or blank). -/
def ageCellsEmpty (headers cells : List Str) : Bool :=
  (headers.zip cells).all (fun hc => headerPath hc.1 ≠ [ageKey] || trim hc.2 = [])

/-- The tree `t` with the node at a path replaced by `new`; `t` itself when the path does
not lead to a node. -/
def replaceAt : Val → List Str → Val → Val
  | _, [], new => new
  | .obj fs, k :: rest, new =>
    match lookupField k fs with
    | some child => .obj (setField k (replaceAt child rest new) fs)
    | none => .obj fs
  | t, _ :: _, _ => t


/-- No string or number sits at a proper prefix of the path `q` in `t`: the walk along `q`
only meets mappings or absent keys before its last key. -/
def ClearAlong (t : Val) (q : List Str) : Prop :=
  ∀ p v, p <+: q → p ≠ q → getPath t p = some v → v.isLeaf = false

/-- What a walk along `q` storing `leaf` has done to `t`, giving `t1`: the leaf sits at
`q`, nothing lies below it, the proper prefixes of `q` hold mappings, and every path that
neither extends `q` nor is a prefix of it reads as before. -/
def WalkPost (t : Val) (q : List Str) (leaf t1 : Val) : Prop :=
  t1.isLeaf = false ∧
  getPath t1 q = some leaf ∧
  (∀ p, q <+: p → p ≠ q → getPath t1 p = none) ∧
  (∀ p, p <+: q → p ≠ q → ∃ fs, getPath t1 p = some (.obj fs)) ∧
  (∀ p, ¬ q <+: p → ¬ p <+: q → getPath t1 p = getPath t p)

/-- The tree `t` holds exactly the leaves listed in `leaves`, each at its path. -/
def HoldsExactly (t : Val) (leaves : List (List Str × Val)) : Prop :=
  t.isLeaf = false ∧
  (∀ p l, (p, l) ∈ leaves → getPath t p = some l) ∧
  (∀ p l, getPath t p = some l → l.isLeaf = true → (p, l) ∈ leaves)

/-- Neither path is a prefix of the other (in particular they differ). -/
def Unrelated (p q : List Str) : Prop := ¬ p <+: q ∧ ¬ q <+: p

instance (p q : List Str) : Decidable (Unrelated p q) :=
  inferInstanceAs (Decidable (¬ p <+: q ∧ ¬ q <+: p))

/-- The composition `transformRecordForDatabase(createObjectFromCSV(headers, values))`. -/
def buildAndTransform (headers values : List Str) : Except JsError FlatRecord :=
  match createObjectFromCSV headers values with
  | .error e => .error e
  | .ok record => transformRecordForDatabase record

/-- The headers of the example row. -/
def exampleHeaders : List Str :=
  ["name.firstName".toList, "name.lastName".toList, "age".toList, "address.city".toList]

/-! ## Predicates on the age of a record -/

/-- A number that is `NaN`, an infinity, or an integer of either sign. -/
def JSNum.isIntegerOrSpecial : JSNum → Bool
  | .nan => true
  | .inf _ => true
  | .fin _ _ d => d = 0

/-- A non-negative integer: a finite number without fractional part that is zero or
positive. -/
def JSNum.isNonNegativeInteger : JSNum → Bool
  | .fin neg n d => d = 0 && (neg = false || n = 0)
  | _ => false

/-- The text starts, after its leading white space, with a minus sign. -/
def startsWithMinus (s : Str) : Bool := (trimStart s).head? = some '-'

/-! ## Predicates on strings and trees used for the name of a record -/

/-- The string holds a character that is not white space. -/
def hasInk (s : Str) : Bool := s.any (fun c => !isWhiteSpace c)

/-- Every non-empty string found in the tree holds a character that is not white space. -/
def InkLeaves (t : Val) : Prop :=
  ∀ p s, getPath t p = some (.str s) → s ≠ [] → hasInk s = true

/-! ## The remainder of a record -/

/-- The top-level properties of a record other than `name`, `age` and `address`. -/
def otherFields (record : Val) : List (Str × Val) :=
  record.fields.filter
    (fun p => p.1 ≠ "name".toList ∧ p.1 ≠ "age".toList ∧ p.1 ≠ "address".toList)

/-! ## The transformer over a heap of objects

Objects are reference values: the argument of `transformRecordForDatabase` is a reference
to an object that the caller still holds.  This second embedding of the method passes the
heap explicitly, so that what the call does to existing objects can be stated. -/

/-- A value as a variable holds it: a string, a number, or a reference to an object of the
heap. -/
inductive HVal where
  | str (s : Str)
  | num (x : JSNum)
  | ref (a : Nat)
deriving DecidableEq

/-- An object of the heap: its own properties in insertion order. -/
abbrev Cell := List (Str × HVal)

/-- The heap: the object with reference `a` is the `a`-th cell. -/
abbrev Heap := List Cell

/-- Own-property lookup in a cell. -/
def cellLookup (key : Str) : Cell → Option HVal
  | [] => none
  | (k, v) :: rest => if k = key then some v else cellLookup key rest

/-- The own properties of a value in a heap (none for a string or number). -/
def heapFields (h : Heap) : HVal → Cell
  | .ref a => (h.get? a).getD []
  | _ => []

/-- The read `current[key]` in a heap; `none` is `undefined`. -/
def heapGetProp (h : Heap) (current : HVal) (key : Str) : Option HVal :=
  cellLookup key (heapFields h current)

/-- ToBoolean of a heap value: every object is truthy. -/
def HVal.truthy : HVal → Bool
  | .str s => s ≠ []
  | .num x => x.truthy
  | .ref _ => true

/-- ToBoolean of the result of a property read in a heap. -/
def heapTruthyOpt : Option HVal → Bool
  | none => false
  | some v => v.truthy

/-- The heap after a new object with the properties `c` has been created; its reference is
the length of the heap before. -/
def heapAlloc (h : Heap) (c : Cell) : Heap := h ++ [c]

/-- The heap after `delete o[key]` on the object with reference `a`. -/
def heapDelete (key : Str) : Nat → Heap → Heap
  | _, [] => []
  | 0, c :: h => c.filter (fun p => p.1 ≠ key) :: h
  | a + 1, c :: h => c :: heapDelete key a h

/-- The inner loop of `validateMandatoryFields` over a heap. -/
def heapValidateWalk (h : Heap) (field : Str) : List Str → HVal → Except JsError Unit
  | [], _ => .ok ()
  | key :: rest, current =>
    if current.truthy = false ∨ heapTruthyOpt (heapGetProp h current key) = false then
      .error (missingField field)
    else
      match heapGetProp h current key with
      | none => .error (missingField field)
      | some child => heapValidateWalk h field rest child

/-- The outer loop of `validateMandatoryFields` over a heap. -/
def heapValidateFields (h : Heap) (record : HVal) : List Str → Except JsError Unit
  | [] => .ok ()
  | field :: rest =>
    match heapValidateWalk h field (splitOn '.' field) record with
    | .error e => .error e
    | .ok _ => heapValidateFields h record rest

/-- ToString of a heap value (see `toStringVal`). -/
def heapToString (h : Heap) : Option HVal → Except JsError Str
  | none => .ok "undefined".toList
  | some (.str s) => .ok s
  | some (.num x) => .ok (numToString x)
  | some (.ref a) =>
    if (cellLookup "toString".toList (heapFields h (.ref a))).isSome then .error .typeError
    else .ok "[object Object]".toList

/-- The record returned by `transformRecordForDatabase`, with `address` and
`additional_info` as the references the caller receives. -/
structure HeapRecord where
  name : Str
  age : JSNum
  address : Option HVal
  additional_info : Option HVal
deriving DecidableEq

/-- The method `CSVParser.transformRecordForDatabase(record)` over a heap: it returns the
heap it leaves behind together with its result, also when it throws.  The rest pattern and
the spread `{ ...rest }` each create a new object; `delete` acts on the second one. -/
def heapTransform (h : Heap) (record : HVal) : Heap × Except JsError HeapRecord :=
  match heapValidateFields h record mandatoryFields with
  | .error e => (h, .error e)
  | .ok _ =>
    let name := heapGetProp h record "name".toList
    let age := heapGetProp h record "age".toList
    let rest := HVal.ref h.length
    let h1 := heapAlloc h
      ((heapFields h record).filter (fun p => p.1 ≠ "name".toList ∧ p.1 ≠ "age".toList))
    match heapToString h1 (name.bind (fun n => heapGetProp h1 n "firstName".toList)) with
    | .error e => (h1, .error e)
    | .ok f =>
      match heapToString h1 (name.bind (fun n => heapGetProp h1 n "lastName".toList)) with
      | .error e => (h1, .error e)
      | .ok l =>
        let fullName := trim (f ++ ' ' :: l)
        let additionalInfo := h1.length
        let h2 := heapAlloc h1 (heapFields h1 rest)
        let hasAddress := heapTruthyOpt (heapGetProp h2 rest "address".toList)
        let address := if hasAddress then heapGetProp h2 rest "address".toList else none
        let h3 := if hasAddress then heapDelete "address".toList additionalInfo h2 else h2
        match heapToString h3 age with
        | .error e => (h3, .error e)
        | .ok a =>
          (h3, .ok { name := fullName
                     age := parseIntStr a
                     address := address
                     additional_info :=
                       if 0 < (heapFields h3 (.ref additionalInfo)).length
                       then some (.ref additionalInfo) else none })

/-- An example heap: the record `{ name, age, address, gender }` at reference 0, its
`name` object at 1 and its `address` object at 2. -/
def exampleHeap : Heap :=
  [ [("name".toList, .ref 1), ("age".toList, .num (.fin false 30 0)),
     ("address".toList, .ref 2), ("gender".toList, .str "f".toList)],
    [("firstName".toList, .str "Ann".toList), ("lastName".toList, .str "Lee".toList)],
    [("city".toList, .str "Pune".toList)] ]

/-- The same heap with the `age` of the record missing. -/
def exampleHeapNoAge : Heap :=
  [ [("name".toList, .ref 1), ("address".toList, .ref 2)],
    [("firstName".toList, .str "Ann".toList), ("lastName".toList, .str "Lee".toList)],
    [("city".toList, .str "Pune".toList)] ]


/-! ## Arithmetic on numbers and `toFixed(2)` -/

/-- The operator `/` on numbers (Number::divide): the exact quotient rounded to the nearest
double, with the IEEE 754 cases for `NaN`, the infinities and the zeros. -/
def jsDiv : JSNum → JSNum → JSNum
  | .nan, _ => .nan
  | _, .nan => .nan
  | .inf _, .inf _ => .nan
  | .inf s, .fin s2 _ _ => .inf (xor s s2)
  | .fin s _ _, .inf s2 => .fin (xor s s2) 0 0
  | .fin s n d, .fin s2 n2 d2 =>
    if n2 = 0 then (if n = 0 then .nan else .inf (xor s s2))
    else roundRat (xor s s2) (n * 2 ^ d2) (n2 * 2 ^ d)

/-- The operator `*` on numbers (Number::multiply). -/
def jsMul : JSNum → JSNum → JSNum
  | .nan, _ => .nan
  | _, .nan => .nan
  | .inf s, .inf s2 => .inf (xor s s2)
  | .inf s, .fin s2 n _ => if n = 0 then .nan else .inf (xor s s2)
  | .fin s n _, .inf s2 => if n = 0 then .nan else .inf (xor s s2)
  | .fin s n d, .fin s2 n2 d2 => roundRat (xor s s2) (n * n2) (2 ^ (d + d2))

/-- The test `x === 0` on a number. -/
def JSNum.isZero : JSNum → Bool
  | .fin _ n _ => n = 0
  | _ => false

/-- The test `x > 0` on a number. -/
def JSNum.isPositive : JSNum → Bool
  | .fin neg n _ => !neg && n ≠ 0
  | .inf neg => !neg
  | .nan => false

/-- The text of `n` hundredths: the digits of `n`, padded with zeros to three digits, with
a point before the last two (steps 7 to 10 of `Number.prototype.toFixed` for two fraction
digits). -/
def fixedDigits (n : Nat) : Str :=
  let m := natDigits n
  let m := if m.length ≤ 2 then List.replicate (3 - m.length) '0' ++ m else m
  m.take (m.length - 2) ++ '.' :: m.drop (m.length - 2)

/-- The call `x.toFixed(2)`: a number that is not finite or is at least `10 ^ 21` prints as
by ToString; otherwise `n` is the integer for which `n / 100 - x` is closest to zero, the
larger one when there are two, and the text is that of `n` hundredths after the sign. -/
def toFixed2 : JSNum → Str
  | .nan => numToString .nan
  | .inf neg => numToString (.inf neg)
  | .fin neg n d =>
    if 10 ^ 21 * 2 ^ d ≤ n then numToString (.fin neg n d)
    else
      (if neg ∧ n ≠ 0 then ['-'] else []) ++ fixedDigits ((200 * n + 2 ^ d) / 2 ^ (d + 1))

/-! ## The age distribution report -/

/-- The call `parseInt(v)` on a count as the driver returns it: a `bigint` comes as its
decimal numeral (so the missing radix is 10), SQL `NULL` as `null`, which reads as the text
`null`. -/
def parseIntCount : Option Nat → JSNum
  | none => parseIntStr "null".toList
  | some n => parseIntStr (natDigits n)

/-- A division the report evaluates. -/
structure Division where
  dividend : JSNum
  divisor : JSNum
deriving DecidableEq

/-- The expression `((parseInt(count) / total) * 100).toFixed(2)` of the handler, which is
`(parseInt(count) / total * 100).toFixed(2)` in `generateAgeDistributionReport`. -/
def percentage (count : Option Nat) (total : JSNum) : Str :=
  toFixed2 (jsMul (jsDiv (parseIntCount count) total) (.fin false 100 0))

/-- The object `distribution`: the texts under the keys `< 20`, `20 to 40`, `40 to 60` and
`> 60`. -/
structure Distribution where
  under_20 : Str
  between_20_40 : Str
  between_40_60 : Str
  over_60 : Str
deriving DecidableEq

/-- The object literal `distribution` for a row of the distribution query. -/
def distributionOf (row : DistributionRow) (total : JSNum) : Distribution :=
  { under_20 := percentage row.under_20 total
    between_20_40 := percentage row.between_20_40 total
    between_40_60 := percentage row.between_40_60 total
    over_60 := percentage row.over_60 total }

/-- The divisions evaluated by the object literal `distribution`, in order. -/
def distributionDivisions (row : DistributionRow) (total : JSNum) : List Division :=
  [ ⟨parseIntCount row.under_20, total⟩, ⟨parseIntCount row.between_20_40, total⟩,
    ⟨parseIntCount row.between_40_60, total⟩, ⟨parseIntCount row.over_60, total⟩ ]

/-- The method `UserService.generateAgeDistributionReport`, over the ages of the rows of
`public.users`: the value it returns (`none` is `undefined`, from the bare `return` taken
when `total === 0`) and the divisions it has evaluated. -/
def generateAgeDistributionReport (ages : List Int) : Option Distribution × List Division :=
  let row := distributionQuery ages
  let total := parseIntCount (some row.total_count)
  if total.isZero then (none, [])
  else (some (distributionOf row total), distributionDivisions row total)

/-! ## The sink: `public.users` behind a pooled client

The database is not part of the repository; it is modelled as explicit state with the
transaction rules of PostgreSQL.  `BEGIN`, `COMMIT`, `ROLLBACK` and `pool.connect()` are
taken to succeed; an `INSERT` succeeds or fails as the parameter `verdict` decides. -/

/-- A row of `public.users`. -/
structure UserRow where
  name : Str
  age : Int
  address : Option Val
  additional_info : Option Val
  id : Nat
deriving DecidableEq

/-- The transaction state of the session of the client: no transaction, a transaction with
the rows written in it so far, or a transaction in which a statement has failed. -/
inductive Session where
  | idle
  | active (written : List UserRow)
  | aborted
deriving DecidableEq

/-- The sink: the committed rows of `public.users`, the session of the client, the next
value of the `id` sequence, and the number of clients checked out of the pool. -/
structure Db where
  rows : List UserRow
  session : Session
  nextId : Nat
  clients : Nat
deriving DecidableEq

/-- The decision of the database on an `INSERT` of a transformed record: the row it
stores, or the error it reports. -/
abbrev Verdict := Db → FlatRecord → Except JsError UserRow

/-- The error PostgreSQL reports for a statement in a failed transaction. -/
def abortedError : JsError :=
  .error "current transaction is aborted, commands ignored until end of transaction block".toList

/-- The call `pool.connect()`. -/
def Db.connect (db : Db) : Db := { db with clients := db.clients + 1 }

/-- The call `client.release()`. -/
def Db.release (db : Db) : Db := { db with clients := db.clients - 1 }

/-- The statement `BEGIN`. -/
def Db.begin (db : Db) : Db :=
  match db.session with
  | .idle => { db with session := .active [] }
  | _ => db

/-- The statement `COMMIT`: the rows written in the transaction become committed rows; in a
failed transaction it ends the transaction without storing anything. -/
def Db.commit (db : Db) : Db :=
  match db.session with
  | .active written => { db with rows := db.rows ++ written, session := .idle }
  | _ => { db with session := .idle }

/-- The statement `ROLLBACK`. -/
def Db.rollback (db : Db) : Db := { db with session := .idle }

/-- The rows a query of the client sees: the committed rows and those written in its own
open transaction. -/
def Db.visible (db : Db) : List UserRow :=
  match db.session with
  | .active written => db.rows ++ written
  | _ => db.rows

/-- The statement `INSERT INTO public.users ...` for a transformed record.  In a failed
transaction every statement is refused; a refused row fails the open transaction; outside a
transaction an accepted row is committed at once. -/
def Db.insert (verdict : Verdict) (db : Db) (t : FlatRecord) : Db × Except JsError Unit :=
  match db.session with
  | .aborted => (db, .error abortedError)
  | .active written =>
    match verdict db t with
    | .error e => ({ db with session := .aborted }, .error e)
    | .ok row => ({ db with session := .active (written ++ [row]), nextId := db.nextId + 1 }, .ok ())
  | .idle =>
    match verdict db t with
    | .error e => (db, .error e)
    | .ok row => ({ db with rows := db.rows ++ [row], nextId := db.nextId + 1 }, .ok ())

/-- The outcome of an `INSERT` as the insert loop of the handler uses it: the new state and
whether the statement succeeded. -/
def Db.query (verdict : Verdict) (db : Db) (t : FlatRecord) : Db × Bool :=
  ((db.insert verdict t).1, (db.insert verdict t).2.toBool)

/-- The ages of a list of rows. -/
def agesOf (rows : List UserRow) : List Int := rows.map (fun r => r.age)

/-! ## The parser module of the service, modelled from the specification

`userService.js` takes its parser from `../utils/csvParser`, a module that is not in the
repository.  Its methods `parseCSV` and `transformRecordForDatabase` are modelled here from
the component design of the specification (sections 4.1 to 4.5). -/

/-- Modelled from the spec: the coercion of a cell by the path builder of the missing module
`../utils/csvParser` (section 4.2): the trimmed string is stored as a numeric leaf if it is
non-empty and parses fully as a number, and as the trimmed string otherwise. -/
def specCoerce (value : Str) : Val :=
  if trim value ≠ [] ∧ toNumber (trim value) ≠ .nan then .num (toNumber (trim value))
  else .str (trim value)

/-- Modelled from the spec: the insertion of a leaf at a path by the path builder of the
missing module `../utils/csvParser` (section 4.2): the intermediate mapping nodes are
walked or created, and a leaf met on the way is overwritten by a new mapping. -/
def specInsert : List Str → Val → Val → Val
  | [], leaf, _ => leaf
  | key :: rest, leaf, node =>
    .obj (setField key (specInsert rest leaf ((lookupField key node.fields).getD (.obj [])))
      node.fields)

/-- Modelled from the spec: the path builder `build(headers, values)` of the missing module
`../utils/csvParser` (section 4.2), over the header/value pairs: each header is split on
`.` and each segment trimmed. -/
def specBuild (headers values : List Str) : Val :=
  (headers.zip values).foldl
    (fun node hv => specInsert ((splitOn '.' hv.1).map trim) (specCoerce hv.2) node) (.obj [])

/-- Modelled from the spec: the method `parseCSV` of the missing module
`../utils/csvParser` (section 4.5, up to the built records): blank lines are discarded,
fewer than two lines is the empty-source error, line 1 is tokenized as the headers, and
each further line is tokenized (section 4.1) and built into a record unless its column
count differs from the header count. -/
def specParseCSV (sourceText : Str) : Except JsError (List Val) :=
  match nonBlankLines sourceText with
  | headerLine :: row :: rows =>
    .ok ((row :: rows).filterMap (fun line =>
      if (fieldsBySeparators line).length = (fieldsBySeparators headerLine).length then
        some (specBuild (fieldsBySeparators headerLine) (fieldsBySeparators line))
      else none))
  | _ => .error emptySourceError

/-- Modelled from the spec: the walk of the record validator of the missing module
`../utils/csvParser` along one required path (section 4.3): it fails with the
missing-field error of the path when a segment is absent or not a mapping, or when there is
no leaf at the end of the path or the leaf is the empty string; a present number, `0`
included, is not missing. -/
def specValidateWalk (path : Str) : List Str → Val → Except JsError Unit
  | [], .str [] => .error (missingField path)
  | [], .obj _ => .error (missingField path)
  | [], _ => .ok ()
  | key :: rest, node =>
    match node.getProp key with
    | none => .error (missingField path)
    | some child => specValidateWalk path rest child

/-- Modelled from the spec: the record validator of the missing module
`../utils/csvParser` over the required paths still to check (section 4.3): the first
missing path determines the error. -/
def specValidateFields (record : Val) : List Str → Except JsError Unit
  | [] => .ok ()
  | path :: rest =>
    match specValidateWalk path (splitOn '.' path) record with
    | .error e => .error e
    | .ok _ => specValidateFields record rest

/-- Modelled from the spec: the method `validateMandatoryFields` of the missing module
`../utils/csvParser` (section 4.3), with the required paths `name.firstName`,
`name.lastName` and `age`. -/
def specValidate (record : Val) : Except JsError Unit :=
  specValidateFields record ["name.firstName".toList, "name.lastName".toList, "age".toList]

/-- Modelled from the spec: the text of a leaf as the record transformer of the missing
module `../utils/csvParser` stringifies it (section 4.4, step 2). -/
def specText : Option Val → Str
  | some (.str s) => s
  | some (.num x) => numToString x
  | _ => []

/-- Modelled from the spec: the age the record transformer of the missing module
`../utils/csvParser` parses from a leaf (section 4.4, step 3): a base-10 integer, by the
integer-parsing semantics of the stored type; a number is truncated toward zero. -/
def specAge : Option Val → JSNum
  | some (.str s) => parseIntStr s
  | some (.num (.fin neg n d)) => .fin neg (n / 2 ^ d) 0
  | some (.num x) => x
  | _ => .nan

/-- Modelled from the spec: the method `transformRecordForDatabase` of the missing module
`../utils/csvParser` (section 4.4): the record is validated first; the name is the two
stringified values joined by a blank and trimmed; `name` and `age` are removed from the
top level, a remaining `address` is lifted out, and what remains is the `additional_info`,
absent when empty. -/
def specTransform (record : Val) : Except JsError FlatRecord :=
  match specValidate record with
  | .error e => .error e
  | .ok _ =>
    .ok { name := trim (specText (getPath record ["name".toList, "firstName".toList]) ++
            ' ' :: specText (getPath record ["name".toList, "lastName".toList]))
          age := specAge (record.getProp "age".toList)
          address := lookupField "address".toList
            (removeField "age".toList (removeField "name".toList record.fields))
          additional_info :=
            if removeField "address".toList
                (removeField "age".toList (removeField "name".toList record.fields)) = [] then
              none
            else some (.obj (removeField "address".toList
              (removeField "age".toList (removeField "name".toList record.fields)))) }

/-! ## The service (`UserService`) -/

/-- The loop `for (const user of users)` of `bulkInsertUsers`: the first failing `INSERT`
ends it with the error. -/
def bulkInsertLoop (verdict : Verdict) : List FlatRecord → Db → Db × Except JsError Unit
  | [], db => (db, .ok ())
  | user :: rest, db =>
    match (db.insert verdict user).2 with
    | .error e => ((db.insert verdict user).1, .error e)
    | .ok _ => bulkInsertLoop verdict rest (db.insert verdict user).1

/-- The method `UserService.bulkInsertUsers(users)`: `BEGIN`, the inserts, `COMMIT`; on an
error `ROLLBACK` and the error is thrown again; the client is released in either case. -/
def bulkInsertUsers (verdict : Verdict) (users : List FlatRecord) (db : Db) :
    Db × Except JsError Unit :=
  match (bulkInsertLoop verdict users db.connect.begin).2 with
  | .ok _ => ((bulkInsertLoop verdict users db.connect.begin).1.commit.release, .ok ())
  | .error e => ((bulkInsertLoop verdict users db.connect.begin).1.rollback.release, .error e)

/-- The call `records.map(record => transformRecordForDatabase(record))`: the first record
whose transformation throws ends the map with that error. -/
def mapTransform (transform : Val → Except JsError FlatRecord) :
    List Val → Except JsError (List FlatRecord)
  | [] => .ok []
  | record :: rest =>
    match transform record with
    | .error e => .error e
    | .ok t =>
      match mapTransform transform rest with
      | .error e => .error e
      | .ok ts => .ok (t :: ts)

/-- The method `UserService.processCSVFile`, on the content of the file.  The module
`../utils/csvParser` it takes its parser from is not in the repository, so the two parser
methods it calls are parameters (`specParseCSV` and `specTransform` model them from the
specification).  The result is the sink it leaves and either the `totalRecords` of the
object it returns or the error it throws. -/
def processCSVFile (parse : Str → Except JsError (List Val))
    (transform : Val → Except JsError FlatRecord) (verdict : Verdict) (fileContent : Str)
    (db : Db) : Db × Except JsError Nat :=
  match parse fileContent with
  | .error e => (db, .error e)
  | .ok records =>
    match mapTransform transform records with
    | .error e => (db, .error e)
    | .ok transformedRecords =>
      match (bulkInsertUsers verdict transformedRecords db).2 with
      | .error e => ((bulkInsertUsers verdict transformedRecords db).1, .error e)
      | .ok _ => ((bulkInsertUsers verdict transformedRecords db).1, .ok records.length)

/-! ## The handler of `POST /process-csv` -/

/-- The answers of the handler: the two answers with status 400, the answer with
`success: true` (`age_distribution` is `none` for the text `No data`), and the answer with
status 500 carrying the message of the error caught. -/
inductive Response where
  | fileNotFound
  | noValidRecords
  | success (records_processed : Nat) (age_distribution : Option Distribution)
  | failure (cause : JsError)
deriving DecidableEq

/-- The part of the handler from the result of the distribution query to `res.json`, with
the divisions it evaluates.  The constant `distribution` is declared in the `else` block, so
the object literal of the response, which reads it when `total > 0`, raises a
`ReferenceError`. -/
def handlerReport (row : DistributionRow) (insertedCount : Nat) :
    Except JsError Response × List Division :=
  let total := parseIntCount (some row.total_count)
  let divisions := if total.isZero then [] else distributionDivisions row total
  if total.isPositive then (.error (.referenceError "distribution".toList), divisions)
  else (.ok (.success insertedCount none), divisions)

/-- The `try` block of the handler, on the content of the file (`none` when the file does
not exist) and the sink after `pool.connect()`. -/
def handlerBody (verdict : Verdict) (file : Option Str) (db : Db) :
    Db × Except JsError Response × List Division :=
  match file with
  | none => (db, .ok .fileNotFound, [])
  | some fileContent =>
    match parseCSV fileContent with
    | .error e => (db, .error e, [])
    | .ok records =>
      if records.length = 0 then (db, .ok .noValidRecords, [])
      else
        let loop := insertLoop (Db.query verdict) records db.begin 0
        let db1 := loop.1.commit
        let report := handlerReport (distributionQuery (agesOf db1.visible)) loop.2
        (db1, report.1, report.2)

/-- The handler of `POST /process-csv`: the client is taken from the pool, the `try` block
runs, an error is answered with `ROLLBACK` and status 500, and the client is released in
every case.  The result is the sink left behind, the answer, and the divisions evaluated. -/
def processCsv (verdict : Verdict) (file : Option Str) (db : Db) : Db × Response × List Division :=
  match (handlerBody verdict file db.connect).2.1 with
  | .ok response =>
    ((handlerBody verdict file db.connect).1.release, response,
      (handlerBody verdict file db.connect).2.2)
  | .error e =>
    ((handlerBody verdict file db.connect).1.rollback.release, .failure e,
      (handlerBody verdict file db.connect).2.2)

/-- An instance of the decision on an `INSERT`: the check of the column `age int4 NOT NULL`
on the text the driver sends for the number (the other columns are not checked in this
instance).  The row takes the next `id`. -/
def ageColumnVerdict : Verdict := fun db t =>
  match t.age with
  | .fin neg n 0 =>
    if n < 2 ^ 31 ∨ (neg = true ∧ n = 2 ^ 31) then
      .ok { name := t.name, age := if neg then -(n : Int) else (n : Int),
            address := t.address, additional_info := t.additional_info, id := db.nextId }
    else .error (.error "value is out of range for type integer".toList)
  | _ => .error (.error "invalid input syntax for type integer".toList)

/-- An empty sink: no row, no transaction, no client checked out. -/
def emptyDb : Db := { rows := [], session := .idle, nextId := 1, clients := 0 }

/-- A transformed record with a name and an age only. -/
def userOf (name : Str) (age : JSNum) : FlatRecord :=
  { name := name, age := age, address := none, additional_info := none }

/-- A sink holding one committed row. -/
def oneRowDb : Db :=
  { rows := [{ name := "Zoe Ng".toList, age := 41, address := none, additional_info := none,
               id := 1 }]
    session := .idle, nextId := 2, clients := 0 }

/-- A file with one good row and one row whose age is not a number. -/
def fileWithBadAge : Str :=
  "name.firstName,name.lastName,age\nAnn,Lee,30\nBob,Ray,abc".toList

/-- A file with one good row and one row without an age. -/
def fileWithoutAge : Str :=
  "name.firstName,name.lastName,age\nAnn,Lee,30\nBob,Ray,".toList

/-- The record `parseCSV` builds for a row of the two files. -/
def rowRecord (first last : Str) (age : Val) : Val :=
  .obj [("name".toList, .obj [("firstName".toList, .str first), ("lastName".toList, .str last)]),
    ("age".toList, age)]

/-! ## The percentage as the specification words it -/

/-- Specification reading of a percentage: `100 * bucketCount / totalCount` rounded to two
decimal places, a tie going up as `toFixed` rounds, as text. -/
def specPercentage (bucketCount totalCount : Nat) : Str :=
  fixedDigits ((20000 * bucketCount + totalCount) / (2 * totalCount))

/-- The text is the numeral of a hundredth nearest to `100 * count / total`: of `n`
hundredths with `|n / 100 - 100 * count / total| ≤ 1 / 200`. -/
def NearestPercent (text : Str) (count total : Nat) : Prop :=
  ∃ n : Nat, text = fixedDigits n ∧ 2 * |(n : Int) * total - 10000 * count| ≤ total

/-- The value `100 * count / total` lies exactly halfway between two hundredths. -/
def isHalfway (count total : Nat) : Bool := (20000 * count + total) % (2 * total) = 0

/-- The text is `100 * count / total` rounded to two decimal places, except that a value
exactly halfway between two hundredths may have gone to either of them. -/
def RoundedPercent (text : Str) (count total : Nat) : Prop :=
  NearestPercent text count total ∧
    (isHalfway count total = false → text = specPercentage count total)

/-- A file with one good row. -/
def fileWithOneRow : Str := "name.firstName,name.lastName,age\nAnn,Lee,30".toList


/-! ## Tokenizer lemmas -/

theorem parseCSVLineLoop_snoc (l : Str) (c : Char) :
    parseCSVLineLoop (l ++ [c]) = parseCSVLineStep (parseCSVLineLoop l) c := by
  simp [parseCSVLineLoop, List.foldl_append]

theorem isSeparatorAt_snoc_lt (l : Str) (c : Char) (i : Nat) (h : i < l.length) :
    isSeparatorAt (l ++ [c]) i = isSeparatorAt l i := by
  unfold isSeparatorAt
  rw [List.get?_eq_getElem?, List.get?_eq_getElem?, List.getElem?_append_left h,
    List.take_append_of_le_length (Nat.le_of_lt h)]

theorem isSeparatorAt_snoc_length (l : Str) (c : Char) :
    isSeparatorAt (l ++ [c]) l.length = (c == ',' && l.count '"' % 2 == 0) := by
  unfold isSeparatorAt
  rw [List.get?_eq_getElem?]
  simp [List.take_append_of_le_length (Nat.le_refl l.length)]

theorem separatorPositions_snoc (l : Str) (c : Char) :
    separatorPositions (l ++ [c]) =
      separatorPositions l ++ (if (c == ',' && l.count '"' % 2 == 0) then [l.length] else []) := by
  unfold separatorPositions
  rw [List.length_append, List.length_singleton, List.range_succ, List.filter_append]
  congr 1
  · apply List.filter_congr
    intro i hi
    exact isSeparatorAt_snoc_lt l c i (List.mem_range.mp hi)
  · simp only [List.filter_cons, List.filter_nil, isSeparatorAt_snoc_length]

theorem separatorPositions_lt (l : Str) (i : Nat) (h : i ∈ separatorPositions l) :
    i < l.length := by
  unfold separatorPositions at h
  exact List.mem_range.mp (List.mem_filter.mp h).1

theorem fieldBetween_snoc (l : Str) (c : Char) (lo hi : Nat) (h : hi ≤ l.length) :
    fieldBetween (l ++ [c]) lo hi = fieldBetween l lo hi := by
  unfold fieldBetween
  rw [List.take_append_of_le_length h]

theorem cutAt_eq_cutDone (line : Str) (ps : List Nat) (lo : Nat) :
    cutAt line lo ps =
      (cutDone line lo ps).1 ++ [fieldBetween line (cutDone line lo ps).2 line.length] := by
  induction ps generalizing lo with
  | nil => simp [cutAt, cutDone]
  | cons p ps ih => simp [cutAt, cutDone, ih]

theorem cutDone_snoc (line : Str) (ps : List Nat) (p lo : Nat) :
    cutDone line lo (ps ++ [p]) =
      ((cutDone line lo ps).1 ++ [fieldBetween line (cutDone line lo ps).2 p], p + 1) := by
  induction ps generalizing lo with
  | nil => simp [cutDone]
  | cons q ps ih => simp [cutDone, ih]

theorem cutDone_append_char (l : Str) (c : Char) (ps : List Nat) (lo : Nat)
    (h : ∀ p ∈ ps, p < l.length) : cutDone (l ++ [c]) lo ps = cutDone l lo ps := by
  induction ps generalizing lo with
  | nil => simp [cutDone]
  | cons q ps ih =>
    have hq : q < l.length := h q (List.mem_cons_self _ _)
    have hps : ∀ p ∈ ps, p < l.length := fun p hp => h p (List.mem_cons_of_mem _ hp)
    simp [cutDone, ih _ hps, fieldBetween_snoc l c lo q (Nat.le_of_lt hq)]

theorem cutDone_start_le (line : Str) (n : Nat) (ps : List Nat) (lo : Nat)
    (h : ∀ p ∈ ps, p < n) (hlo : lo ≤ n) : (cutDone line lo ps).2 ≤ n := by
  induction ps generalizing lo with
  | nil => simpa [cutDone] using hlo
  | cons q ps ih =>
    have hq : q < n := h q (List.mem_cons_self _ _)
    have hps : ∀ p ∈ ps, p < n := fun p hp => h p (List.mem_cons_of_mem _ hp)
    simpa [cutDone] using ih (q + 1) hps hq

theorem cutAt_length (line : Str) (ps : List Nat) (lo : Nat) :
    (cutAt line lo ps).length = 1 + ps.length := by
  induction ps generalizing lo with
  | nil => simp [cutAt]
  | cons p ps ih => simp [cutAt, ih]; omega

theorem parity_flip (a : Nat) : decide (a % 2 = 1) = !decide ((a + 1) % 2 = 1) := by
  rcases Nat.mod_two_eq_zero_or_one a with h | h
  · have h1 : (a + 1) % 2 = 1 := by omega
    simp [h, h1]
  · have h1 : (a + 1) % 2 = 0 := by omega
    simp [h, h1]

/-- The loop invariant of `parseCSVLine`: after reading the prefix `l`, the completed
fields are those cut at the separators seen so far, the buffer holds the unquoted text
since the last separator, and the flag is the parity of the quotes read. -/
theorem parseCSVLineLoop_invariant (l : Str) :
    parseCSVLineLoop l =
      { result := (cutDone l 0 (separatorPositions l)).1
        current := (l.drop (cutDone l 0 (separatorPositions l)).2).filter (fun c => c ≠ '"')
        inQuotes := decide (l.count '"' % 2 = 1) } := by
  induction l using List.reverseRecOn with
  | nil => simp [parseCSVLineLoop, separatorPositions, cutDone]
  | append_singleton l c ih =>
    have hlt := separatorPositions_lt l
    have hle : (cutDone l 0 (separatorPositions l)).2 ≤ l.length :=
      cutDone_start_le l l.length _ 0 hlt (Nat.zero_le _)
    rw [parseCSVLineLoop_snoc, ih, separatorPositions_snoc]
    unfold parseCSVLineStep
    by_cases hq : c = '"'
    · subst hq
      simp only [if_true]
      simp [cutDone_append_char l _ _ 0 hlt, List.drop_append_of_le_length hle,
        List.count_append]
      exact parity_flip _
    · simp only [hq, if_false]
      by_cases hc : c = ','
      · subst hc
        by_cases hpar : l.count '"' % 2 = 1
        · have hne : ¬ (l.count '"' % 2 = 0) := by omega
          simp [hpar, hne, cutDone_append_char l _ _ 0 hlt, List.drop_append_of_le_length hle,
            List.count_append]
        · have he : l.count '"' % 2 = 0 := by omega
          simp [he, cutDone_snoc, cutDone_append_char l _ _ 0 hlt, List.count_append,
            fieldBetween_snoc l ',' _ l.length (Nat.le_refl _)]
          simp [fieldBetween]
      · simp [hc, hq, cutDone_append_char l _ _ 0 hlt, List.drop_append_of_le_length hle,
          List.count_append, List.count_cons]

/-- C1. `parseCSVLine` cuts a line exactly at the commas preceded by an even number of
double quotes: its result is the list of (unquoted, trimmed) texts between those commas,
so it has one more field than there are such commas and a comma inside quotes stays in
its field; and `parseCSVLine('a,"b,c",d')` is `["a", "b,c", "d"]`. -/
theorem parseCSVLine_cuts_at_unquoted_commas :
    (∀ line : Str, parseCSVLine line = fieldsBySeparators line ∧
      (parseCSVLine line).length = 1 + (separatorPositions line).length) ∧
    parseCSVLine "a,\"b,c\",d".toList = ["a".toList, "b,c".toList, "d".toList] := by
  have key : ∀ line : Str, parseCSVLine line = fieldsBySeparators line := by
    intro line
    unfold parseCSVLine fieldsBySeparators
    rw [cutAt_eq_cutDone]
    simp only [parseCSVLineLoop_invariant line]
    simp [fieldBetween]
  refine ⟨fun line => ⟨key line, ?_⟩, by decide⟩
  rw [key line]
  exact cutAt_length line _ 0


/-! ## Property lists -/

theorem lookupField_setField_same (key : Str) (v : Val) (fs : List (Str × Val)) :
    lookupField key (setField key v fs) = some v := by
  induction fs with
  | nil => simp [setField, lookupField]
  | cons p fs ih =>
    obtain ⟨k, w⟩ := p
    by_cases h : k = key
    · simp [setField, lookupField, h]
    · simp [setField, lookupField, h, ih]

theorem lookupField_setField_other (key key2 : Str) (v : Val) (fs : List (Str × Val))
    (hne : key2 ≠ key) : lookupField key2 (setField key v fs) = lookupField key2 fs := by
  induction fs with
  | nil =>
    have h : ¬ key = key2 := fun e => hne e.symm
    simp [setField, lookupField, h]
  | cons p fs ih =>
    obtain ⟨k, w⟩ := p
    by_cases h : k = key
    · subst h
      have h2 : ¬ k = key2 := fun e => hne e.symm
      simp [setField, lookupField, h2]
    · by_cases h2 : k = key2
      · subst h2
        simp [setField, lookupField, hne]
      · simp [setField, lookupField, h, h2, ih]

theorem setField_setField (key : Str) (v w : Val) (fs : List (Str × Val)) :
    setField key w (setField key v fs) = setField key w fs := by
  induction fs with
  | nil => simp [setField]
  | cons p fs ih =>
    obtain ⟨k, u⟩ := p
    by_cases h : k = key
    · simp [setField, h]
    · simp [setField, h, ih]

theorem assign_leaf (leaf : Val) (key : Str) (v : Val) (h : leaf.isLeaf = true)
    (hk : key ≠ protoKey) : leaf.assign key v = .error .typeError := by
  cases leaf with
  | str s => simp [Val.assign, hk]
  | num x => simp [Val.assign, hk]
  | obj fs => simp [Val.isLeaf] at h

theorem assign_obj_own (fs : List (Str × Val)) (key : Str) (v w : Val)
    (h : lookupField key fs = some w) :
    (Val.obj fs).assign key v = .ok (.obj (setField key v fs)) := by
  simp [Val.assign, h]

theorem assign_obj_plain (fs : List (Str × Val)) (key : Str) (v : Val) (hk : key ≠ protoKey) :
    (Val.obj fs).assign key v = .ok (.obj (setField key v fs)) := by
  simp [Val.assign, hk]

theorem readsBuiltin_own (fs : List (Str × Val)) (key : Str) (w : Val)
    (h : lookupField key fs = some w) : (Val.obj fs).readsBuiltin key = false := by
  simp [Val.readsBuiltin, h]

theorem readsBuiltin_plain (fs : List (Str × Val)) (key : Str)
    (h : objectPrototypeNames.contains key = false) : (Val.obj fs).readsBuiltin key = false := by
  show ((lookupField key fs).isNone && objectPrototypeNames.contains key) = false
  rw [h, Bool.and_false]

theorem protoKey_inherited : objectPrototypeNames.contains protoKey = true := by decide

theorem ne_protoKey_of_plain (key : Str) (h : objectPrototypeNames.contains key = false) :
    key ≠ protoKey := by
  intro e
  rw [e, protoKey_inherited] at h
  cases h

theorem getProp_leaf (leaf : Val) (key : Str) (h : leaf.isLeaf = true) :
    leaf.getProp key = none := by
  cases leaf with
  | str s => rfl
  | num x => rfl
  | obj fs => simp [Val.isLeaf] at h

theorem coerceValue_isLeaf (value : Str) : (coerceValue value).isLeaf = true := by
  unfold coerceValue
  split <;> rfl

theorem getPath_leaf_cons (leaf : Val) (k : Str) (rest : List Str) (h : leaf.isLeaf = true) :
    getPath leaf (k :: rest) = none := by
  simp [getPath, getProp_leaf leaf k h]

theorem getPath_obj_cons (fs : List (Str × Val)) (k : Str) (rest : List Str) :
    getPath (.obj fs) (k :: rest) =
      match lookupField k fs with
      | none => none
      | some child => getPath child rest := rfl

theorem isLeaf_of_falsy (v : Val) (h : v.truthy = false) : v.isLeaf = true := by
  cases v with
  | str s => rfl
  | num x => rfl
  | obj fs => simp [Val.truthy] at h

theorem obj_of_not_leaf (v : Val) (h : v.isLeaf = false) : ∃ fs, v = .obj fs := by
  cases v with
  | str s => simp [Val.isLeaf] at h
  | num x => simp [Val.isLeaf] at h
  | obj fs => exact ⟨fs, rfl⟩


/-! ## C3, C4: validation and the number zero -/

/-- C3 (the code departs from it). For every record whose `name.firstName` and
`name.lastName` are non-empty strings and whose `age` is the number zero,
`validateMandatoryFields` throws `Missing mandatory field: age`, and so does
`transformRecordForDatabase`: the present numeric `0` is treated as missing. -/
theorem validate_rejects_age_zero (record nm : Val) (f l : Str) (neg : Bool) (d : Nat)
    (hname : record.getProp "name".toList = some nm)
    (hfirst : nm.getProp "firstName".toList = some (.str f)) (hf : f ≠ [])
    (hlast : nm.getProp "lastName".toList = some (.str l)) (hl : l ≠ [])
    (hage : record.getProp "age".toList = some (.num (.fin neg 0 d))) :
    validateMandatoryFields record = .error (missingField "age".toList) ∧
    transformRecordForDatabase record = .error (missingField "age".toList) := by
  have hrec : record.truthy = true := by
    cases record with
    | obj fs => rfl
    | str s => simp [Val.getProp] at hname
    | num x => simp [Val.getProp] at hname
  have hnm : nm.truthy = true := by
    cases nm with
    | obj fs => rfl
    | str s => simp [Val.getProp] at hfirst
    | num x => simp [Val.getProp] at hfirst
  have hv : validateMandatoryFields record = .error (missingField "age".toList) := by
    have e1 : splitOn '.' "name.firstName".toList = ["name".toList, "firstName".toList] := by decide
    have e2 : splitOn '.' "name.lastName".toList = ["name".toList, "lastName".toList] := by decide
    have e3 : splitOn '.' "age".toList = ["age".toList] := by decide
    have tf : (Val.str f).truthy = true := by simp [Val.truthy, hf]
    have tl : (Val.str l).truthy = true := by simp [Val.truthy, hl]
    have tz : (Val.num (.fin neg 0 d)).truthy = false := by simp [Val.truthy, JSNum.truthy]
    simp only [String.toList] at hname hfirst hlast hage
    simp only [validateMandatoryFields, mandatoryFields, validateFields, e1, e2, e3, validateWalk,
      hname, hfirst, hlast, hage, hrec, hnm, truthyOpt, tf, tl, tz]
    simp
  exact ⟨hv, by simp [transformRecordForDatabase, hv]⟩

/-- The row `Ann,Lee,0` builds a record with the number `0` as age, which is rejected as
lacking `age`. -/
theorem validate_rejects_age_zero_witness :
    createObjectFromCSV ["name.firstName".toList, "name.lastName".toList, "age".toList]
        ["Ann".toList, "Lee".toList, "0".toList]
      = .ok (.obj [("name".toList, .obj [("firstName".toList, .str "Ann".toList),
          ("lastName".toList, .str "Lee".toList)]), ("age".toList, .num (.fin false 0 0))]) ∧
    validateMandatoryFields (.obj [("name".toList, .obj [("firstName".toList, .str "Ann".toList),
        ("lastName".toList, .str "Lee".toList)]), ("age".toList, .num (.fin false 0 0))])
      = .error (missingField "age".toList) ∧
    transformRecordForDatabase (.obj [("name".toList, .obj [("firstName".toList, .str "Ann".toList),
        ("lastName".toList, .str "Lee".toList)]), ("age".toList, .num (.fin false 0 0))])
      = .error (missingField "age".toList) :=
  ⟨by decide,
    validate_rejects_age_zero _ (.obj [("firstName".toList, .str "Ann".toList),
      ("lastName".toList, .str "Lee".toList)]) "Ann".toList "Lee".toList false 0
      (by decide) (by decide) (by decide) (by decide) (by decide) (by decide)⟩

/-- C4 (the code departs from it). The row `0,,5` under the headers `name.firstName`,
`name.lastName`, `age` builds a record whose `name.firstName` is the number `0` and whose
`name.lastName` is the empty string: the first required path with an absent or empty
leaf is `name.lastName`, yet the error thrown names `name.firstName`. -/
theorem validate_names_zero_leaf_first :
    createObjectFromCSV ["name.firstName".toList, "name.lastName".toList, "age".toList]
        ["0".toList, [], "5".toList]
      = .ok (.obj [("name".toList, .obj [("firstName".toList, .num (.fin false 0 0)),
          ("lastName".toList, .str [])]), ("age".toList, .num (.fin false 5 0))]) ∧
    validateMandatoryFields (.obj [("name".toList, .obj [("firstName".toList, .num (.fin false 0 0)),
          ("lastName".toList, .str [])]), ("age".toList, .num (.fin false 5 0))])
      = .error (missingField "name.firstName".toList) ∧
    missingField "name.firstName".toList ≠ missingField "name.lastName".toList := by
  decide


/-! ## C5: a dotted header under a leaf -/

theorem getPath_cons_some (t : Val) (k : Str) (rest : List Str) (w : Val)
    (h : getPath t (k :: rest) = some w) :
    ∃ fs child, t = .obj fs ∧ lookupField k fs = some child ∧ getPath child rest = some w := by
  cases t with
  | str s => simp [getPath, Val.getProp] at h
  | num x => simp [getPath, Val.getProp] at h
  | obj fs =>
    rw [getPath_obj_cons] at h
    cases hc : lookupField k fs with
    | none => rw [hc] at h; cases h
    | some child =>
      rw [hc] at h
      exact ⟨fs, child, rfl, hc, h⟩

theorem getPath_replaceAt (p : List Str) (new : Val) :
    ∀ (t w : Val), getPath t p = some w → getPath (replaceAt t p new) p = some new := by
  induction p with
  | nil => intro t w _; cases t <;> rfl
  | cons k rest ih =>
    intro t w h
    obtain ⟨fs, child, rfl, hc, hrest⟩ := getPath_cons_some t k rest w h
    simp only [replaceAt, hc, getPath_obj_cons, lookupField_setField_same]
    exact ih child w hrest

theorem getPath_append (p q : List Str) :
    ∀ (t u : Val), getPath t p = some u → getPath t (p ++ q) = getPath u q := by
  induction p with
  | nil =>
    intro t u h
    simp only [getPath, Option.some.injEq] at h
    subst h
    rfl
  | cons k rest ih =>
    intro t u h
    obtain ⟨fs, child, rfl, hc, hrest⟩ := getPath_cons_some t k rest u h
    simp only [List.cons_append, getPath_obj_cons, hc]
    exact ih child u hrest

/-- The walk along `p.q` when a string or number sits at `p`: a truthy leaf is stepped into
and the write to it raises; a falsy one is replaced by a mapping that receives `q`. -/
theorem walk_under_leaf (kq : Str) (hq : trim kq ≠ protoKey) (leaf v : Val)
    (hl : leaf.isLeaf = true) (ks : List Str) (hne : ks ≠ []) :
    ∀ t, getPath t (ks.map trim) = some leaf →
      setNestedWalk (ks ++ [kq]) t v =
        if leaf.truthy then .error .typeError
        else .ok (replaceAt t (ks.map trim) (.obj [(trim kq, v)])) := by
  induction ks with
  | nil => exact absurd rfl hne
  | cons k rest ih =>
    intro t ht
    simp only [List.map_cons] at ht
    obtain ⟨fs, child, rfl, hc, hrest⟩ := getPath_cons_some t (trim k) _ leaf ht
    have hrb := readsBuiltin_own fs (trim k) child hc
    cases rest with
    | nil =>
      simp only [List.map_nil, getPath, Option.some.injEq] at hrest
      subst hrest
      simp only [List.cons_append, List.nil_append, List.map_cons, List.map_nil]
      by_cases htr : child.truthy = true
      · simp only [setNestedWalk, hrb, Bool.false_eq_true, if_false, Val.getProp, hc, truthyOpt,
          htr, if_true, assign_leaf child _ _ hl hq]
      · simp only [setNestedWalk, hrb, Bool.false_eq_true, if_false, Val.getProp, hc, truthyOpt,
          htr, assign_obj_own fs _ _ child hc, lookupField_setField_same,
          assign_obj_plain [] _ _ hq, Val.withProp, setField_setField, replaceAt, setField]
    | cons k2 rest2 =>
      have hobj : child.isLeaf = false := by
        cases hcl : child.isLeaf with
        | false => rfl
        | true =>
          simp only [List.map_cons] at hrest
          rw [getPath_leaf_cons child _ _ hcl] at hrest
          cases hrest
      obtain ⟨cfs, rfl⟩ := obj_of_not_leaf child hobj
      have ih2 := ih (by simp) (.obj cfs) hrest
      have htr : truthyOpt (some (Val.obj cfs)) = true := rfl
      simp only [List.cons_append] at ih2 ⊢
      simp only [setNestedWalk, hrb, Bool.false_eq_true, if_false, Val.getProp, hc, htr, if_true,
        ih2, List.map_cons, replaceAt]
      by_cases hlt : leaf.truthy = true
      · simp only [hlt, if_true]
      · simp only [hlt, Bool.false_eq_true, if_false, Val.withProp]

theorem createObjectLoop_cons (header : Str) (hs values : List Str) (obj : Val) :
    createObjectLoop (header :: hs) values obj =
      match setNestedProperty obj (trim header) (cellValue values.head?) with
      | .error e => .error e
      | .ok obj1 => createObjectLoop hs values.tail obj1 := rfl

/-- C5, as the code has it. When the record built so far holds a string or number leaf at
the path `p` and the next header is `p.q` (with `q` other than `__proto__`), the step of
`createObjectFromCSV` replaces the leaf by the mapping `{q: value}` and goes on only if the
leaf is falsy (the empty string or the number 0), and then the path `p.q` reads the value;
if the leaf is a non-empty string or a non-zero number the write raises a `TypeError`. -/
theorem createObject_dotted_header_under_leaf (t : Val) (header v kq : Str) (ks : List Str)
    (hs vs : List Str) (leaf : Val)
    (hpath : splitOn '.' (trim header) = ks ++ [kq]) (hne : ks ≠ [])
    (hq : trim kq ≠ protoKey)
    (hleaf : getPath t (ks.map trim) = some leaf) (hl : leaf.isLeaf = true) :
    createObjectLoop (header :: hs) (v :: vs) t =
      (if leaf.truthy then .error .typeError
       else createObjectLoop hs vs
        (replaceAt t (ks.map trim) (.obj [(trim kq, coerceValue (cellValue (some v)))]))) ∧
    getPath (replaceAt t (ks.map trim) (.obj [(trim kq, coerceValue (cellValue (some v)))]))
      (ks.map trim) = some (.obj [(trim kq, coerceValue (cellValue (some v)))]) ∧
    getPath (replaceAt t (ks.map trim) (.obj [(trim kq, coerceValue (cellValue (some v)))]))
      (ks.map trim ++ [trim kq]) = some (coerceValue (cellValue (some v))) := by
  have hrep := getPath_replaceAt (ks.map trim)
    (.obj [(trim kq, coerceValue (cellValue (some v)))]) t leaf hleaf
  refine ⟨?_, hrep, ?_⟩
  · rw [createObjectLoop_cons]
    unfold setNestedProperty
    rw [hpath, walk_under_leaf kq hq leaf _ hl ks hne t hleaf]
    by_cases ht : leaf.truthy = true
    · simp [ht]
    · simp [ht]
  · rw [getPath_append _ _ _ _ hrep]
    simp [getPath, Val.getProp, lookupField]

/-- With an empty cell under `a.b`, the header `a.b.c` replaces the leaf by a mapping. -/
theorem createObject_dotted_header_under_leaf_witness :
    getPath (.obj [("a".toList, .obj [("b".toList, .str [])])]) ["a".toList, "b".toList]
      = some (.str []) ∧
    createObjectLoop ["a.b.c".toList] ["Paris".toList]
        (.obj [("a".toList, .obj [("b".toList, .str [])])]) =
      .ok (.obj [("a".toList, .obj [("b".toList, .obj [("c".toList, .str "Paris".toList)])])]) ∧
    createObjectFromCSV ["address".toList, "address.city".toList] ["".toList, "Paris".toList]
      = .ok (.obj [("address".toList, .obj [("city".toList, .str "Paris".toList)])]) ∧
    (createObjectLoop ["a.b.c".toList] ["Paris".toList]
        (.obj [("a".toList, .obj [("b".toList, .str [])])]) =
      (if (Val.str []).truthy then .error .typeError
       else createObjectLoop [] []
        (replaceAt (.obj [("a".toList, .obj [("b".toList, .str [])])])
          (["a".toList, "b".toList].map trim)
          (.obj [(trim "c".toList, coerceValue (cellValue (some "Paris".toList)))])))) :=
  ⟨by decide, by decide, by decide,
    (createObject_dotted_header_under_leaf (.obj [("a".toList, .obj [("b".toList, .str [])])])
      "a.b.c".toList "Paris".toList "c".toList ["a".toList, "b".toList] [] [] (.str [])
      (by decide) (by decide) (by decide) (by decide) (by decide)).1⟩

/-- C5 fails as stated: with the headers `address`, `address.city` and the values `X`,
`Paris` the leaf `X` is not overwritten; `createObjectFromCSV` raises a `TypeError`. -/
theorem createObject_leaf_collision_raises :
    createObjectFromCSV ["address".toList, "address.city".toList] ["X".toList, "Paris".toList]
      = .error .typeError := by
  decide


/-! ## C8, C9: batch parsing -/

/-- C8. `parseCSV` fails exactly when fewer than two lines remain after splitting the text
on newlines and dropping the blank lines, and returns records exactly when at least two
remain, whatever the data lines hold; a text with only a header line fails. -/
theorem parseCSV_fails_iff_fewer_than_two_lines :
    (∀ fileContent : Str,
      ((∃ e, parseCSV fileContent = .error e) ↔ (nonBlankLines fileContent).length < 2) ∧
      ((∃ records, parseCSV fileContent = .ok records) ↔ 2 ≤ (nonBlankLines fileContent).length)) ∧
    parseCSV "name.firstName,name.lastName,age\n".toList = .error emptySourceError ∧
    parseCSV "name.firstName,name.lastName,age\n\"x,,\n".toList = .ok [] := by
  refine ⟨fun fileContent => ?_, by decide, by decide⟩
  unfold parseCSV
  by_cases h : (nonBlankLines fileContent).length < 2
  · simp [h]
  · cases hl : nonBlankLines fileContent with
    | nil => simp [hl] at h
    | cons headerLine dataLines =>
      rw [hl] at h
      simp only [h, if_false]
      constructor
      · simp
      · constructor
        · intro _
          omega
        · intro _
          exact ⟨_, rfl⟩

theorem parseRows_eq_filterMap (headers : List Str) (rows : List Str) (records : List Val) :
    parseRows headers rows records = records ++ rows.filterMap (recordOfLine headers) := by
  induction rows generalizing records with
  | nil => simp [parseRows]
  | cons line rest ih =>
    unfold parseRows
    by_cases hlen : (parseCSVLine line).length = headers.length
    · cases hc : createObjectFromCSV headers (parseCSVLine line) with
      | error e => simp [hlen, hc, ih, recordOfLine, Except.toOption]
      | ok record => simp [hlen, hc, ih, recordOfLine, Except.toOption]
    · simp [hlen, ih, recordOfLine]

/-- C9. When at least two non-blank lines remain, `parseCSV` returns, in input order, the
records of the data lines whose field count equals the header's (and whose record could
be built); a line with another field count raises nothing and leaves the records of the
other lines as they are. -/
theorem parseCSV_skips_mismatched_lines (fileContent headerLine : Str) (rows : List Str)
    (hlines : nonBlankLines fileContent = headerLine :: rows) (hrows : rows ≠ []) :
    parseCSV fileContent = .ok (rows.filterMap (recordOfLine (parseCSVLine headerLine))) ∧
    (∀ line, (parseCSVLine line).length ≠ (parseCSVLine headerLine).length →
      recordOfLine (parseCSVLine headerLine) line = none) ∧
    (∀ pre post line, rows = pre ++ line :: post →
      (parseCSVLine line).length ≠ (parseCSVLine headerLine).length →
      parseCSV fileContent = .ok ((pre ++ post).filterMap (recordOfLine (parseCSVLine headerLine)))) := by
  have hlen : ¬ (nonBlankLines fileContent).length < 2 := by
    rw [hlines]
    cases rows with
    | nil => exact absurd rfl hrows
    | cons r rs => simp
  have hp : parseCSV fileContent = .ok (rows.filterMap (recordOfLine (parseCSVLine headerLine))) := by
    unfold parseCSV
    rw [if_neg hlen, hlines]
    simp only [parseRows_eq_filterMap, List.nil_append]
  have hskip : ∀ line, (parseCSVLine line).length ≠ (parseCSVLine headerLine).length →
      recordOfLine (parseCSVLine headerLine) line = none := by
    intro line hne
    simp [recordOfLine, hne]
  refine ⟨hp, hskip, ?_⟩
  intro pre post line hsplit hne
  rw [hp, hsplit]
  simp [List.filterMap_append, hskip line hne]

/-- A three-row text whose second row has four fields instead of three: the records are
those of the first and third rows. -/
theorem parseCSV_skips_mismatched_lines_witness :
    nonBlankLines "name.firstName,name.lastName,age\nAnn,Lee,30\nBob,Ray,41,x\nCy,Dee,52".toList =
      "name.firstName,name.lastName,age".toList ::
        ["Ann,Lee,30".toList, "Bob,Ray,41,x".toList, "Cy,Dee,52".toList] ∧
    parseCSV "name.firstName,name.lastName,age\nAnn,Lee,30\nBob,Ray,41,x\nCy,Dee,52".toList =
      .ok ((["Ann,Lee,30".toList] ++ ["Cy,Dee,52".toList]).filterMap
        (recordOfLine (parseCSVLine "name.firstName,name.lastName,age".toList))) :=
  ⟨by decide,
    (parseCSV_skips_mismatched_lines _ "name.firstName,name.lastName,age".toList
      ["Ann,Lee,30".toList, "Bob,Ray,41,x".toList, "Cy,Dee,52".toList] (by decide) (by decide)).2.2
      ["Ann,Lee,30".toList] ["Cy,Dee,52".toList] "Bob,Ray,41,x".toList (by decide) (by decide)⟩


/-! ## C10: age buckets -/

theorem sumCase_getD (cond : Int → Bool) (ages : List Int) :
    (sumCase cond ages).getD 0 = (ages.map (fun a => if cond a then 1 else 0)).sum := by
  unfold sumCase
  by_cases h : ages = []
  · simp [h]
  · simp [h]

theorem bucket_exactly_one (age : Int) :
    (if under_20 age then 1 else 0) + (if between_20_40 age then 1 else 0) +
      (if between_40_60 age then 1 else 0) + (if over_60 age then 1 else 0) = 1 := by
  unfold under_20 between_20_40 between_40_60 over_60
  by_cases h1 : age < 20
  · have h2 : ¬ (20 ≤ age) := by omega
    have h3 : ¬ (40 < age) := by omega
    have h4 : ¬ (60 < age) := by omega
    simp [h1, h2, h3, h4]
  · by_cases h2 : age ≤ 40
    · have h3 : ¬ (40 < age) := by omega
      have h4 : ¬ (60 < age) := by omega
      have h5 : 20 ≤ age := by omega
      simp [h1, h2, h3, h4, h5]
    · by_cases h3 : age ≤ 60
      · have h4 : ¬ (60 < age) := by omega
        have h5 : 40 < age := by omega
        simp [h1, h2, h3, h4, h5]
      · have h5 : 60 < age := by omega
        have h6 : 40 < age := by omega
        simp [h1, h2, h3, h5, h6]

/-- C10. Every age satisfies exactly one of the four conditions of the distribution query,
so the four counts it returns (a `NULL` sum, over no rows, counting nothing) add up to
`total_count`; 20 and 40 lie in `20 to 40`, 60 in `40 to 60`, 19 in `< 20`, 61 in `> 60`. -/
theorem distribution_buckets_partition :
    (∀ age : Int,
      [under_20 age, between_20_40 age, between_40_60 age, over_60 age].count true = 1) ∧
    (∀ ages : List Int,
      ((distributionQuery ages).under_20).getD 0 + ((distributionQuery ages).between_20_40).getD 0 +
        ((distributionQuery ages).between_40_60).getD 0 + ((distributionQuery ages).over_60).getD 0 =
      (distributionQuery ages).total_count) ∧
    between_20_40 20 = true ∧ between_20_40 40 = true ∧ between_40_60 60 = true ∧
    under_20 19 = true ∧ over_60 61 = true ∧
    under_20 20 = false ∧ between_40_60 40 = false ∧ over_60 60 = false := by
  refine ⟨?_, ?_, by decide, by decide, by decide, by decide, by decide, by decide, by decide,
    by decide⟩
  · intro age
    have h := bucket_exactly_one age
    cases h1 : under_20 age <;> cases h2 : between_20_40 age <;>
      cases h3 : between_40_60 age <;> cases h4 : over_60 age <;>
      simp [h1, h2, h3, h4] at h ⊢
  · intro ages
    simp only [distributionQuery, sumCase_getD]
    induction ages with
    | nil => simp
    | cons a rest ih =>
      have h := bucket_exactly_one a
      simp only [List.map_cons, List.sum_cons, List.length_cons]
      omega


/-! ## C7: a row without age in the insert loop -/

theorem validateFields_age_last (record : Val) (f1 f2 : Str)
    (hage : truthyOpt (record.getProp "age".toList) = false) :
    ∃ e, validateFields record [f1, f2, "age".toList] = .error e := by
  have e3 : splitOn '.' "age".toList = ["age".toList] := by decide
  have h3 : validateWalk "age".toList ["age".toList] record = .error (missingField "age".toList) := by
    simp only [validateWalk, hage, or_true, if_true]
  simp only [validateFields, e3, h3]
  cases validateWalk f1 (splitOn '.' f1) record with
  | error e => exact ⟨e, rfl⟩
  | ok _ =>
    cases validateWalk f2 (splitOn '.' f2) record with
    | error e => exact ⟨e, rfl⟩
    | ok _ => exact ⟨_, rfl⟩

theorem transform_fails_without_age (record : Val)
    (hage : record.getProp "age".toList = none ∨ record.getProp "age".toList = some (.str [])) :
    ∃ e, transformRecordForDatabase record = .error e := by
  have hfalsy : truthyOpt (record.getProp "age".toList) = false := by
    rcases hage with h | h
    · rw [h]; rfl
    · rw [h]; rfl
  obtain ⟨e, he⟩ := validateFields_age_last record "name.firstName".toList "name.lastName".toList hfalsy
  refine ⟨e, ?_⟩
  unfold transformRecordForDatabase validateMandatoryFields mandatoryFields
  rw [he]

theorem insertLoop_skip {S : Type} (query : S → FlatRecord → S × Bool) (before after : List Val)
    (r : Val) (e : JsError) (hr : transformRecordForDatabase r = .error e) (s : S) (n : Nat) :
    insertLoop query (before ++ r :: after) s n = insertLoop query (before ++ after) s n := by
  induction before generalizing s n with
  | nil => simp [insertLoop, hr]
  | cons b rest ih =>
    simp only [List.cons_append, insertLoop]
    cases transformRecordForDatabase b with
    | error _ => exact ih s n
    | ok t =>
      by_cases hq : (query s t).2 = true
      · simp only [hq, if_true]
        exact ih _ _
      · simp only [hq]
        exact ih _ _

theorem insertLoop_count {S : Type} (query : S → FlatRecord → S × Bool)
    (hq : ∀ s t, (query s t).2 = true) (records : List Val) (s : S) (n : Nat) :
    (insertLoop query records s n).2 =
      n + (records.filter (fun r => (transformRecordForDatabase r).toBool)).length := by
  induction records generalizing s n with
  | nil => simp [insertLoop]
  | cons r rest ih =>
    simp only [insertLoop]
    cases hr : transformRecordForDatabase r with
    | error _ => simp [ih, hr, Except.toBool]
    | ok t =>
      simp only [hq, if_true]
      rw [ih]
      simp [hr, Except.toBool]
      omega

theorem ingest_eq_insertLoop {S : Type} (query : S → FlatRecord → S × Bool) (s : S)
    (fileContent headerLine : Str) (rows : List Str)
    (hlines : nonBlankLines fileContent = headerLine :: rows) (hrows : rows ≠ []) :
    ingest query fileContent s =
      .ok (insertLoop query (rows.filterMap (recordOfLine (parseCSVLine headerLine))) s 0) := by
  have hlen : ¬ (nonBlankLines fileContent).length < 2 := by
    rw [hlines]
    cases rows with
    | nil => exact absurd rfl hrows
    | cons r rs => simp
  have hp : parseCSV fileContent = .ok (rows.filterMap (recordOfLine (parseCSVLine headerLine))) := by
    unfold parseCSV
    rw [if_neg hlen, hlines]
    simp only [parseRows_eq_filterMap, List.nil_append]
  unfold ingest
  rw [hp]
  cases hrec : rows.filterMap (recordOfLine (parseCSVLine headerLine)) with
  | nil => simp [insertLoop]
  | cons r rs => simp

theorem walk_top (k : Str) (rest : List Str) (fs : List (Str × Val)) (leaf t1 : Val)
    (h : setNestedWalk (k :: rest) (.obj fs) leaf = .ok t1) :
    t1 = .obj fs ∨ ∃ c, t1 = .obj (setField (trim k) c fs) := by
  cases rest with
  | nil =>
    simp only [setNestedWalk, Val.assign] at h
    split at h
    · cases leaf with
      | obj _ => cases h
      | str _ => left; cases h; rfl
      | num _ => left; cases h; rfl
    · right; cases h; exact ⟨leaf, rfl⟩
  | cons k2 rest =>
    rw [setNestedWalk] at h
    split at h
    · cases h
    · have hcur : ∀ cur1, (if truthyOpt ((Val.obj fs).getProp (trim k)) then Except.ok (Val.obj fs)
             else (Val.obj fs).assign (trim k) (.obj [])) = .ok cur1 →
          cur1 = .obj fs ∨ cur1 = .obj (setField (trim k) (.obj []) fs) := by
        intro cur1 hc
        split at hc
        · left; cases hc; rfl
        · simp only [Val.assign] at hc
          split at hc
          · cases hc
          · right; cases hc; rfl
      split at h
      · cases h
      · rename_i cur1 hc
        split at h
        · cases h
        · split at h
          · cases h
          · rename_i child1 _
            cases h
            right
            rcases hcur cur1 hc with h1 | h1
            · exact ⟨child1, by rw [h1]; rfl⟩
            · exact ⟨child1, by rw [h1]; simp only [Val.withProp, setField_setField]⟩

/-- The state of the key `age` of a record while the row is built: absent, or the empty
string. -/
theorem ageFalsy_step (fs : List (Str × Val)) (header v : Str) (t1 : Val)
    (hinv : lookupField ageKey fs = none ∨ lookupField ageKey fs = some (.str []))
    (hflat : (headerPath header).head? ≠ some ageKey ∨
      (headerPath header = [ageKey] ∧ v = []))
    (h : setNestedProperty (.obj fs) (trim header) v = .ok t1) :
    ∃ fs1, t1 = .obj fs1 ∧
      (lookupField ageKey fs1 = none ∨ lookupField ageKey fs1 = some (.str [])) := by
  unfold setNestedProperty at h
  unfold headerPath at hflat
  cases hsp : splitOn '.' (trim header) with
  | nil =>
    rw [hsp] at h
    simp only [setNestedWalk] at h
    cases h
    exact ⟨fs, rfl, hinv⟩
  | cons k rest =>
    rw [hsp] at h hflat
    rcases hflat with hne | ⟨heq, hv⟩
    · have hk : trim k ≠ ageKey := by
        intro hk
        apply hne
        simp [hk]
      rcases walk_top k rest fs _ t1 h with h1 | ⟨c, h1⟩
      · exact ⟨fs, h1, hinv⟩
      · refine ⟨_, h1, ?_⟩
        rw [lookupField_setField_other _ _ _ _ (Ne.symm hk)]
        exact hinv
    · simp only [List.map_cons, List.cons.injEq, List.map_eq_nil_iff] at heq
      obtain ⟨hk, hrest⟩ := heq
      subst hrest
      subst hv
      simp only [setNestedWalk, hk] at h
      have hc : coerceValue [] = .str [] := by decide
      rw [hc, assign_obj_plain _ _ _ (by decide)] at h
      cases h
      exact ⟨_, rfl, Or.inr (lookupField_setField_same _ _ _)⟩

theorem ageFalsy_loop : ∀ (hs vs : List Str) (fs : List (Str × Val)) (t1 : Val),
    (lookupField ageKey fs = none ∨ lookupField ageKey fs = some (.str [])) →
    ageHeadersFlat hs = true → hs.length = vs.length → ageCellsEmpty hs vs = true →
    createObjectLoop hs vs (.obj fs) = .ok t1 →
    ∃ fs1, t1 = .obj fs1 ∧
      (lookupField ageKey fs1 = none ∨ lookupField ageKey fs1 = some (.str []))
  | [], _, fs, t1, hinv, _, _, _, h => by
    simp only [createObjectLoop] at h
    cases h
    exact ⟨fs, rfl, hinv⟩
  | header :: hs, [], _, _, _, _, hlen, _, _ => by simp at hlen
  | header :: hs, v :: vs, fs, t1, hinv, hflat, hlen, hcells, h => by
    simp only [createObjectLoop, List.head?_cons, List.tail_cons] at h
    simp only [ageHeadersFlat, List.all_cons, Bool.and_eq_true, Bool.or_eq_true,
      decide_eq_true_eq] at hflat
    simp only [ageCellsEmpty, List.zip_cons_cons, List.all_cons, Bool.and_eq_true,
      Bool.or_eq_true, decide_eq_true_eq] at hcells
    split at h
    · cases h
    · rename_i obj1 hstep
      have hcond : (headerPath header).head? ≠ some ageKey ∨
          (headerPath header = [ageKey] ∧ cellValue (some v) = []) := by
        rcases hflat.1 with h1 | h1
        · exact Or.inl h1
        · right
          refine ⟨h1, ?_⟩
          rcases hcells.1 with h2 | h2
          · exact absurd h1 h2
          · simp only [cellValue]
            split
            · exact h2
            · rfl
      obtain ⟨fs1, hobj, hinv1⟩ := ageFalsy_step fs header _ obj1 hinv hcond hstep
      rw [hobj] at h
      exact ageFalsy_loop hs vs fs1 t1 hinv1 hflat.2 (by simpa using hlen) hcells.2 h

theorem record_age_falsy (headers : List Str) (row : Str) (r : Val)
    (hflat : ageHeadersFlat headers = true)
    (hrow : (parseCSVLine row).length ≠ headers.length ∨
      ageCellsEmpty headers (parseCSVLine row) = true)
    (hr : recordOfLine headers row = some r) :
    r.getProp "age".toList = none ∨ r.getProp "age".toList = some (.str []) := by
  unfold recordOfLine at hr
  split at hr
  · rename_i hlen
    rcases hrow with h1 | h1
    · exact absurd hlen h1
    · cases hc : createObjectFromCSV headers (parseCSVLine row) with
      | error e => rw [hc] at hr; cases hr
      | ok t =>
        rw [hc] at hr
        cases hr
        unfold createObjectFromCSV at hc
        obtain ⟨fs1, hobj, hinv1⟩ := ageFalsy_loop headers (parseCSVLine row) [] r (Or.inl rfl)
          hflat hlen.symm h1 hc
        rw [hobj]
        exact hinv1
  · cases hr

/-- C7. In the ingestion pipeline (`parseCSV`, then the insert loop with its per-record
`transformRecordForDatabase`), for a header line whose headers keep the walk among plain
objects (`plainHeaders`: outside this fragment the code reaches built-in objects) and in
which no header extends `age` (`ageHeadersFlat`), a data row whose field count differs from
the header count, or whose cells under the headers `age` are all empty (`ageCellsEmpty`,
which includes a header line without `age`), never reaches the sink: any record it yields is
rejected by the transformation, and the sink state and `insertedCount` are those of the run
over the other rows alone; and when every insert succeeds, `insertedCount` is one less than
for the text in which that row is replaced by a valid one. -/
theorem ingest_rejects_row_without_age {S : Type} (query : S → FlatRecord → S × Bool) (s : S)
    (fileContent headerLine row : Str) (pre post : List Str)
    (hlines : nonBlankLines fileContent = headerLine :: (pre ++ row :: post))
    (_hplain : plainHeaders (parseCSVLine headerLine) = true)
    (hflat : ageHeadersFlat (parseCSVLine headerLine) = true)
    (hrow : (parseCSVLine row).length ≠ (parseCSVLine headerLine).length ∨
      ageCellsEmpty (parseCSVLine headerLine) (parseCSVLine row) = true) :
    (∀ r, recordOfLine (parseCSVLine headerLine) row = some r →
      ∃ e, transformRecordForDatabase r = .error e) ∧
    ingest query fileContent s =
      .ok (insertLoop query ((pre ++ post).filterMap (recordOfLine (parseCSVLine headerLine))) s 0) ∧
    (∀ (fileContent2 row2 : Str) (r2 : Val) (t2 : FlatRecord),
      nonBlankLines fileContent2 = headerLine :: (pre ++ row2 :: post) →
      recordOfLine (parseCSVLine headerLine) row2 = some r2 →
      transformRecordForDatabase r2 = .ok t2 →
      (∀ s1 t, (query s1 t).2 = true) →
      ∃ s1 s2 n, ingest query fileContent s = .ok (s1, n) ∧
        ingest query fileContent2 s = .ok (s2, n + 1)) := by
  have hrej : ∀ r, recordOfLine (parseCSVLine headerLine) row = some r →
      ∃ e, transformRecordForDatabase r = .error e :=
    fun r hr => transform_fails_without_age r
      (record_age_falsy (parseCSVLine headerLine) row r hflat hrow hr)
  have h1 := ingest_eq_insertLoop query s fileContent headerLine (pre ++ row :: post) hlines (by simp)
  have h2 : ingest query fileContent s =
      .ok (insertLoop query ((pre ++ post).filterMap (recordOfLine (parseCSVLine headerLine))) s 0) := by
    rw [h1]
    cases hrow : recordOfLine (parseCSVLine headerLine) row with
    | none => simp [List.filterMap_append, List.filterMap_cons, hrow]
    | some r =>
      obtain ⟨e, he⟩ := hrej r hrow
      have hsplit : (pre ++ row :: post).filterMap (recordOfLine (parseCSVLine headerLine)) =
          pre.filterMap (recordOfLine (parseCSVLine headerLine)) ++
            r :: post.filterMap (recordOfLine (parseCSVLine headerLine)) := by
        simp [List.filterMap_append, List.filterMap_cons, hrow]
      rw [hsplit, insertLoop_skip query _ _ r e he, List.filterMap_append]
  refine ⟨hrej, h2, ?_⟩
  intro fileContent2 row2 r2 t2 hlines2 hrow2 ht2 hq
  have h3 := ingest_eq_insertLoop query s fileContent2 headerLine (pre ++ row2 :: post) hlines2
    (by simp)
  have hsplit2 : (pre ++ row2 :: post).filterMap (recordOfLine (parseCSVLine headerLine)) =
      pre.filterMap (recordOfLine (parseCSVLine headerLine)) ++
        r2 :: post.filterMap (recordOfLine (parseCSVLine headerLine)) := by
    simp [List.filterMap_append, List.filterMap_cons, hrow2]
  refine ⟨(insertLoop query ((pre ++ post).filterMap (recordOfLine (parseCSVLine headerLine))) s 0).1,
    (insertLoop query ((pre ++ row2 :: post).filterMap
      (recordOfLine (parseCSVLine headerLine))) s 0).1,
    (insertLoop query ((pre ++ post).filterMap (recordOfLine (parseCSVLine headerLine))) s 0).2,
    h2, ?_⟩
  rw [h3]
  congr 1
  apply Prod.ext
  · rfl
  · simp only [insertLoop_count query hq, hsplit2, List.filterMap_append]
    simp [List.filter_append, List.filter_cons, ht2, Except.toBool]
    omega

/-- Three rows, the second with an empty age cell, into a sink that stores every row: the
run equals the run over the first and third rows, which inserts two rows, one less than
the three rows inserted when the second row carries the age 41. -/
theorem ingest_rejects_row_without_age_witness :
    nonBlankLines "name.firstName,name.lastName,age\nAnn,Lee,30\nBob,Ray,\nCy,Dee,52".toList =
      "name.firstName,name.lastName,age".toList ::
        (["Ann,Lee,30".toList] ++ "Bob,Ray,".toList :: ["Cy,Dee,52".toList]) ∧
    parseCSVLine "Bob,Ray,".toList = ["Bob".toList, "Ray".toList, []] ∧
    ingest (fun (s : List FlatRecord) t => (s ++ [t], true))
        "name.firstName,name.lastName,age\nAnn,Lee,30\nBob,Ray,\nCy,Dee,52".toList [] =
      .ok (insertLoop (fun (s : List FlatRecord) t => (s ++ [t], true))
        ((["Ann,Lee,30".toList] ++ ["Cy,Dee,52".toList]).filterMap
          (recordOfLine (parseCSVLine "name.firstName,name.lastName,age".toList))) [] 0) ∧
    (insertLoop (fun (s : List FlatRecord) t => (s ++ [t], true))
        ((["Ann,Lee,30".toList] ++ ["Cy,Dee,52".toList]).filterMap
          (recordOfLine (parseCSVLine "name.firstName,name.lastName,age".toList))) [] 0).2 = 2 ∧
    (ingest (fun (s : List FlatRecord) t => (s ++ [t], true))
        "name.firstName,name.lastName,age\nAnn,Lee,30\nBob,Ray,41\nCy,Dee,52".toList []).toOption.map
      (fun p => p.2) = some 3 :=
  ⟨by decide, by decide,
    (ingest_rejects_row_without_age (fun (s : List FlatRecord) t => (s ++ [t], true)) []
      "name.firstName,name.lastName,age\nAnn,Lee,30\nBob,Ray,\nCy,Dee,52".toList
      "name.firstName,name.lastName,age".toList "Bob,Ray,".toList
      ["Ann,Lee,30".toList] ["Cy,Dee,52".toList] (by decide) (by decide) (by decide)
      (Or.inr (by decide))).2.1,
    by decide, by decide⟩

/-- C7, counterexample. An empty cell under `age` does not keep a row out of the sink.
With the header `age` twice, the row `Bob,Ray,,41` has an empty age cell and is inserted
with the age 41 (the later column overwrites the empty string).  With the headers `age`
and `age.x`, the row `Bob,Ray,,5` has an empty age cell, its record passes the validation
(the empty string is replaced by a mapping) and a sink that stores what it is given
inserts it.  And `insertedCount` is not one less than for a valid row when the sink
refuses the inserts: both counts are 0. -/
theorem ingest_inserts_row_with_empty_age_cell :
    parseCSVLine "Bob,Ray,,41".toList = ["Bob".toList, "Ray".toList, [], "41".toList] ∧
    (ingest (Db.query ageColumnVerdict)
        "name.firstName,name.lastName,age,age\nBob,Ray,,41".toList emptyDb.begin).toOption.map
      (fun p => (p.1.visible, p.2)) =
      some ([{ name := "Bob Ray".toList, age := 41, address := none, additional_info := none,
               id := 1 }], 1) ∧
    parseCSVLine "Bob,Ray,,5".toList = ["Bob".toList, "Ray".toList, [], "5".toList] ∧
    ingest (fun (s : List FlatRecord) t => (s ++ [t], true))
        "name.firstName,name.lastName,age,age.x\nBob,Ray,,5".toList [] =
      .ok ([{ name := "Bob Ray".toList, age := .nan, address := none,
              additional_info := none }], 1) ∧
    ingest (fun (s : Unit) _ => (s, false))
        "name.firstName,name.lastName,age\nBob,Ray,".toList () = .ok ((), 0) ∧
    ingest (fun (s : Unit) _ => (s, false))
        "name.firstName,name.lastName,age\nBob,Ray,30".toList () = .ok ((), 0) := by
  decide

/-! ## C6: the builder and lookups by path -/

theorem clearAlong_root (t : Val) (k : Str) (q : List Str) (h : ClearAlong t (k :: q)) :
    t.isLeaf = false :=
  h [] t (List.nil_prefix) (by simp) rfl

theorem walk_last (t : Val) (k : Str) (leaf : Val) (hleaf : leaf.isLeaf = true)
    (hk : trim k ≠ protoKey) (hclear : ClearAlong t [trim k]) :
    ∃ t1, setNestedWalk [k] t leaf = .ok t1 ∧ WalkPost t [trim k] leaf t1 := by
  obtain ⟨fs, rfl⟩ := obj_of_not_leaf t (clearAlong_root t _ _ hclear)
  refine ⟨.obj (setField (trim k) leaf fs), ?_, rfl, ?_, ?_, ?_, ?_⟩
  · simp only [setNestedWalk]
    exact assign_obj_plain fs (trim k) leaf hk
  · simp [getPath, Val.getProp, lookupField_setField_same]
  · intro p hp hne
    obtain ⟨r, rfl⟩ := hp
    cases r with
    | nil => simp at hne
    | cons a r =>
      simp only [List.singleton_append, getPath_obj_cons, lookupField_setField_same]
      exact getPath_leaf_cons leaf a r hleaf
  · intro p hp hne
    cases p with
    | nil => exact ⟨_, rfl⟩
    | cons a p =>
      rw [List.cons_prefix_cons] at hp
      obtain ⟨rfl, hp2⟩ := hp
      have : p = [] := List.prefix_nil.mp hp2
      subst this
      exact absurd rfl hne
  · intro p h1 h2
    cases p with
    | nil => exact absurd List.nil_prefix h2
    | cons a p =>
      have hne : a ≠ trim k := by
        intro e
        subst e
        exact h1 (by simp [List.cons_prefix_cons])
      simp only [getPath_obj_cons, lookupField_setField_other _ _ _ _ hne]

theorem walkPost_cons (fs : List (Str × Val)) (tk : Str) (q2 : List Str) (child child1 leaf : Val)
    (hpost : WalkPost child q2 leaf child1)
    (hcompat : ∀ p, ¬ q2 <+: p → ¬ p <+: q2 → getPath child p = getPath (.obj fs) (tk :: p)) :
    WalkPost (.obj fs) (tk :: q2) leaf (.obj (setField tk child1 fs)) := by
  obtain ⟨_, ha, hb, hc, hd⟩ := hpost
  refine ⟨rfl, ?_, ?_, ?_, ?_⟩
  · simp only [getPath_obj_cons, lookupField_setField_same]
    exact ha
  · intro p hp hne
    cases p with
    | nil => simp at hp
    | cons a p =>
      rw [List.cons_prefix_cons] at hp
      obtain ⟨rfl, hp2⟩ := hp
      simp only [getPath_obj_cons, lookupField_setField_same]
      exact hb p hp2 (fun e => hne (by rw [e]))
  · intro p hp hne
    cases p with
    | nil => exact ⟨_, rfl⟩
    | cons a p =>
      rw [List.cons_prefix_cons] at hp
      obtain ⟨rfl, hp2⟩ := hp
      simp only [getPath_obj_cons, lookupField_setField_same]
      exact hc p hp2 (fun e => hne (by rw [e]))
  · intro p h1 h2
    cases p with
    | nil => exact absurd List.nil_prefix h2
    | cons a p =>
      by_cases hk : a = tk
      · subst hk
        have h1' : ¬ q2 <+: p := fun h => h1 (by simp [List.cons_prefix_cons, h])
        have h2' : ¬ p <+: q2 := fun h => h2 (by simp [List.cons_prefix_cons, h])
        rw [← hcompat p h1' h2']
        simp only [getPath_obj_cons, lookupField_setField_same]
        exact hd p h1' h2'
      · simp only [getPath_obj_cons, lookupField_setField_other _ _ _ _ hk]

theorem clearAlong_empty (q : List Str) : ClearAlong (.obj []) q := by
  intro p v _ _ hget
  cases p with
  | nil =>
    simp only [getPath, Option.some.injEq] at hget
    subst hget
    rfl
  | cons a p => simp [getPath_obj_cons, lookupField] at hget

theorem clearAlong_child (fs : List (Str × Val)) (tk : Str) (q2 : List Str) (v : Val)
    (hv : lookupField tk fs = some v) (hclear : ClearAlong (.obj fs) (tk :: q2)) :
    ClearAlong v q2 := by
  intro p w hp hne hget
  apply hclear (tk :: p) w
  · simp [List.cons_prefix_cons, hp]
  · intro e
    exact hne (List.cons.inj e).2
  · simp only [getPath_obj_cons, hv]
    exact hget

theorem walk_spec (keys : List Str) (hne : keys ≠ []) :
    plainPath (keys.map trim) = true →
    ∀ (t leaf : Val), leaf.isLeaf = true → ClearAlong t (keys.map trim) →
      ∃ t1, setNestedWalk keys t leaf = .ok t1 ∧ WalkPost t (keys.map trim) leaf t1 := by
  induction keys with
  | nil => exact absurd rfl hne
  | cons k rest ih =>
    intro hplain t leaf hleaf hclear
    cases rest with
    | nil =>
      exact walk_last t k leaf hleaf (by simpa [plainPath] using hplain) hclear
    | cons k2 rest2 =>
      obtain ⟨fs, rfl⟩ := obj_of_not_leaf t (clearAlong_root t _ _ hclear)
      simp only [List.map_cons, plainPath, Bool.and_eq_true, Bool.not_eq_true'] at hplain
      have ih2 := ih (by simp) (by simpa using hplain.2)
      have hrb : (Val.obj fs).readsBuiltin (trim k) = false := readsBuiltin_plain fs _ hplain.1
      have hnp : trim k ≠ protoKey := ne_protoKey_of_plain _ hplain.1
      simp only [List.map_cons] at hclear ⊢
      by_cases htr : truthyOpt (lookupField (trim k) fs) = true
      · cases hv : lookupField (trim k) fs with
        | none => simp [hv, truthyOpt] at htr
        | some v =>
          have hcl : ClearAlong v (trim k2 :: rest2.map trim) :=
            clearAlong_child fs (trim k) _ v hv hclear
          obtain ⟨child1, hwalk, hpost⟩ := ih2 v leaf hleaf (by simpa using hcl)
          refine ⟨.obj (setField (trim k) child1 fs), ?_, ?_⟩
          · have htr2 : truthyOpt (some v) = true := by rw [← hv]; exact htr
            simp only [setNestedWalk, hrb, Bool.false_eq_true, if_false, Val.getProp, hv, htr2,
              if_true, hwalk, Val.withProp]
          · apply walkPost_cons fs (trim k) _ v child1 leaf (by simpa using hpost)
            intro p _ _
            simp only [getPath_obj_cons, hv]
      · obtain ⟨child1, hwalk, hpost⟩ := ih2 (.obj []) leaf hleaf (clearAlong_empty _)
        refine ⟨.obj (setField (trim k) child1 fs), ?_, ?_⟩
        · have htf : truthyOpt (lookupField (trim k) fs) = false := by simpa using htr
          simp only [setNestedWalk, hrb, Val.getProp, htf, Bool.false_eq_true, if_false,
            assign_obj_plain fs (trim k) (.obj []) hnp,
            lookupField_setField_same, hwalk, Val.withProp, setField_setField]
        · apply walkPost_cons fs (trim k) _ (.obj []) child1 leaf (by simpa using hpost)
          intro p _ hp2
          have hpne : p ≠ [] := fun e => hp2 (by rw [e]; exact List.nil_prefix)
          obtain ⟨a, p', rfl⟩ := List.exists_cons_of_ne_nil hpne
          simp only [getPath_obj_cons, lookupField]
          cases hv : lookupField (trim k) fs with
          | none => rfl
          | some v =>
            have hfalsy : v.truthy = false := by
              simpa [hv, truthyOpt] using htr
            simp only []
            exact (getPath_leaf_cons v a p' (isLeaf_of_falsy v hfalsy)).symm

theorem splitOn_ne_nil (sep : Char) (s : Str) : splitOn sep s ≠ [] := by
  cases s with
  | nil => simp [splitOn]
  | cons c cs =>
    unfold splitOn
    cases splitOn sep cs with
    | nil => simp
    | cons p ps =>
      by_cases h : c = sep
      · simp [h]
      · simp [h]

theorem cellValue_some (v : Str) : cellValue (some v) = trim v := by
  unfold cellValue
  by_cases h : v = []
  · subst h
    decide
  · simp [h]

theorem clearAlong_of_holds (t : Val) (leaves : List (List Str × Val)) (q : List Str)
    (hholds : HoldsExactly t leaves) (hunrel : ∀ p l, (p, l) ∈ leaves → Unrelated p q) :
    ClearAlong t q := by
  intro p v hp _ hget
  cases hleaf : v.isLeaf with
  | false => rfl
  | true => exact absurd hp (hunrel p v (hholds.2.2 p v hget hleaf)).1

theorem holdsExactly_step (t t1 leaf : Val) (leaves : List (List Str × Val)) (q : List Str)
    (hholds : HoldsExactly t leaves) (hunrel : ∀ p l, (p, l) ∈ leaves → Unrelated p q)
    (hleaf : leaf.isLeaf = true) (hpost : WalkPost t q leaf t1) :
    HoldsExactly t1 (leaves ++ [(q, leaf)]) := by
  obtain ⟨h0, ha, hb, hc, hd⟩ := hpost
  refine ⟨h0, ?_, ?_⟩
  · intro p l hmem
    rcases List.mem_append.mp hmem with hm | hm
    · have hu := hunrel p l hm
      rw [hd p hu.2 hu.1]
      exact hholds.2.1 p l hm
    · simp only [List.mem_singleton, Prod.mk.injEq] at hm
      obtain ⟨rfl, rfl⟩ := hm
      exact ha
  · intro p l hget hl
    by_cases h1 : q <+: p
    · by_cases h2 : p = q
      · subst h2
        rw [ha] at hget
        cases hget
        simp
      · rw [hb p h1 h2] at hget
        cases hget
    · by_cases h2 : p <+: q
      · have hne : p ≠ q := fun e => h1 (by rw [e])
        obtain ⟨fs, hfs⟩ := hc p h2 hne
        rw [hfs] at hget
        cases hget
        simp [Val.isLeaf] at hl
      · rw [hd p h1 h2] at hget
        exact List.mem_append_left _ (hholds.2.2 p l hget hl)

theorem createObjectLoop_holds (hs : List Str) :
    ∀ (vs : List Str) (t : Val) (leaves : List (List Str × Val)),
      hs.length = vs.length → HoldsExactly t leaves →
      plainHeaders hs = true →
      (hs.map headerPath).Pairwise Unrelated →
      (∀ p l, (p, l) ∈ leaves → ∀ h, h ∈ hs → Unrelated p (headerPath h)) →
      ∃ t1, createObjectLoop hs vs t = .ok t1 ∧
        HoldsExactly t1
          (leaves ++ (hs.zip vs).map (fun hv => (headerPath hv.1, coerceValue (trim hv.2)))) := by
  induction hs with
  | nil =>
    intro vs t leaves _ hholds _ _ _
    exact ⟨t, rfl, by simpa using hholds⟩
  | cons h hs ih =>
    intro vs t leaves hlen hholds hplain hpair hunrel
    simp only [plainHeaders, List.all_cons, Bool.and_eq_true] at hplain
    cases vs with
    | nil => simp at hlen
    | cons v vs =>
      have hunrel_h : ∀ p l, (p, l) ∈ leaves → Unrelated p (headerPath h) :=
        fun p l hm => hunrel p l hm h (List.mem_cons_self _ _)
      have hclear : ClearAlong t (headerPath h) := clearAlong_of_holds t leaves _ hholds hunrel_h
      obtain ⟨t1, hwalk, hpost⟩ := walk_spec (splitOn '.' (trim h)) (splitOn_ne_nil _ _) hplain.1 t
        (coerceValue (cellValue (some v))) (coerceValue_isLeaf _) hclear
      have hholds1 := holdsExactly_step t t1 _ leaves (headerPath h) hholds hunrel_h
        (coerceValue_isLeaf _) hpost
      rw [List.map_cons, List.pairwise_cons] at hpair
      have hunrel1 : ∀ p l, (p, l) ∈ leaves ++ [(headerPath h, coerceValue (cellValue (some v)))] →
          ∀ h2, h2 ∈ hs → Unrelated p (headerPath h2) := by
        intro p l hm h2 hh2
        rcases List.mem_append.mp hm with hm1 | hm1
        · exact hunrel p l hm1 h2 (List.mem_cons_of_mem _ hh2)
        · simp only [List.mem_singleton, Prod.mk.injEq] at hm1
          obtain ⟨rfl, _⟩ := hm1
          exact hpair.1 (headerPath h2) (List.mem_map_of_mem _ hh2)
      obtain ⟨t2, hloop, hholds2⟩ := ih vs t1 _ (by simpa using hlen) hholds1 hplain.2 hpair.2
        hunrel1
      refine ⟨t2, ?_, ?_⟩
      · rw [createObjectLoop_cons]
        simp only [List.head?_cons, List.tail_cons, setNestedProperty, hwalk, hloop]
      · simpa [cellValue_some] using hholds2

/-- C6. For header and value lists of equal length whose header paths (the trimmed segments)
are pairwise distinct with none a prefix of another, and in which no segment before the
last names a member of `Object.prototype` and no last segment is `__proto__`
(`plainHeaders`), `createObjectFromCSV` returns a tree in which the path of every header
leads to that header's coerced value (the number when the trimmed value is a non-empty
numeric string, the trimmed string otherwise), and every string or number found in the
tree is one of these. -/
theorem createObject_lookup_roundtrip (headers values : List Str)
    (hlen : headers.length = values.length)
    (hplain : plainHeaders headers = true)
    (hpaths : (headers.map headerPath).Pairwise Unrelated) :
    ∃ tree, createObjectFromCSV headers values = .ok tree ∧
      (∀ h v, (h, v) ∈ headers.zip values →
        getPath tree (headerPath h) = some (coerceValue (trim v))) ∧
      (∀ path leaf, getPath tree path = some leaf → leaf.isLeaf = true →
        ∃ h v, (h, v) ∈ headers.zip values ∧ path = headerPath h ∧ leaf = coerceValue (trim v)) := by
  have hempty : HoldsExactly (.obj []) [] := by
    refine ⟨rfl, ?_, ?_⟩
    · intro p l hm
      simp at hm
    · intro p l hget hl
      cases p with
      | nil =>
        simp only [getPath, Option.some.injEq] at hget
        subst hget
        simp [Val.isLeaf] at hl
      | cons a p => simp [getPath_obj_cons, lookupField] at hget
  obtain ⟨tree, hloop, hholds⟩ := createObjectLoop_holds headers values (.obj []) [] hlen hempty
    hplain hpaths (by intro p l hm; simp at hm)
  refine ⟨tree, hloop, ?_, ?_⟩
  · intro h v hm
    apply hholds.2.1
    simp only [List.nil_append, List.mem_map]
    exact ⟨(h, v), hm, rfl⟩
  · intro path leaf hget hl
    have hm := hholds.2.2 path leaf hget hl
    simp only [List.nil_append, List.mem_map] at hm
    obtain ⟨⟨h, v⟩, hmem, heq⟩ := hm
    simp only [Prod.mk.injEq] at heq
    exact ⟨h, v, hmem, heq.1.symm, heq.2.symm⟩

/-- The four headers of the example row are plain and have unrelated paths: the tree built
from the row `Ann`, `Lee`, `30`, `Paris` holds the number 30 at `age` and `Paris` at
`address.city`. -/
theorem createObject_lookup_roundtrip_witness :
    plainHeaders
      ["name.firstName".toList, "name.lastName".toList, "age".toList, "address.city".toList] =
      true ∧
    (List.map headerPath
      ["name.firstName".toList, "name.lastName".toList, "age".toList, "address.city".toList]).Pairwise
      Unrelated ∧
    ∃ tree, createObjectFromCSV
        ["name.firstName".toList, "name.lastName".toList, "age".toList, "address.city".toList]
        ["Ann".toList, "Lee".toList, "30".toList, "Paris".toList] = .ok tree ∧
      getPath tree ["age".toList] = some (.num (.fin false 30 0)) ∧
      getPath tree ["address".toList, "city".toList] = some (.str "Paris".toList) :=
  ⟨by decide, by decide,
    (createObject_lookup_roundtrip
      ["name.firstName".toList, "name.lastName".toList, "age".toList, "address.city".toList]
      ["Ann".toList, "Lee".toList, "30".toList, "Paris".toList] (by decide) (by decide)
      (by decide)).imp
      (fun _ h => ⟨h.1, h.2.1 "age".toList "30".toList (by decide),
        h.2.1 "address.city".toList "Paris".toList (by decide)⟩)⟩


/-- C6, counterexample. The headers `name` and `__proto__` are distinct and neither is a
prefix of the other, yet the value `abc` of the second is not in the tree: the write to
`__proto__` goes to the accessor of `Object.prototype`, which ignores a string, and the
record has no own key `__proto__`. -/
theorem createObject_proto_header_lost :
    ["name".toList, "__proto__".toList].length = ["Ann".toList, "abc".toList].length ∧
    (List.map headerPath ["name".toList, "__proto__".toList]).Pairwise Unrelated ∧
    createObjectFromCSV ["name".toList, "__proto__".toList] ["Ann".toList, "abc".toList] =
      .ok (.obj [("name".toList, .str "Ann".toList)]) ∧
    getPath (.obj [("name".toList, .str "Ann".toList)]) (headerPath "__proto__".toList) = none ∧
    coerceValue (trim "abc".toList) = .str "abc".toList := by
  decide

/-! ## Numbers: rounding of integers -/

theorem log2Fuel_spec (fuel : Nat) : ∀ n, 0 < n → n ≤ fuel →
    2 ^ log2Fuel fuel n ≤ n ∧ n < 2 ^ (log2Fuel fuel n + 1) := by
  induction fuel with
  | zero => intro n h1 h2; omega
  | succ fuel ih =>
    intro n h1 h2
    unfold log2Fuel
    by_cases h : n < 2
    · have : n = 1 := by omega
      subst this
      simp
    · simp only [h, if_false]
      have hpos : 0 < n / 2 := Nat.div_pos (by omega) (by omega)
      have hle : n / 2 ≤ fuel := by omega
      obtain ⟨ha, hb⟩ := ih (n / 2) hpos hle
      generalize log2Fuel fuel (n / 2) = l at ha hb
      rw [pow_succ] at hb ⊢
      rw [pow_succ, pow_succ]
      constructor
      · omega
      · omega

theorem floorLog2_spec (n : Nat) (h : 0 < n) :
    2 ^ floorLog2 n ≤ n ∧ n < 2 ^ (floorLog2 n + 1) :=
  log2Fuel_spec n n h (Nat.le_refl n)

theorem floorLog2_lt_of_lt_pow (n k : Nat) (h : 0 < n) (hlt : n < 2 ^ k) : floorLog2 n < k := by
  by_contra hge
  have h1 := (floorLog2_spec n h).1
  have h2 : 2 ^ k ≤ 2 ^ floorLog2 n := Nat.pow_le_pow_right (by omega) (by omega)
  omega

theorem le_floorLog2_of_pow_le (n k : Nat) (h : 0 < n) (hle : 2 ^ k ≤ n) : k ≤ floorLog2 n := by
  by_contra hlt
  have h1 := (floorLog2_spec n h).2
  have h2 : 2 ^ (floorLog2 n + 1) ≤ 2 ^ k := Nat.pow_le_pow_right (by omega) (by omega)
  omega

theorem floorLog2Rat_nat (n : Nat) (h : 0 < n) : floorLog2Rat n 1 = (floorLog2 n : Int) := by
  have h1 : floorLog2 1 = 0 := by decide
  unfold floorLog2Rat
  simp only [h1, Int.ofNat_zero, Int.Nat.cast_ofNat_Int, sub_zero, Int.natCast_nonneg, if_true,
    Int.toNat_ofNat, one_mul]
  simp [(floorLog2_spec n h).1]

theorem norm2_mul_pow (n j : Nat) (h : 0 < n) : norm2 (n * 2 ^ j) j = (n, 0) := by
  induction j with
  | zero => simp [norm2]
  | succ j ih =>
    unfold norm2
    have h0 : n * 2 ^ (j + 1) ≠ 0 := by positivity
    have h1 : n * 2 ^ (j + 1) % 2 = 0 := by
      rw [pow_succ, ← Nat.mul_assoc]
      exact Nat.mul_mod_left _ _
    have h2 : n * 2 ^ (j + 1) / 2 = n * 2 ^ j := by
      rw [pow_succ, ← Nat.mul_assoc]
      exact Nat.mul_div_cancel _ (by omega)
    simp only [h0, if_false, h1, if_true, h2, ih]

theorem roundRat_nat (neg : Bool) (n : Nat) (h0 : 0 < n) (h : n < 2 ^ 53) :
    roundRat neg n 1 = .fin neg n 0 := by
  have hfl : floorLog2 n < 53 := floorLog2_lt_of_lt_pow n 53 h0 h
  have hn : ¬ (n = 0 ∨ 1 = 0) := by omega
  have he : max ((floorLog2 n : Int) - 52) (-1074) = (floorLog2 n : Int) - 52 :=
    max_eq_left (by omega)
  unfold roundRat
  rw [if_neg hn, floorLog2Rat_nat n h0]
  simp only [he]
  by_cases h52 : floorLog2 n = 52
  · simp [h52, Nat.mod_one]
  · have hneg : ¬ (0 ≤ (floorLog2 n : Int) - 52) := by omega
    have hj : (-((floorLog2 n : Int) - 52)).toNat = 52 - floorLog2 n := by omega
    simp only [hneg, if_false, hj, Nat.div_one, Nat.mod_one, Nat.mul_zero, Nat.lt_irrefl,
      false_or]
    have hq : ¬ (1 < 0 ∨ 0 = 1 ∧ n * 2 ^ (52 - floorLog2 n) % 2 = 1) := by simp
    rw [if_neg hq, norm2_mul_pow n _ h0]

theorem roundRat_big (neg : Bool) (m : Nat) (hm : 2 ^ 53 ≤ m) :
    roundRat neg m 1 = .inf neg ∨ ∃ v, roundRat neg m 1 = .fin neg v 0 ∧ 2 ^ 53 ≤ v := by
  have h0 : 0 < m := Nat.lt_of_lt_of_le (by positivity) hm
  have hfl : 53 ≤ floorLog2 m := le_floorLog2_of_pow_le m 53 h0 hm
  have hn : ¬ (m = 0 ∨ 1 = 0) := by omega
  have he : max ((floorLog2 m : Int) - 52) (-1074) = (floorLog2 m : Int) - 52 :=
    max_eq_left (by omega)
  have hpos : 0 ≤ (floorLog2 m : Int) - 52 := by omega
  have hj : ((floorLog2 m : Int) - 52).toNat = floorLog2 m - 52 := by omega
  unfold roundRat
  rw [if_neg hn, floorLog2Rat_nat m h0]
  simp only [he, hpos, if_true, hj, one_mul]
  have hsplit : 2 ^ floorLog2 m = 2 ^ 52 * 2 ^ (floorLog2 m - 52) := by
    rw [← pow_add]
    congr 1
    omega
  have hq : 2 ^ 52 ≤ m / 2 ^ (floorLog2 m - 52) := by
    rw [Nat.le_div_iff_mul_le (by positivity)]
    rw [← hsplit]
    exact (floorLog2_spec m h0).1
  have h2 : 2 ≤ 2 ^ (floorLog2 m - 52) := by
    calc 2 = 2 ^ 1 := by norm_num
      _ ≤ 2 ^ (floorLog2 m - 52) := Nat.pow_le_pow_right (by omega) (by omega)
  generalize hQ : (if 2 ^ (floorLog2 m - 52) < 2 * (m % 2 ^ (floorLog2 m - 52)) ∨
      2 * (m % 2 ^ (floorLog2 m - 52)) = 2 ^ (floorLog2 m - 52) ∧
        m / 2 ^ (floorLog2 m - 52) % 2 = 1 then
      m / 2 ^ (floorLog2 m - 52) + 1 else m / 2 ^ (floorLog2 m - 52)) = q1
  have hq1 : 2 ^ 52 ≤ q1 := by
    rw [← hQ]
    split
    · omega
    · exact hq
  by_cases hov : 1024 ≤ floorLog2 (q1 * 2 ^ (floorLog2 m - 52))
  · left
    simp [hov]
  · right
    refine ⟨q1 * 2 ^ (floorLog2 m - 52), by simp [hov], ?_⟩
    calc 2 ^ 53 = 2 ^ 52 * 2 := by norm_num
      _ ≤ q1 * 2 ^ (floorLog2 m - 52) := Nat.mul_le_mul hq1 h2

theorem roundRat_nat_inj (m n : Nat) (h0 : 0 < n) (h : n < 2 ^ 53)
    (hr : roundRat false m 1 = .fin false n 0) : m = n := by
  by_cases hm0 : m = 0
  · subst hm0
    simp [roundRat] at hr
    omega
  · by_cases hlt : m < 2 ^ 53
    · rw [roundRat_nat false m (by omega) hlt] at hr
      simpa using hr
    · rcases roundRat_big false m (by omega) with hinf | ⟨v, hv, hge⟩
      · rw [hinf] at hr
        cases hr
      · rw [hv] at hr
        simp only [JSNum.fin.injEq, true_and, and_true] at hr
        omega


/-! ## Numbers: decimal numerals -/

theorem digitChar_toNat (r : Nat) (h : r < 10) : (Char.ofNat (48 + r)).toNat = 48 + r := by
  interval_cases r <;> rfl

theorem digitChar_isDigit (r : Nat) (h : r < 10) : isDigit (Char.ofNat (48 + r)) = true := by
  interval_cases r <;> rfl

theorem isDigit_not_whiteSpace (c : Char) (h : isDigit c = true) : isWhiteSpace c = false := by
  simp only [isDigit, Bool.and_eq_true, decide_eq_true_eq] at h
  simp only [isWhiteSpace, decide_eq_false_iff_not, List.mem_cons, List.mem_singleton,
    List.not_mem_nil, or_false]
  omega

theorem isDigit_ne (c d : Char) (h : isDigit c = true) (hd : isDigit d = false) : c ≠ d := by
  intro e
  rw [e, hd] at h
  cases h

theorem natDigitsFuel_value (fuel : Nat) : ∀ (n : Nat) (acc : Str), n < fuel →
    (natDigitsFuel fuel n acc).foldl (fun a c => 10 * a + (c.toNat - 48)) 0 =
      acc.foldl (fun a c => 10 * a + (c.toNat - 48)) n := by
  induction fuel with
  | zero => intro n acc h; omega
  | succ fuel ih =>
    intro n acc h
    unfold natDigitsFuel
    have hd : (Char.ofNat (48 + n % 10)).toNat - 48 = n % 10 := by
      rw [digitChar_toNat _ (Nat.mod_lt _ (by omega))]
      omega
    by_cases h0 : n / 10 = 0
    · simp only [h0, if_true, List.foldl_cons, hd]
      congr 1
      omega
    · simp only [h0, if_false]
      rw [ih (n / 10) _ (by omega)]
      simp only [List.foldl_cons, hd]
      congr 1
      omega

theorem natDigits_value (n : Nat) : digitsValue (natDigits n) = n :=
  natDigitsFuel_value (n + 1) n [] (by omega)

theorem natDigitsFuel_all (fuel : Nat) : ∀ (n : Nat) (acc : Str), acc.all isDigit = true →
    (natDigitsFuel fuel n acc).all isDigit = true := by
  induction fuel with
  | zero => intro n acc h; exact h
  | succ fuel ih =>
    intro n acc h
    unfold natDigitsFuel
    have hd := digitChar_isDigit (n % 10) (Nat.mod_lt _ (by omega))
    by_cases h0 : n / 10 = 0
    · simp only [h0, if_true, List.all_cons, hd, h, Bool.and_self]
    · simp only [h0, if_false]
      exact ih _ _ (by simp only [List.all_cons, hd, h, Bool.and_self])

theorem natDigits_all (n : Nat) : (natDigits n).all isDigit = true :=
  natDigitsFuel_all (n + 1) n [] rfl

theorem natDigitsFuel_length (fuel : Nat) : ∀ (n : Nat) (acc : Str), n < fuel →
    ∃ d, (natDigitsFuel fuel n acc).length = acc.length + d ∧ 1 ≤ d ∧ n < 10 ^ d ∧
      (0 < n → 10 ^ (d - 1) ≤ n) := by
  induction fuel with
  | zero => intro n acc h; omega
  | succ fuel ih =>
    intro n acc h
    unfold natDigitsFuel
    by_cases h0 : n / 10 = 0
    · refine ⟨1, by simp [h0], Nat.le_refl 1, ?_, ?_⟩
      · simp; omega
      · intro hn; simpa using hn
    · obtain ⟨d, hlen, hd1, hlt, hge⟩ :=
        ih (n / 10) (Char.ofNat (48 + n % 10) :: acc) (by omega)
      refine ⟨d + 1, ?_, by omega, ?_, ?_⟩
      · simp only [h0, if_false, hlen, List.length_cons]
        omega
      · rw [pow_succ]
        omega
      · intro _
        have h1 := hge (by omega)
        have h2 : 10 ^ (d + 1 - 1) = 10 ^ (d - 1) * 10 := by
          rw [← pow_succ]
          congr 1
          omega
        rw [h2]
        omega

theorem natDigits_length (n : Nat) :
    1 ≤ (natDigits n).length ∧ n < 10 ^ (natDigits n).length ∧
      (0 < n → 10 ^ ((natDigits n).length - 1) ≤ n) := by
  obtain ⟨d, hlen, hd1, hlt, hge⟩ := natDigitsFuel_length (n + 1) n [] (by omega)
  have hl : (natDigits n).length = d := by simpa [natDigits] using hlen
  rw [hl]
  exact ⟨hd1, hlt, hge⟩

theorem digitsValue_append_zeros (ds : Str) (z : Nat) :
    digitsValue (ds ++ List.replicate z '0') = digitsValue ds * 10 ^ z := by
  unfold digitsValue
  rw [List.foldl_append]
  generalize List.foldl (fun acc c => 10 * acc + (c.toNat - 48)) 0 ds = v
  induction z generalizing v with
  | zero => simp
  | succ z ih =>
    simp only [List.replicate_succ, List.foldl_cons]
    rw [ih]
    have : ('0' : Char).toNat - 48 = 0 := by decide
    rw [this, pow_succ]
    ring


/-! ## Numbers: printing an integer and reading it back -/

theorem shortestFrom_first (x : JSNum) (num den : Nat) (e : Int) (fuel : Nat) :
    ∀ (k K sK : Nat), k ≤ K → K < k + fuel → shortestAt x num den e K = some sK →
      ∃ s k1, shortestFrom x num den e fuel k = some (s, k1) ∧ k ≤ k1 ∧ k1 ≤ K ∧
        shortestAt x num den e k1 = some s := by
  induction fuel with
  | zero => intro k K sK h1 h2 _; omega
  | succ fuel ih =>
    intro k K sK h1 h2 hK
    unfold shortestFrom
    cases hk : shortestAt x num den e k with
    | some s => exact ⟨s, k, rfl, Nat.le_refl k, h1, hk⟩
    | none =>
      have hne : k ≠ K := by
        intro e2
        rw [e2, hK] at hk
        cases hk
      obtain ⟨s, k1, hs, hk1, hk2, hsome⟩ := ih (k + 1) K sK (by omega) (by omega) hK
      exact ⟨s, k1, hs, by omega, hk2, hsome⟩

theorem shortestAt_some_cases (x : JSNum) (num den : Nat) (n : Int) (k s : Nat)
    (up down : Nat)
    (hup : (if 0 ≤ (k : Int) - n then 10 ^ ((k : Int) - n).toNat else 1) = up)
    (hdown : (if 0 ≤ (k : Int) - n then 1 else 10 ^ (-((k : Int) - n)).toNat) = down)
    (h : shortestAt x num den n k = some s) :
    roundRat false (s * down) up = x := by
  unfold shortestAt at h
  simp only [hup, hdown] at h
  by_cases hlo : roundRat false (num * up / (den * down) * down) up = x
  · by_cases hhi : roundRat false ((num * up / (den * down) + 1) * down) up = x
    · simp only [hlo, hhi, decide_True, Bool.and_self, if_true] at h
      split at h
      · cases h; exact hlo
      · split at h
        · cases h; exact hhi
        · split at h
          · cases h; exact hlo
          · cases h; exact hhi
    · simp only [hlo, hhi, decide_True, decide_False, Bool.and_false, Bool.false_eq_true,
        if_false, if_true] at h
      cases h
      exact hlo
  · by_cases hhi : roundRat false ((num * up / (den * down) + 1) * down) up = x
    · simp only [hlo, hhi, decide_True, decide_False, Bool.false_and, Bool.false_eq_true,
        if_false, if_true] at h
      cases h
      exact hhi
    · simp [hlo, hhi] at h

theorem shortestAt_self (n : Nat) (h0 : 0 < n) (h : n < 2 ^ 53) (L : Nat) :
    ∃ s, shortestAt (.fin false n 0) n 1 (L : Int) L = some s := by
  have hr : roundRat false (n * 1 / (1 * 1) * 1) 1 = .fin false n 0 := by
    simpa using roundRat_nat false n h0 h
  unfold shortestAt
  simp only [sub_self, le_refl, if_true, Int.toNat_zero, pow_zero, hr, decide_True,
    Bool.true_and]
  by_cases hhi : roundRat false ((n * 1 / (1 * 1) + 1) * 1) 1 = JSNum.fin false n 0
  · simp only [hhi, decide_True, if_true]
    split
    · exact ⟨_, rfl⟩
    · split
      · exact ⟨_, rfl⟩
      · split
        · exact ⟨_, rfl⟩
        · exact ⟨_, rfl⟩
  · simp only [hhi, decide_False, Bool.false_eq_true, if_false]
    exact ⟨_, rfl⟩

theorem shortestAt_sound (n : Nat) (h0 : 0 < n) (h : n < 2 ^ 53) (L k s : Nat) (hk : k ≤ L)
    (hs : shortestAt (.fin false n 0) n 1 (L : Int) k = some s) : s * 10 ^ (L - k) = n := by
  have hup : (if 0 ≤ (k : Int) - (L : Int) then 10 ^ ((k : Int) - (L : Int)).toNat else 1) = 1 := by
    by_cases hz : 0 ≤ (k : Int) - (L : Int)
    · have : ((k : Int) - (L : Int)).toNat = 0 := by omega
      simp [hz, this]
    · simp [hz]
  have hdown : (if 0 ≤ (k : Int) - (L : Int) then 1 else 10 ^ (-((k : Int) - (L : Int))).toNat)
      = 10 ^ (L - k) := by
    by_cases hz : 0 ≤ (k : Int) - (L : Int)
    · have : L - k = 0 := by omega
      simp [hz, this]
    · have : (-((k : Int) - (L : Int))).toNat = L - k := by omega
      simp [hz, this]
  exact roundRat_nat_inj _ n h0 h (shortestAt_some_cases _ n 1 L k s 1 (10 ^ (L - k)) hup hdown hs)

theorem natDigits_length_le (n : Nat) (h0 : 0 < n) (h : n < 2 ^ 53) :
    (natDigits n).length ≤ 16 := by
  by_contra hgt
  have h1 := (natDigits_length n).2.2 h0
  have h2 : 10 ^ 16 ≤ 10 ^ ((natDigits n).length - 1) :=
    Nat.pow_le_pow_right (by omega) (by omega)
  have h3 : (2 : Nat) ^ 53 < 10 ^ 16 := by norm_num
  omega

theorem positiveToString_nat (n : Nat) (h0 : 0 < n) (h : n < 2 ^ 53) :
    ∃ s k, s * 10 ^ ((natDigits n).length - k) = n ∧
      positiveToString n 1 = natDigits s ++ List.replicate ((natDigits n).length - k) '0' := by
  obtain ⟨hL1, hLlt, _⟩ := natDigits_length n
  have hL16 := natDigits_length_le n h0 h
  have hdec : decExponent n 1 = ((natDigits n).length : Int) := by
    unfold decExponent
    have : 1 ≤ n := h0
    simp [this]
  obtain ⟨sL, hsL⟩ := shortestAt_self n h0 h (natDigits n).length
  obtain ⟨s, k, hfrom, hk1, hk2, hat⟩ :=
    shortestFrom_first (.fin false n 0) n 1 ((natDigits n).length : Int) 17 1
      (natDigits n).length sL hL1 (by omega) hsL
  have hsound := shortestAt_sound n h0 h _ k s hk2 hat
  refine ⟨s, k, hsound, ?_⟩
  have hne : s ≠ 10 ^ k := by
    intro e
    rw [e, ← pow_add] at hsound
    have : k + ((natDigits n).length - k) = (natDigits n).length := by omega
    rw [this] at hsound
    omega
  unfold positiveToString
  simp only [roundRat_nat false n h0 h, hdec, shortestDigits, hfrom, hne, if_false]
  unfold layoutDigits
  have hcond : ((k : Int) ≤ ((natDigits n).length : Int) ∧ ((natDigits n).length : Int) ≤ 21) := by
    constructor <;> omega
  simp only [hcond, and_self, if_true, Int.toNat_ofNat]

theorem parseIntStr_digits (ds : Str) (hne : ds ≠ []) (hall : ds.all isDigit = true) :
    parseIntStr ds = roundRat false (digitsValue ds) 1 := by
  obtain ⟨c, cs, rfl⟩ := List.exists_cons_of_ne_nil hne
  have hc : isDigit c = true := by
    simp only [List.all_cons, Bool.and_eq_true] at hall
    exact hall.1
  have hws : isWhiteSpace c = false := isDigit_not_whiteSpace c hc
  have hplus : c ≠ '+' := isDigit_ne c '+' hc (by decide)
  have hminus : c ≠ '-' := isDigit_ne c '-' hc (by decide)
  have htrim : trimStart (c :: cs) = c :: cs := by
    simp [trimStart, List.dropWhile, hws]
  have htake : List.takeWhile isDigit (c :: cs) = c :: cs := by
    rw [List.takeWhile_eq_self_iff]
    intro x hx
    exact List.all_eq_true.mp hall x hx
  unfold parseIntStr
  simp only [htrim, List.head?_cons, Option.some.injEq, hminus, decide_False]
  have hu : stripSign (c :: cs) = c :: cs := by
    unfold stripSign
    split
    · rename_i r heq
      exact absurd (List.cons.inj heq).1 hplus
    · rename_i r heq
      exact absurd (List.cons.inj heq).1 hminus
    · rfl
  rw [hu, htake]
  simp

/-- Printing an integer below `2 ^ 53` and reading it back with `parseInt` returns it. -/
theorem parseInt_numToString_nat (n : Nat) (h0 : 0 < n) (h : n < 2 ^ 53) :
    parseIntStr (numToString (.fin false n 0)) = .fin false n 0 := by
  obtain ⟨s, k, hval, hstr⟩ := positiveToString_nat n h0 h
  have hn0 : n ≠ 0 := by omega
  unfold numToString
  simp only [hn0, if_false, Bool.false_eq_true, pow_zero, hstr]
  have hne : natDigits s ++ List.replicate ((natDigits n).length - k) '0' ≠ [] := by
    have := (natDigits_length s).1
    intro e
    have hl := congrArg List.length e
    simp only [List.length_append, List.length_replicate, List.length_nil] at hl
    omega
  have hall : (natDigits s ++ List.replicate ((natDigits n).length - k) '0').all isDigit = true := by
    rw [List.all_append, natDigits_all s]
    simp only [Bool.true_and, List.all_eq_true]
    intro x hx
    rw [(List.mem_replicate.mp hx).2]
    decide
  rw [parseIntStr_digits _ hne hall, digitsValue_append_zeros, natDigits_value, hval]
  exact roundRat_nat false n h0 h


/-! ## Trimmed strings -/

theorem trim_of_ends (s : Str) (c d : Char) (cs ds : Str) (h1 : s = c :: cs)
    (hc : isWhiteSpace c = false) (h2 : s.reverse = d :: ds) (hd : isWhiteSpace d = false) :
    trim s = s := by
  have hstart : trimStart s = s := by
    rw [h1]
    simp [trimStart, List.dropWhile, hc]
  have hend : trimEnd s = s := by
    unfold trimEnd
    rw [h2]
    simp only [List.dropWhile, hd]
    rw [← h2, List.reverse_reverse]
  unfold trim
  rw [hstart, hend]

theorem trimmed_ends (f : Str) (h : trim f = f) (hne : f ≠ []) :
    (∃ c cs, f = c :: cs ∧ isWhiteSpace c = false) ∧
    (∃ d ds, f.reverse = d :: ds ∧ isWhiteSpace d = false) := by
  constructor
  · obtain ⟨c, cs, rfl⟩ := List.exists_cons_of_ne_nil hne
    refine ⟨c, cs, rfl, ?_⟩
    by_contra hws
    have hws' : isWhiteSpace c = true := by simpa using hws
    have hlen : (trim (c :: cs)).length ≤ cs.length := by
      unfold trim trimEnd trimStart
      simp only [List.dropWhile, hws', List.length_reverse]
      calc (List.dropWhile isWhiteSpace (List.dropWhile isWhiteSpace cs).reverse).length
          ≤ (List.dropWhile isWhiteSpace cs).reverse.length := (List.dropWhile_sublist _).length_le
        _ = (List.dropWhile isWhiteSpace cs).length := List.length_reverse _
        _ ≤ cs.length := (List.dropWhile_sublist _).length_le
    rw [h] at hlen
    simp at hlen
  · have hrev : f.reverse = List.dropWhile isWhiteSpace (trimStart f).reverse := by
      conv_lhs => rw [← h]
      unfold trim trimEnd
      rw [List.reverse_reverse]
    have hne2 : f.reverse ≠ [] := by simpa using hne
    obtain ⟨d, ds, hd⟩ := List.exists_cons_of_ne_nil hne2
    refine ⟨d, ds, hd, ?_⟩
    have hdrop : List.dropWhile isWhiteSpace (trimStart f).reverse = d :: ds := by
      rw [← hrev, hd]
    have := List.head_dropWhile_not isWhiteSpace (trimStart f).reverse
      (by rw [hdrop]; simp)
    simpa [hdrop] using this

theorem trim_digits (a : Str) (hne : a ≠ []) (hall : a.all isDigit = true) : trim a = a := by
  obtain ⟨c, cs, hc⟩ := List.exists_cons_of_ne_nil hne
  have hne2 : a.reverse ≠ [] := by simpa using hne
  obtain ⟨d, ds, hd⟩ := List.exists_cons_of_ne_nil hne2
  have hcm : c ∈ a := by rw [hc]; exact List.mem_cons_self _ _
  have hdm : d ∈ a := by
    rw [← List.mem_reverse, hd]
    exact List.mem_cons_self _ _
  exact trim_of_ends a c d cs ds hc
    (isDigit_not_whiteSpace c (List.all_eq_true.mp hall c hcm)) hd
    (isDigit_not_whiteSpace d (List.all_eq_true.mp hall d hdm))

theorem trim_fullName (f l : Str) (hf : trim f = f) (hfne : f ≠ []) (hl : trim l = l)
    (hlne : l ≠ []) : trim (f ++ ' ' :: l) = f ++ ' ' :: l := by
  obtain ⟨⟨c, cs, hc, hcw⟩, _⟩ := trimmed_ends f hf hfne
  obtain ⟨_, ⟨d, ds, hd, hdw⟩⟩ := trimmed_ends l hl hlne
  apply trim_of_ends (f ++ ' ' :: l) c d (cs ++ ' ' :: l) (ds ++ ' ' :: f.reverse) _ hcw _ hdw
  · rw [hc]
    rfl
  · rw [List.reverse_append, List.reverse_cons, hd]
    simp


/-! ## Numbers: decimal integers as cells -/

theorem toNumber_digits (a : Str) (n : Nat) (hne : a ≠ []) (hall : a.all isDigit = true)
    (hval : digitsValue a = n) (h0 : 0 < n) (h : n < 2 ^ 53) :
    toNumber a = .fin false n 0 := by
  have htrim := trim_digits a hne hall
  have htake : List.takeWhile isDigit a = a := by
    rw [List.takeWhile_eq_self_iff]
    intro x hx
    exact List.all_eq_true.mp hall x hx
  have hdrop : List.dropWhile isDigit a = [] := by
    rw [List.dropWhile_eq_nil_iff]
    intro x hx
    exact List.all_eq_true.mp hall x hx
  have hinf : a ≠ "Infinity".toList := by
    intro e
    rw [e] at hall
    revert hall
    decide
  have hdec : strUnsignedDecimalLiteral false a = .fin false n 0 := by
    unfold strUnsignedDecimalLiteral
    simp only [hinf, if_false, htake, hdrop, hne, false_and, parseExponent, List.append_nil,
      hval, List.length_nil]
    simp [roundDec, roundRat_nat false n h0 h]
  unfold toNumber
  rw [htrim, if_neg hne]
  unfold strNumericLiteral
  split
  all_goals first
    | exact hdec
    | (exfalso; revert hall; simp [isDigit])


/-! ## C2: the example row -/

theorem createObject_exampleHeaders (f l a c : Str) :
    createObjectFromCSV exampleHeaders [f, l, a, c] =
      .ok (.obj [("name".toList, .obj [("firstName".toList, coerceValue (cellValue (some f))),
          ("lastName".toList, coerceValue (cellValue (some l)))]),
        ("age".toList, coerceValue (cellValue (some a))),
        ("address".toList, .obj [("city".toList, coerceValue (cellValue (some c)))])]) := by
  rfl

theorem coerceValue_nonNumeric (f : Str) (h : isNaN f = true) : coerceValue f = .str f := by
  simp [coerceValue, h]

theorem coerceValue_digits (a : Str) (n : Nat) (hne : a ≠ []) (hall : a.all isDigit = true)
    (hval : digitsValue a = n) (h0 : 0 < n) (h : n < 2 ^ 53) :
    coerceValue a = .num (.fin false n 0) := by
  have hnum := toNumber_digits a n hne hall hval h0 h
  simp [coerceValue, isNaN, hnum, hne]

theorem validate_ok (record nm vf vl va : Val)
    (hname : record.getProp "name".toList = some nm)
    (hfirst : nm.getProp "firstName".toList = some vf) (hf : vf.truthy = true)
    (hlast : nm.getProp "lastName".toList = some vl) (hl : vl.truthy = true)
    (hage : record.getProp "age".toList = some va) (ha : va.truthy = true) :
    validateMandatoryFields record = .ok () := by
  have hrec : record.truthy = true := by
    cases record with
    | obj fs => rfl
    | str s => simp [Val.getProp] at hname
    | num x => simp [Val.getProp] at hname
  have hnm : nm.truthy = true := by
    cases nm with
    | obj fs => rfl
    | str s => simp [Val.getProp] at hfirst
    | num x => simp [Val.getProp] at hfirst
  have e1 : splitOn '.' "name.firstName".toList = ["name".toList, "firstName".toList] := by decide
  have e2 : splitOn '.' "name.lastName".toList = ["name".toList, "lastName".toList] := by decide
  have e3 : splitOn '.' "age".toList = ["age".toList] := by decide
  simp only [String.toList] at hname hfirst hlast hage
  simp only [validateMandatoryFields, mandatoryFields, validateFields, e1, e2, e3, validateWalk,
    hname, hfirst, hlast, hage, hrec, hnm, truthyOpt, hf, hl, ha]
  simp

theorem transform_example_shape (f l c : Str) (x : JSNum) (hf : f ≠ []) (hl : l ≠ [])
    (hx : x.truthy = true) :
    transformRecordForDatabase
      (.obj [("name".toList, .obj [("firstName".toList, .str f), ("lastName".toList, .str l)]),
        ("age".toList, .num x), ("address".toList, .obj [("city".toList, .str c)])]) =
      .ok { name := trim (f ++ ' ' :: l)
            age := parseIntStr (numToString x)
            address := some (.obj [("city".toList, .str c)])
            additional_info := none } := by
  have tf : (Val.str f).truthy = true := by simp [Val.truthy, hf]
  have tl : (Val.str l).truthy = true := by simp [Val.truthy, hl]
  have tx : (Val.num x).truthy = true := by simp [Val.truthy, hx]
  have hv := validate_ok
      (.obj [("name".toList, .obj [("firstName".toList, .str f), ("lastName".toList, .str l)]),
        ("age".toList, .num x), ("address".toList, .obj [("city".toList, .str c)])])
      (.obj [("firstName".toList, .str f), ("lastName".toList, .str l)])
      (.str f) (.str l) (.num x) rfl rfl tf rfl tl rfl tx
  unfold transformRecordForDatabase
  rw [hv]
  rfl

/-- C2, as the code has it. For non-empty, trimmed, non-numeric strings `f`, `l`, `c` and a
cell `a` of decimal digits whose value `n` is positive and below `2 ^ 53`, the example
headers with the values `[f, l, a, c]` give the record
`{name: f + " " + l, age: n, address: {city: c}, additional_info: null}`. -/
theorem transform_example_row (f l a c : Str) (n : Nat)
    (hf : trim f = f) (hfne : f ≠ []) (hfnan : isNaN f = true)
    (hl : trim l = l) (hlne : l ≠ []) (hlnan : isNaN l = true)
    (hc : trim c = c) (hcnan : isNaN c = true)
    (hane : a ≠ []) (hadig : a.all isDigit = true) (haval : digitsValue a = n)
    (h0 : 0 < n) (hlt : n < 2 ^ 53) :
    buildAndTransform exampleHeaders [f, l, a, c] =
      .ok { name := f ++ ' ' :: l
            age := .fin false n 0
            address := some (.obj [("city".toList, .str c)])
            additional_info := none } := by
  unfold buildAndTransform
  rw [createObject_exampleHeaders]
  simp only [cellValue_some, hf, hl, hc, trim_digits a hane hadig,
    coerceValue_nonNumeric f hfnan, coerceValue_nonNumeric l hlnan,
    coerceValue_nonNumeric c hcnan, coerceValue_digits a n hane hadig haval h0 hlt]
  rw [transform_example_shape f l c (.fin false n 0) hfne hlne
    (by simp [JSNum.truthy]; omega)]
  rw [trim_fullName f l hf hfne hl hlne, parseInt_numToString_nat n h0 hlt]

/-- The example row `Ann`, `Lee`, `30`, `Paris`. -/
theorem transform_example_row_witness :
    buildAndTransform exampleHeaders ["Ann".toList, "Lee".toList, "30".toList, "Paris".toList] =
      .ok { name := "Ann Lee".toList
            age := .fin false 30 0
            address := some (.obj [("city".toList, .str "Paris".toList)])
            additional_info := none } :=
  transform_example_row "Ann".toList "Lee".toList "30".toList "Paris".toList 30
    (by decide) (by decide) (by decide) (by decide) (by decide) (by decide) (by decide)
    (by decide) (by decide) (by decide) (by decide) (by decide) (by norm_num)

/-- C2 fails as stated for large integers: the age cell `9007199254740993` (`2 ^ 53 + 1`)
is read as the double `9007199254740992`, so the record does not carry the age written. -/
theorem transform_example_row_rounds_large_age :
    digitsValue "9007199254740993".toList = 9007199254740993 ∧
    buildAndTransform exampleHeaders
        ["Ann".toList, "Lee".toList, "9007199254740993".toList, "Paris".toList] =
      .ok { name := "Ann Lee".toList
            age := .fin false 9007199254740992 0
            address := some (.obj [("city".toList, .str "Paris".toList)])
            additional_info := none } ∧
    buildAndTransform exampleHeaders
        ["Ann".toList, "Lee".toList, "9007199254740993".toList, "Paris".toList] ≠
      .ok { name := "Ann Lee".toList
            age := .fin false 9007199254740993 0
            address := some (.obj [("city".toList, .str "Paris".toList)])
            additional_info := none } := by
  decide


/-! ## C13: the age of a transformed record -/

theorem validateWalk_cons_ok (field key : Str) (rest : List Str) (current : Val)
    (h : validateWalk field (key :: rest) current = .ok ()) :
    ∃ child, current.getProp key = some child ∧ child.truthy = true ∧
      validateWalk field rest child = .ok () := by
  unfold validateWalk at h
  split at h
  · cases h
  · rename_i hcond
    cases hg : current.getProp key with
    | none => simp [hg] at h
    | some child =>
      simp only [hg] at h
      refine ⟨child, rfl, ?_, h⟩
      have : ¬ (truthyOpt (current.getProp key) = false) := fun e => hcond (Or.inr e)
      simpa [hg, truthyOpt] using this

/-- What a successful validation says about the record. -/
theorem validate_inv (record : Val) (h : validateMandatoryFields record = .ok ()) :
    ∃ nm vf vl va, record.getProp "name".toList = some nm ∧
      nm.getProp "firstName".toList = some vf ∧ vf.truthy = true ∧
      nm.getProp "lastName".toList = some vl ∧ vl.truthy = true ∧
      record.getProp "age".toList = some va ∧ va.truthy = true := by
  have e1 : splitOn '.' "name.firstName".toList = ["name".toList, "firstName".toList] := by decide
  have e2 : splitOn '.' "name.lastName".toList = ["name".toList, "lastName".toList] := by decide
  have e3 : splitOn '.' "age".toList = ["age".toList] := by decide
  unfold validateMandatoryFields mandatoryFields at h
  simp only [validateFields, e1, e2, e3] at h
  cases h1 : validateWalk "name.firstName".toList ["name".toList, "firstName".toList] record with
  | error e => rw [h1] at h; cases h
  | ok u1 =>
    cases h2 : validateWalk "name.lastName".toList ["name".toList, "lastName".toList] record with
    | error e => rw [h1, h2] at h; cases h
    | ok u2 =>
      cases h3 : validateWalk "age".toList ["age".toList] record with
      | error e => rw [h1, h2, h3] at h; cases h
      | ok u3 =>
        obtain ⟨nm, hn, _, hrest⟩ := validateWalk_cons_ok _ _ _ _ h1
        obtain ⟨vf, hf, hft, _⟩ := validateWalk_cons_ok _ _ _ _ hrest
        obtain ⟨nm2, hn2, _, hrest2⟩ := validateWalk_cons_ok _ _ _ _ h2
        obtain ⟨vl, hl, hlt, _⟩ := validateWalk_cons_ok _ _ _ _ hrest2
        obtain ⟨va, ha, hat, _⟩ := validateWalk_cons_ok _ _ _ _ h3
        rw [hn] at hn2
        cases hn2
        exact ⟨nm, vf, vl, va, hn, hf, hft, hl, hlt, ha, hat⟩

theorem roundRat_nat_shape (neg : Bool) (m : Nat) :
    roundRat neg m 1 = .inf neg ∨ ∃ v, roundRat neg m 1 = .fin neg v 0 := by
  by_cases h0 : m = 0
  · right
    exact ⟨0, by simp [roundRat, h0]⟩
  · by_cases hlt : m < 2 ^ 53
    · right
      exact ⟨m, roundRat_nat neg m (by omega) hlt⟩
    · rcases roundRat_big neg m (by omega) with h | ⟨v, hv, _⟩
      · left; exact h
      · right; exact ⟨v, hv⟩

theorem parseIntStr_shape (s : Str) : (parseIntStr s).isIntegerOrSpecial = true := by
  unfold parseIntStr
  simp only []
  split
  · rfl
  · rcases roundRat_nat_shape (decide ((trimStart s).head? = some '-'))
        (digitsValue (List.takeWhile isDigit (stripSign (trimStart s)))) with h | ⟨v, hv⟩
    · rw [h]; rfl
    · rw [hv]; simp [JSNum.isIntegerOrSpecial]

theorem parseIntStr_nonneg (s : Str) (h : startsWithMinus s = false) :
    parseIntStr s = .nan ∨ parseIntStr s = .inf false ∨
      (parseIntStr s).isNonNegativeInteger = true := by
  unfold startsWithMinus at h
  unfold parseIntStr
  simp only [h]
  split
  · exact Or.inl rfl
  · rcases roundRat_nat_shape false
        (digitsValue (List.takeWhile isDigit (stripSign (trimStart s)))) with h1 | ⟨v, hv⟩
    · exact Or.inr (Or.inl h1)
    · right; right
      rw [hv]
      rfl

theorem transform_age_parsed (record : Val) (r : FlatRecord)
    (h : transformRecordForDatabase record = .ok r) :
    ∃ va s, record.getProp "age".toList = some va ∧ va.truthy = true ∧
      toStringVal va = .ok s ∧ r.age = parseIntStr s := by
  cases hv : validateMandatoryFields record with
  | error e =>
    unfold transformRecordForDatabase at h
    rw [hv] at h
    cases h
  | ok u =>
    obtain ⟨nm, vf, vl, va, _, _, _, _, _, ha, hat⟩ := validate_inv record hv
    unfold transformRecordForDatabase at h
    rw [hv] at h
    simp only [] at h
    split at h
    · cases h
    · split at h
      · cases h
      · rw [ha] at h
        unfold parseIntVal toStringOpt at h
        simp only [] at h
        cases hs : toStringVal va with
        | error e => rw [hs] at h; cases h
        | ok s =>
          rw [hs] at h
          cases h
          exact ⟨va, s, ha, hat, hs, rfl⟩

theorem createObject_lookup (headers values : List Str) (record : Val) (h v : Str)
    (hlen : headers.length = values.length) (hplain : plainHeaders headers = true)
    (hpaths : (headers.map headerPath).Pairwise Unrelated)
    (hrec : createObjectFromCSV headers values = .ok record)
    (hm : (h, v) ∈ headers.zip values) :
    getPath record (headerPath h) = some (coerceValue (trim v)) := by
  have hempty : HoldsExactly (.obj []) [] := by
    refine ⟨rfl, ?_, ?_⟩
    · intro p l hm
      simp at hm
    · intro p l hget hl
      cases p with
      | nil =>
        simp only [getPath, Option.some.injEq] at hget
        subst hget
        simp [Val.isLeaf] at hl
      | cons a p => simp [getPath_obj_cons, lookupField] at hget
  obtain ⟨tree, hloop, hholds⟩ := createObjectLoop_holds headers values (.obj []) [] hlen hempty
    hplain hpaths (by intro p l hm; simp at hm)
  unfold createObjectFromCSV at hrec
  rw [hloop] at hrec
  cases hrec
  apply hholds.2.1
  simp only [List.nil_append, List.mem_map]
  exact ⟨(h, v), hm, rfl⟩

/-- C13, as the code has it. Whenever `transformRecordForDatabase(createObjectFromCSV(headers,
values))` returns a record, the built record holds a truthy value at `age` and the age
returned is `parseInt` of the text of that value.  It is never a fraction.  It is `NaN`,
`+Infinity` or a non-negative integer unless that text starts with a minus sign.  When the
value at `age` is a positive integer below `2 ^ 53` the age is that integer; this is the
case of a row whose cell under the header `age` is a run of decimal digits with such a
value, the headers being plain with pairwise unrelated paths. -/
theorem transform_age_parsed_from_record (headers values : List Str) (r : FlatRecord)
    (h : buildAndTransform headers values = .ok r) :
    (∃ record va s, createObjectFromCSV headers values = .ok record ∧
      record.getProp "age".toList = some va ∧ va.truthy = true ∧ toStringVal va = .ok s ∧
      r.age = parseIntStr s ∧
      (startsWithMinus s = false →
        r.age = .nan ∨ r.age = .inf false ∨ r.age.isNonNegativeInteger = true) ∧
      (∀ n, va = .num (.fin false n 0) → 0 < n → n < 2 ^ 53 → r.age = .fin false n 0)) ∧
    r.age.isIntegerOrSpecial = true ∧
    (headers.length = values.length → plainHeaders headers = true →
      (headers.map headerPath).Pairwise Unrelated →
      ∀ hd v, (hd, v) ∈ headers.zip values → headerPath hd = [ageKey] →
        trim v ≠ [] → (trim v).all isDigit = true →
        0 < digitsValue (trim v) → digitsValue (trim v) < 2 ^ 53 →
        r.age = .fin false (digitsValue (trim v)) 0) := by
  unfold buildAndTransform at h
  cases hc : createObjectFromCSV headers values with
  | error e => rw [hc] at h; cases h
  | ok record =>
    rw [hc] at h
    simp only [] at h
    obtain ⟨va, s, ha, hat, hs, hage⟩ := transform_age_parsed record r h
    have hnat : ∀ n, va = .num (.fin false n 0) → 0 < n → n < 2 ^ 53 →
        r.age = .fin false n 0 := by
      intro n hva h0 hlt
      subst hva
      simp only [toStringVal, Except.ok.injEq] at hs
      rw [hage, ← hs]
      exact parseInt_numToString_nat n h0 hlt
    refine ⟨⟨record, va, s, rfl, ha, hat, hs, hage, ?_, hnat⟩, ?_, ?_⟩
    · intro hm
      rw [hage]
      exact parseIntStr_nonneg s hm
    · rw [hage]
      exact parseIntStr_shape s
    · intro hlen hplain hpaths hd v hmem hpath hne hdig h0 hlt
      have hget := createObject_lookup headers values record hd v hlen hplain hpaths hc hmem
      rw [hpath, coerceValue_digits (trim v) _ hne hdig rfl h0 hlt] at hget
      apply hnat _ _ h0 hlt
      simp only [getPath] at hget
      rw [show ageKey = "age".toList from rfl, ha] at hget
      simpa using hget

/-- The example row: its age cell `30` gives the age 30, and so does the cell `30.9`
(the number 30.9 prints as `30.9`); the cell `1e3` gives 1000 and the cell `+7` gives 7. -/
theorem transform_age_parsed_from_record_witness :
    buildAndTransform exampleHeaders ["Ann".toList, "Lee".toList, "30".toList, "Paris".toList] =
      .ok { name := "Ann Lee".toList
            age := .fin false 30 0
            address := some (.obj [("city".toList, .str "Paris".toList)])
            additional_info := none } ∧
    (JSNum.fin false 30 0).isIntegerOrSpecial = true ∧
    (buildAndTransform exampleHeaders
      ["Ann".toList, "Lee".toList, "30.9".toList, "Paris".toList]).toOption.map (fun t => t.age) =
      some (.fin false 30 0) ∧
    (buildAndTransform exampleHeaders
      ["Ann".toList, "Lee".toList, "1e3".toList, "Paris".toList]).toOption.map (fun t => t.age) =
      some (.fin false 1000 0) ∧
    (buildAndTransform exampleHeaders
      ["Ann".toList, "Lee".toList, "+7".toList, "Paris".toList]).toOption.map (fun t => t.age) =
      some (.fin false 7 0) :=
  ⟨by decide, (transform_age_parsed_from_record exampleHeaders
    ["Ann".toList, "Lee".toList, "30".toList, "Paris".toList]
    { name := "Ann Lee".toList
      age := .fin false 30 0
      address := some (.obj [("city".toList, .str "Paris".toList)])
      additional_info := none } (by decide)).2.1, by decide, by decide, by decide⟩

set_option maxRecDepth 100000 in
/-- C13 fails as stated: the age cell `-5` gives a record with age `-5`, the age cell
`abc` gives a record with age `NaN`, and the age cell made of `1`, 309 zeros and the letter
`x` (a string leaf, whose digits denote a number beyond the range of a double) gives a
record with age `+Infinity`; none is a non-negative integer. -/
theorem transform_age_negative_nan_or_infinite :
    buildAndTransform ["name.firstName".toList, "name.lastName".toList, "age".toList]
        ["Ann".toList, "Lee".toList, "-5".toList] =
      .ok { name := "Ann Lee".toList, age := .fin true 5 0, address := none,
            additional_info := none } ∧
    (JSNum.fin true 5 0).isNonNegativeInteger = false ∧
    buildAndTransform ["name.firstName".toList, "name.lastName".toList, "age".toList]
        ["Ann".toList, "Lee".toList, "abc".toList] =
      .ok { name := "Ann Lee".toList, age := .nan, address := none, additional_info := none } ∧
    JSNum.nan.isNonNegativeInteger = false ∧
    buildAndTransform ["name.firstName".toList, "name.lastName".toList, "age".toList]
        ["Ann".toList, "Lee".toList, '1' :: (List.replicate 309 '0' ++ ['x'])] =
      .ok { name := "Ann Lee".toList, age := .inf false, address := none,
            additional_info := none } ∧
    (JSNum.inf false).isNonNegativeInteger = false := by
  decide

/-! ## C14: the name of a transformed record -/

theorem hasInk_iff (s : Str) : hasInk s = true ↔ ∃ c, c ∈ s ∧ isWhiteSpace c = false := by
  simp [hasInk, List.any_eq_true]

theorem mem_dropWhile_of_not (p : Char → Bool) (c : Char) (l : Str) (hc : c ∈ l)
    (hp : p c = false) : c ∈ l.dropWhile p := by
  induction l with
  | nil => simp at hc
  | cons a l ih =>
    by_cases ha : p a = true
    · have hne : c ≠ a := by
        intro e
        rw [e, ha] at hp
        cases hp
      have hcl : c ∈ l := by
        rcases List.mem_cons.mp hc with h | h
        · exact absurd h hne
        · exact h
      simp only [List.dropWhile, ha]
      exact ih hcl
    · have ha' : p a = false := by simpa using ha
      simp only [List.dropWhile, ha']
      exact hc

theorem hasInk_trim (s : Str) (h : hasInk s = true) : hasInk (trim s) = true := by
  obtain ⟨c, hc, hw⟩ := (hasInk_iff s).mp h
  refine (hasInk_iff _).mpr ⟨c, ?_, hw⟩
  unfold trim trimEnd trimStart
  rw [List.mem_reverse]
  apply mem_dropWhile_of_not _ _ _ _ hw
  rw [List.mem_reverse]
  exact mem_dropWhile_of_not _ _ _ hc hw

theorem ne_nil_of_hasInk (s : Str) (h : hasInk s = true) : s ≠ [] := by
  intro e
  rw [e] at h
  cases h

theorem hasInk_of_trim_ne_nil (v : Str) (h : trim v ≠ []) : hasInk (trim v) = true := by
  have hrev : (trim v).reverse = List.dropWhile isWhiteSpace (trimStart v).reverse := by
    unfold trim trimEnd
    rw [List.reverse_reverse]
  have hne : List.dropWhile isWhiteSpace (trimStart v).reverse ≠ [] := by
    rw [← hrev]
    simpa using h
  have hhead := List.head_dropWhile_not isWhiteSpace (trimStart v).reverse hne
  refine (hasInk_iff _).mpr ⟨_, ?_, by simpa using hhead⟩
  rw [← List.mem_reverse, hrev]
  exact List.head_mem hne

theorem hasInk_append_left (a b : Str) (h : hasInk a = true) : hasInk (a ++ b) = true := by
  obtain ⟨c, hc, hw⟩ := (hasInk_iff a).mp h
  exact (hasInk_iff _).mpr ⟨c, List.mem_append_left _ hc, hw⟩

theorem hasInk_cons_of (c : Char) (s : Str) (h : isWhiteSpace c = false) :
    hasInk (c :: s) = true := by
  simp [hasInk, h]

theorem hasInk_natDigits (n : Nat) : hasInk (natDigits n) = true := by
  have hne : natDigits n ≠ [] := by
    intro e
    have := (natDigits_length n).1
    rw [e] at this
    simp at this
  obtain ⟨c, cs, hc⟩ := List.exists_cons_of_ne_nil hne
  have hall := natDigits_all n
  rw [hc] at hall ⊢
  simp only [List.all_cons, Bool.and_eq_true] at hall
  exact hasInk_cons_of c cs (isDigit_not_whiteSpace c hall.1)

theorem hasInk_of_mem (s : Str) (c : Char) (hc : c ∈ s) (hw : isWhiteSpace c = false) :
    hasInk s = true :=
  (hasInk_iff s).mpr ⟨c, hc, hw⟩

theorem hasInk_layoutDigits (s k : Nat) (n : Int) :
    hasInk (layoutDigits (natDigits s) k n) = true := by
  unfold layoutDigits
  split
  · exact hasInk_append_left _ _ (hasInk_natDigits s)
  · split
    · exact hasInk_of_mem _ '.' (by simp) (by decide)
    · split
      · exact hasInk_cons_of _ _ (by decide)
      · simp only []
        split
        · exact hasInk_append_left _ _ (hasInk_natDigits s)
        · exact hasInk_of_mem _ '.' (by simp) (by decide)

theorem hasInk_positiveToString (num den : Nat) : hasInk (positiveToString num den) = true := by
  unfold positiveToString
  simp only []
  split
  · exact hasInk_layoutDigits _ _ _
  · split
    · exact hasInk_layoutDigits _ _ _
    · exact hasInk_layoutDigits _ _ _

theorem hasInk_numToString (x : JSNum) (h : x.truthy = true) : hasInk (numToString x) = true := by
  cases x with
  | nan => simp [JSNum.truthy] at h
  | inf neg => cases neg <;> decide
  | fin neg n d =>
    have hn : n ≠ 0 := by simpa [JSNum.truthy] using h
    unfold numToString
    simp only [hn, if_false]
    cases neg with
    | true => exact hasInk_cons_of _ _ (by decide)
    | false => exact hasInk_positiveToString _ _

theorem walk_from_leaf (keys : List Str) (t leaf t1 : Val) (ht : t.isLeaf = true)
    (h : setNestedWalk keys t leaf = .ok t1) : t1 = t := by
  cases keys with
  | nil =>
    simp only [setNestedWalk, Except.ok.injEq] at h
    exact h.symm
  | cons k rest =>
    cases rest with
    | nil =>
      simp only [setNestedWalk] at h
      cases t with
      | obj fs => simp [Val.isLeaf] at ht
      | str s =>
        simp only [Val.assign] at h
        split at h
        · cases h; rfl
        · cases h
      | num x =>
        simp only [Val.assign] at h
        split at h
        · cases h; rfl
        · cases h
    | cons k2 rest2 =>
      rw [setNestedWalk] at h
      split at h
      · cases h
      · rw [getProp_leaf t _ ht] at h
        simp only [truthyOpt, Bool.false_eq_true, if_false] at h
        cases ha : t.assign (trim k) (.obj []) with
        | error e => rw [ha] at h; cases h
        | ok cur1 =>
          have hcur : cur1 = t := by
            cases t with
            | obj fs => simp [Val.isLeaf] at ht
            | str s =>
              simp only [Val.assign] at ha
              split at ha
              · cases ha; rfl
              · cases ha
            | num x =>
              simp only [Val.assign] at ha
              split at ha
              · cases ha; rfl
              · cases ha
          rw [ha] at h
          simp only [hcur, getProp_leaf t _ ht] at h
          cases h

theorem walk_leaves (keys : List Str) :
    ∀ (t t1 leaf : Val), leaf.isLeaf = true → setNestedWalk keys t leaf = .ok t1 →
      ∀ p v, getPath t1 p = some v → v.isLeaf = true → v = leaf ∨ getPath t p = some v := by
  induction keys with
  | nil =>
    intro t t1 leaf _ hw p v hget _
    simp only [setNestedWalk, Except.ok.injEq] at hw
    subst hw
    exact Or.inr hget
  | cons k rest ih =>
    intro t t1 leaf hleaf hw p v hget hv
    cases htl : t.isLeaf with
    | true =>
      rw [walk_from_leaf _ t leaf t1 htl hw] at hget
      exact Or.inr hget
    | false =>
      obtain ⟨fs, rfl⟩ := obj_of_not_leaf t htl
      have key : ∀ (child child1 : Val),
          (∀ p v, getPath child1 p = some v → v.isLeaf = true →
            v = leaf ∨ getPath child p = some v) →
          (∀ p v, getPath child p = some v → v.isLeaf = true →
            getPath (.obj fs) (trim k :: p) = some v) →
          t1 = .obj (setField (trim k) child1 fs) → v = leaf ∨ getPath (.obj fs) p = some v := by
        intro child child1 hch hcompat ht1
        subst ht1
        cases p with
        | nil =>
          simp only [getPath, Option.some.injEq] at hget
          subst hget
          simp [Val.isLeaf] at hv
        | cons a p =>
          by_cases ha : a = trim k
          · subst ha
            simp only [getPath_obj_cons, lookupField_setField_same] at hget
            rcases hch p v hget hv with h | h
            · exact Or.inl h
            · exact Or.inr (hcompat p v h hv)
          · right
            simp only [getPath_obj_cons, lookupField_setField_other _ _ _ _ ha] at hget
            simpa only [getPath_obj_cons] using hget
      cases rest with
      | nil =>
        simp only [setNestedWalk, Val.assign] at hw
        split at hw
        · cases leaf with
          | obj _ => cases hw
          | str _ => cases hw; exact Or.inr hget
          | num _ => cases hw; exact Or.inr hget
        · simp only [Except.ok.injEq] at hw
          subst hw
          cases p with
          | nil =>
            simp only [getPath, Option.some.injEq] at hget
            subst hget
            simp [Val.isLeaf] at hv
          | cons a p =>
            by_cases ha : a = trim k
            · subst ha
              simp only [getPath_obj_cons, lookupField_setField_same] at hget
              cases p with
              | nil =>
                simp only [getPath, Option.some.injEq] at hget
                exact Or.inl hget.symm
              | cons b p =>
                rw [getPath_leaf_cons leaf b p hleaf] at hget
                cases hget
            · right
              simp only [getPath_obj_cons, lookupField_setField_other _ _ _ _ ha] at hget
              simpa only [getPath_obj_cons] using hget
      | cons k2 rest2 =>
        rw [setNestedWalk] at hw
        split at hw
        · cases hw
        · by_cases htr : truthyOpt (lookupField (trim k) fs) = true
          · cases hl : lookupField (trim k) fs with
            | none => simp [hl, truthyOpt] at htr
            | some v0 =>
              have htr2 : truthyOpt (some v0) = true := by rw [← hl]; exact htr
              simp only [Val.getProp, hl, htr2, if_true] at hw
              cases hrec : setNestedWalk (k2 :: rest2) v0 leaf with
              | error e => simp [hrec] at hw
              | ok child1 =>
                simp only [hrec, Val.withProp, Except.ok.injEq] at hw
                exact key v0 child1 (ih v0 child1 leaf hleaf hrec)
                  (fun p v h _ => by simp only [getPath_obj_cons, hl]; exact h) hw.symm
          · have htf : truthyOpt (lookupField (trim k) fs) = false := by simpa using htr
            simp only [Val.getProp, htf, Bool.false_eq_true, if_false, Val.assign] at hw
            split at hw
            · cases hw
            · rename_i cur1 hc
              split at hc
              · cases hc
              · cases hc
                simp only [lookupField_setField_same] at hw
                cases hrec : setNestedWalk (k2 :: rest2) (.obj []) leaf with
                | error e => simp [hrec] at hw
                | ok child1 =>
                  simp only [hrec, Val.withProp, setField_setField, Except.ok.injEq] at hw
                  apply key (.obj []) child1 (ih (.obj []) child1 leaf hleaf hrec) ?_ hw.symm
                  intro p v h hvl
                  exfalso
                  cases p with
                  | nil =>
                    simp only [getPath, Option.some.injEq] at h
                    subst h
                    simp [Val.isLeaf] at hvl
                  | cons b p => simp [getPath_obj_cons, lookupField] at h

theorem coerceValue_str (value s : Str) (h : coerceValue value = .str s) : s = value := by
  unfold coerceValue at h
  split at h
  · cases h
  · cases h; rfl

theorem hasInk_cellValue (vo : Option Str) (h : cellValue vo ≠ []) :
    hasInk (cellValue vo) = true := by
  cases vo with
  | none => exact absurd rfl h
  | some v =>
    unfold cellValue at h ⊢
    by_cases hv : v = []
    · simp [hv] at h
    · simp only [hv, ne_eq, not_false_eq_true, if_true] at h ⊢
      exact hasInk_of_trim_ne_nil v h

theorem inkLeaves_empty : InkLeaves (.obj []) := by
  intro p s hget _
  cases p with
  | nil => simp [getPath] at hget
  | cons a p => simp [getPath_obj_cons, lookupField] at hget

theorem inkLeaves_loop (hs : List Str) : ∀ (vs : List Str) (t t1 : Val),
    InkLeaves t → createObjectLoop hs vs t = .ok t1 → InkLeaves t1 := by
  induction hs with
  | nil =>
    intro vs t t1 hink hloop
    simp only [createObjectLoop, Except.ok.injEq] at hloop
    subst hloop
    exact hink
  | cons h hs ih =>
    intro vs t t1 hink hloop
    rw [createObjectLoop_cons] at hloop
    cases hstep : setNestedProperty t (trim h) (cellValue vs.head?) with
    | error e => simp [hstep] at hloop
    | ok t2 =>
      simp only [hstep] at hloop
      refine ih vs.tail t2 t1 ?_ hloop
      intro p s hget hne
      unfold setNestedProperty at hstep
      rcases walk_leaves _ t t2 _ (coerceValue_isLeaf _) hstep p (.str s) hget rfl with hl | hl
      · have hs := coerceValue_str _ _ hl.symm
        rw [hs] at hne ⊢
        exact hasInk_cellValue _ hne
      · exact hink p s hl hne

theorem transform_name (record : Val) (r : FlatRecord)
    (h : transformRecordForDatabase record = .ok r) :
    ∃ nm vf vl f l, record.getProp "name".toList = some nm ∧
      nm.getProp "firstName".toList = some vf ∧ vf.truthy = true ∧
      toStringVal vf = .ok f ∧ toStringVal vl = .ok l ∧ r.name = trim (f ++ ' ' :: l) := by
  cases hv : validateMandatoryFields record with
  | error e =>
    unfold transformRecordForDatabase at h
    rw [hv] at h
    cases h
  | ok u =>
    obtain ⟨nm, vf, vl, va, hn, hf, hft, hl, _, _, _⟩ := validate_inv record hv
    refine ⟨nm, vf, vl, ?_⟩
    unfold transformRecordForDatabase at h
    rw [hv] at h
    simp only [hn, Option.some_bind, hf, hl, toStringOpt] at h
    cases h1 : toStringVal vf with
    | error e => rw [h1] at h; cases h
    | ok f =>
      cases h2 : toStringVal vl with
      | error e => rw [h1, h2] at h; cases h
      | ok l =>
        rw [h1, h2] at h
        simp only [] at h
        split at h
        · cases h
        · cases h
          exact ⟨f, l, hn, hf, hft, rfl, rfl, rfl⟩

theorem hasInk_toStringVal (v : Val) (f : Str) (ht : v.truthy = true)
    (hs : toStringVal v = .ok f) (hink : ∀ s, v = .str s → hasInk s = true) :
    hasInk f = true := by
  cases v with
  | str s =>
    simp only [toStringVal, Except.ok.injEq] at hs
    subst hs
    exact hink s rfl
  | num x =>
    simp only [toStringVal, Except.ok.injEq] at hs
    subst hs
    exact hasInk_numToString x (by simpa [Val.truthy] using ht)
  | obj fs =>
    simp only [toStringVal] at hs
    split at hs
    · cases hs
    · cases hs
      decide

/-- C14. Whenever `transformRecordForDatabase(createObjectFromCSV(headers, values))` returns
a record, its name is a non-empty string. -/
theorem transform_name_nonempty (headers values : List Str) (r : FlatRecord)
    (h : buildAndTransform headers values = .ok r) : r.name ≠ [] := by
  unfold buildAndTransform at h
  cases hc : createObjectFromCSV headers values with
  | error e => rw [hc] at h; cases h
  | ok record =>
    rw [hc] at h
    simp only [] at h
    have hink : InkLeaves record := inkLeaves_loop headers values _ record inkLeaves_empty hc
    obtain ⟨nm, vf, vl, f, l, hn, hf, hft, hsf, _, hname⟩ := transform_name record r h
    have hpath : getPath record ["name".toList, "firstName".toList] = some vf := by
      simp only [getPath, hn, hf]
    have hfink : hasInk f = true := by
      apply hasInk_toStringVal vf f hft hsf
      intro s hs
      subst hs
      exact hink _ s hpath (by simpa [Val.truthy] using hft)
    rw [hname]
    exact ne_nil_of_hasInk _ (hasInk_trim _ (hasInk_append_left _ _ hfink))

/-- The example row: its name `Ann Lee` is not empty. -/
theorem transform_name_nonempty_witness :
    buildAndTransform exampleHeaders ["Ann".toList, "Lee".toList, "30".toList, "Paris".toList] =
      .ok { name := "Ann Lee".toList
            age := .fin false 30 0
            address := some (.obj [("city".toList, .str "Paris".toList)])
            additional_info := none } ∧
    "Ann Lee".toList ≠ [] :=
  ⟨by decide, transform_name_nonempty exampleHeaders
    ["Ann".toList, "Lee".toList, "30".toList, "Paris".toList]
    { name := "Ann Lee".toList
      age := .fin false 30 0
      address := some (.obj [("city".toList, .str "Paris".toList)])
      additional_info := none } (by decide)⟩


/-! ## C15: address and additional_info -/

theorem removeField_cons_same (key : Str) (w : Val) (fs : List (Str × Val)) :
    removeField key ((key, w) :: fs) = removeField key fs := by
  simp [removeField, List.filter_cons]

theorem removeField_cons_other (key k : Str) (w : Val) (fs : List (Str × Val))
    (hk : k ≠ key) : removeField key ((k, w) :: fs) = (k, w) :: removeField key fs := by
  simp [removeField, List.filter_cons, hk]

theorem lookupField_removeField_other (key key2 : Str) (fs : List (Str × Val))
    (hne : key ≠ key2) : lookupField key (removeField key2 fs) = lookupField key fs := by
  induction fs with
  | nil => rfl
  | cons p fs ih =>
    obtain ⟨k, w⟩ := p
    by_cases hk2 : k = key2
    · subst hk2
      have hk : ¬ k = key := fun e => hne e.symm
      rw [removeField_cons_same, ih]
      simp only [lookupField, hk, if_false]
    · rw [removeField_cons_other _ _ _ _ hk2]
      by_cases hk : k = key
      · simp only [lookupField, hk, if_true]
      · simp only [lookupField, hk, if_false]
        exact ih

theorem removeField_of_lookup_none (key : Str) (fs : List (Str × Val))
    (h : lookupField key fs = none) : removeField key fs = fs := by
  induction fs with
  | nil => rfl
  | cons p fs ih =>
    obtain ⟨k, w⟩ := p
    by_cases hk : k = key
    · simp [lookupField, hk] at h
    · simp only [lookupField, hk, if_false] at h
      rw [removeField_cons_other _ _ _ _ hk, ih h]

theorem getProp_eq_lookup_fields (record : Val) (key : Str) :
    record.getProp key = lookupField key record.fields := by
  cases record <;> rfl

theorem otherFields_eq (record : Val) :
    removeField "address".toList (removeField "age".toList
      (removeField "name".toList record.fields)) = otherFields record := by
  unfold otherFields
  induction record.fields with
  | nil => rfl
  | cons p fs ih =>
    obtain ⟨k, w⟩ := p
    by_cases h1 : k = "name".toList
    · subst h1
      rw [removeField_cons_same, ih]
      simp [List.filter_cons]
    · rw [removeField_cons_other _ _ _ _ h1]
      by_cases h2 : k = "age".toList
      · subst h2
        rw [removeField_cons_same, ih]
        simp [List.filter_cons]
      · rw [removeField_cons_other _ _ _ _ h2]
        by_cases h3 : k = "address".toList
        · subst h3
          rw [removeField_cons_same, ih]
          simp [List.filter_cons]
        · rw [removeField_cons_other _ _ _ _ h3, ih]
          simp only [String.toList] at h1 h2 h3
          simp [List.filter_cons, h1, h2, h3]

theorem lookupField_removeField_same (key : Str) (fs : List (Str × Val)) :
    lookupField key (removeField key fs) = none := by
  induction fs with
  | nil => rfl
  | cons p fs ih =>
    obtain ⟨k, w⟩ := p
    by_cases hk : k = key
    · subst hk
      rw [removeField_cons_same, ih]
    · rw [removeField_cons_other _ _ _ _ hk]
      simp only [lookupField, hk, if_false]
      exact ih

theorem lookupField_otherFields (record : Val) :
    lookupField "name".toList (otherFields record) = none ∧
    lookupField "age".toList (otherFields record) = none ∧
    lookupField "address".toList (otherFields record) = none := by
  rw [← otherFields_eq]
  refine ⟨?_, ?_, ?_⟩
  · rw [lookupField_removeField_other _ _ _ (by decide),
      lookupField_removeField_other _ _ _ (by decide), lookupField_removeField_same]
  · rw [lookupField_removeField_other _ _ _ (by decide), lookupField_removeField_same]
  · rw [lookupField_removeField_same]

theorem transform_rest_address (record : Val) :
    lookupField "address".toList
      (removeField "age".toList (removeField "name".toList record.fields))
      = record.getProp "address".toList := by
  rw [lookupField_removeField_other _ _ _ (by decide),
    lookupField_removeField_other _ _ _ (by decide), getProp_eq_lookup_fields]

/-- C15 (amended). Whenever `transformRecordForDatabase(record)` returns and the record's
top-level `address` is absent or truthy, the output's `address` is that property (null when
absent), `additional_info` consists of exactly the top-level properties other than `name`,
`age` and `address` in their order, is null when there are none, and holds none of the
three keys. -/
theorem transform_address_lifted (record : Val) (r : FlatRecord)
    (h : transformRecordForDatabase record = .ok r)
    (haddr : record.getProp "address".toList = none ∨
      truthyOpt (record.getProp "address".toList) = true) :
    r.address = record.getProp "address".toList ∧
    r.additional_info =
      (if otherFields record = [] then none else some (.obj (otherFields record))) ∧
    (∀ info, r.additional_info = some info →
      info.getProp "name".toList = none ∧ info.getProp "age".toList = none ∧
      info.getProp "address".toList = none) := by
  have hinfo : removeField "address".toList
      (removeField "age".toList (removeField "name".toList record.fields))
      = otherFields record := otherFields_eq record
  have hlook := transform_rest_address record
  have hlen : ∀ l : List (Str × Val),
      (if 0 < l.length then some (Val.obj l) else none)
        = (if l = [] then none else some (Val.obj l)) := by
    intro l
    cases l <;> simp
  have hkeys := lookupField_otherFields record
  have key : r.address = record.getProp "address".toList ∧
      r.additional_info =
        (if otherFields record = [] then none else some (.obj (otherFields record))) := by
    unfold transformRecordForDatabase at h
    split at h
    · cases h
    · simp only [] at h
      split at h
      · cases h
      · split at h
        · cases h
        · split at h
          · cases h
          · simp only [Except.ok.injEq] at h
            subst h
            simp only
            rw [hlook, hinfo, hlen]
            rcases haddr with hnone | htrue
            · rw [hnone]
              have hsame : removeField "age".toList
                  (removeField "name".toList record.fields) = otherFields record := by
                rw [← hinfo]
                exact (removeField_of_lookup_none _ _ (hlook.trans hnone)).symm
              rw [hsame]
              simp [truthyOpt]
            · rw [htrue]
              simp
  refine ⟨key.1, key.2, ?_⟩
  intro info hi
  rw [key.2] at hi
  split at hi
  · cases hi
  · simp only [Option.some.injEq] at hi
    subst hi
    exact hkeys

theorem transform_address_lifted_witness :
    transformRecordForDatabase (.obj [
      ("name".toList, .obj [("firstName".toList, .str "Ann".toList),
        ("lastName".toList, .str "Lee".toList)]),
      ("age".toList, .num (.fin false 30 0)),
      ("address".toList, .obj [("city".toList, .str "Pune".toList)]),
      ("gender".toList, .str "f".toList)])
      = .ok { name := "Ann Lee".toList, age := .fin false 30 0,
              address := some (.obj [("city".toList, .str "Pune".toList)]),
              additional_info := some (.obj [("gender".toList, .str "f".toList)]) } ∧
    (some (Val.obj [("city".toList, .str "Pune".toList)]) =
      Val.getProp (.obj [
      ("name".toList, .obj [("firstName".toList, .str "Ann".toList),
        ("lastName".toList, .str "Lee".toList)]),
      ("age".toList, .num (.fin false 30 0)),
      ("address".toList, .obj [("city".toList, .str "Pune".toList)]),
      ("gender".toList, .str "f".toList)]) "address".toList) :=
  ⟨by decide, (transform_address_lifted (.obj [
      ("name".toList, .obj [("firstName".toList, .str "Ann".toList),
        ("lastName".toList, .str "Lee".toList)]),
      ("age".toList, .num (.fin false 30 0)),
      ("address".toList, .obj [("city".toList, .str "Pune".toList)]),
      ("gender".toList, .str "f".toList)])
      { name := "Ann Lee".toList, age := .fin false 30 0,
        address := some (.obj [("city".toList, .str "Pune".toList)]),
        additional_info := some (.obj [("gender".toList, .str "f".toList)]) }
      (by decide) (Or.inr (by decide))).1⟩

/-- C15 (counterexample). A row whose scalar `address` cell is empty passes validation; the
output's `address` is null and the `address` key stays inside `additional_info`. -/
theorem transform_keeps_empty_address :
    buildAndTransform
      ["name.firstName".toList, "name.lastName".toList, "age".toList, "address".toList]
      ["Ann".toList, "Lee".toList, "30".toList, "".toList]
      = .ok { name := "Ann Lee".toList, age := .fin false 30 0, address := none,
              additional_info := some (.obj [("address".toList, .str [])]) } := by
  decide


/-! ## C19: the leaf stored for a cell -/

theorem mem_of_mem_trim (c : Char) (s : Str) (h : c ∈ trim s) : c ∈ s := by
  unfold trim trimEnd trimStart at h
  have h1 := List.mem_reverse.mp h
  have h2 := (List.dropWhile_sublist _).mem h1
  have h3 := List.mem_reverse.mp h2
  exact (List.dropWhile_sublist _).mem h3

theorem trim_nil_of_no_ink (value : Str) (h : hasInk value = false) : trim value = [] := by
  by_contra hne
  obtain ⟨c, hc, hw⟩ := (hasInk_iff _).mp (hasInk_of_trim_ne_nil value hne)
  have : hasInk value = true := (hasInk_iff _).mpr ⟨c, mem_of_mem_trim c value hc, hw⟩
  rw [h] at this
  cases this

/-- C19. For every header whose path keeps the walk among plain objects (no segment before
the last names a member of `Object.prototype`, and the last segment is not `__proto__`) and
every raw value, `createObjectFromCSV([header], [value])` returns a tree whose only leaf
sits at the header's path; that leaf is the number `Number(v)` exactly when the trimmed
value `v` is non-empty and `isNaN(v)` is false, and is the string `v` itself otherwise; a
cell without a non-blank character is stored as the empty string. -/
theorem createObject_stores_coerced_cell (header value : Str)
    (hplain : plainPath (headerPath header) = true) :
    ∃ tree leaf, createObjectFromCSV [header] [value] = .ok tree ∧
      getPath tree (headerPath header) = some leaf ∧
      (∀ path l, getPath tree path = some l → l.isLeaf = true →
        path = headerPath header ∧ l = leaf) ∧
      leaf = (if trim value ≠ [] ∧ isNaN (trim value) = false
        then .num (toNumber (trim value)) else .str (trim value)) ∧
      ((∃ n, leaf = .num n) ↔ (trim value ≠ [] ∧ isNaN (trim value) = false)) ∧
      (hasInk value = false → leaf = .str []) := by
  have hempty : HoldsExactly (.obj []) [] := by
    refine ⟨rfl, ?_, ?_⟩
    · intro p l hm
      simp at hm
    · intro p l hget hl
      cases p with
      | nil =>
        simp only [getPath, Option.some.injEq] at hget
        subst hget
        cases hl
      | cons a p => simp [getPath_obj_cons, lookupField] at hget
  obtain ⟨t1, hrun, hholds⟩ := createObjectLoop_holds [header] [value] (.obj []) [] rfl hempty
    (by simp [plainHeaders, hplain]) (by simp) (by intro p l hm; simp at hm)
  simp only [List.nil_append, List.zip_cons_cons, List.zip_nil_right, List.map_cons,
    List.map_nil] at hholds
  have hleaf : coerceValue (trim value) = (if trim value ≠ [] ∧ isNaN (trim value) = false
        then .num (toNumber (trim value)) else .str (trim value)) := by
    unfold coerceValue
    by_cases h1 : isNaN (trim value) = false <;> by_cases h2 : trim value = [] <;>
      simp [h1, h2]
  refine ⟨t1, coerceValue (trim value), hrun, hholds.2.1 _ _ (by simp), ?_, hleaf, ?_, ?_⟩
  · intro path l hget hl
    have := hholds.2.2 path l hget hl
    simpa using this
  · rw [hleaf]
    constructor
    · rintro ⟨n, hn⟩
      split at hn
      · assumption
      · cases hn
    · intro hc
      rw [if_pos hc]
      exact ⟨_, rfl⟩
  · intro hink
    rw [hleaf, trim_nil_of_no_ink value hink]
    simp


/-- The header `address.zip` with the cell ` 0x10 ` stores the number 16 at the path
`address`, `zip`.  The leaves stored under the header `age` for further cells: `30`,
` 12.5 `, `-3`, `1e3`, `0` and `Infinity` are stored as numbers (30, 12.5, -3, 1000, 0 and
`+Infinity`); `abc`, `12abc`, `1,5` and `NaN` are stored as the trimmed strings; the empty
cell and the cell of three blanks are stored as the empty string. -/
theorem createObject_stores_coerced_cell_witness :
    plainPath (headerPath "address.zip".toList) = true ∧
    (∃ tree leaf, createObjectFromCSV ["address.zip".toList] [" 0x10 ".toList] = .ok tree ∧
      getPath tree ["address".toList, "zip".toList] = some leaf ∧
      leaf = .num (.fin false 16 0)) ∧
    createObjectFromCSV ["age".toList] ["30".toList] =
      .ok (.obj [("age".toList, .num (.fin false 30 0))]) ∧
    createObjectFromCSV ["age".toList] [" 12.5 ".toList] =
      .ok (.obj [("age".toList, .num (.fin false 25 1))]) ∧
    createObjectFromCSV ["age".toList] ["-3".toList] =
      .ok (.obj [("age".toList, .num (.fin true 3 0))]) ∧
    createObjectFromCSV ["age".toList] ["1e3".toList] =
      .ok (.obj [("age".toList, .num (.fin false 1000 0))]) ∧
    createObjectFromCSV ["age".toList] ["0".toList] =
      .ok (.obj [("age".toList, .num (.fin false 0 0))]) ∧
    createObjectFromCSV ["age".toList] ["Infinity".toList] =
      .ok (.obj [("age".toList, .num (.inf false))]) ∧
    createObjectFromCSV ["age".toList] [" abc ".toList] =
      .ok (.obj [("age".toList, .str "abc".toList)]) ∧
    createObjectFromCSV ["age".toList] ["12abc".toList] =
      .ok (.obj [("age".toList, .str "12abc".toList)]) ∧
    createObjectFromCSV ["age".toList] ["1,5".toList] =
      .ok (.obj [("age".toList, .str "1,5".toList)]) ∧
    createObjectFromCSV ["age".toList] ["NaN".toList] =
      .ok (.obj [("age".toList, .str "NaN".toList)]) ∧
    createObjectFromCSV ["age".toList] [[]] = .ok (.obj [("age".toList, .str [])]) ∧
    createObjectFromCSV ["age".toList] ["   ".toList] = .ok (.obj [("age".toList, .str [])]) :=
  ⟨by decide,
    (createObject_stores_coerced_cell "address.zip".toList " 0x10 ".toList (by decide)).imp
      (fun _ h => h.imp (fun _ h2 => ⟨h2.1, h2.2.1, h2.2.2.2.1.trans (by decide)⟩)),
    by decide, by decide, by decide, by decide, by decide, by decide, by decide, by decide,
    by decide, by decide, by decide, by decide⟩

/-- C19, counterexample. Under the header `__proto__` no leaf is stored: the cell `42` is a
non-empty numeric string, yet the record built is the empty object, which holds no string
or number at any path (the write goes to the accessor of `Object.prototype`, which ignores
a number). -/
theorem createObject_proto_header_stores_nothing :
    createObjectFromCSV ["__proto__".toList] ["42".toList] = .ok (.obj []) ∧
    (trim "42".toList ≠ [] ∧ isNaN (trim "42".toList) = false) ∧
    ∀ path l, getPath (.obj []) path = some l → l.isLeaf = false := by
  refine ⟨by decide, by decide, ?_⟩
  intro path l hget
  cases path with
  | nil =>
    simp only [getPath, Option.some.injEq] at hget
    subst hget
    rfl
  | cons a p => simp [getPath_obj_cons, lookupField] at hget

/-! ## C20: the transformer leaves its argument alone -/

theorem heapAlloc_get (h : Heap) (c : Cell) (b : Nat) (cell : Cell)
    (hb : h.get? b = some cell) : (heapAlloc h c).get? b = some cell := by
  unfold heapAlloc
  have hlt : b < h.length := by
    rcases Nat.lt_or_ge b h.length with hl | hl
    · exact hl
    · rw [List.get?_eq_none.mpr hl] at hb
      cases hb
  simp only [List.get?_eq_getElem?] at hb ⊢
  rw [List.getElem?_append_left hlt]
  exact hb

theorem heapDelete_get (key : Str) (a : Nat) (h : Heap) (b : Nat) (hne : b ≠ a) :
    (heapDelete key a h).get? b = h.get? b := by
  induction h generalizing a b with
  | nil => cases a <;> rfl
  | cons c h ih =>
    cases a with
    | zero =>
      cases b with
      | zero => exact absurd rfl hne
      | succ b => rfl
    | succ a =>
      cases b with
      | zero => rfl
      | succ b =>
        simp only [heapDelete, List.get?_cons_succ]
        exact ih a b (fun e => hne (by rw [e]))

theorem heapTransform_get (h : Heap) (record : HVal) (b : Nat) (cell : Cell)
    (hb : h.get? b = some cell) : (heapTransform h record).1.get? b = some cell := by
  have hlt : b < h.length := by
    rcases Nat.lt_or_ge b h.length with hl | hl
    · exact hl
    · rw [List.get?_eq_none.mpr hl] at hb
      cases hb
  have h1 : ∀ c, (heapAlloc h c).get? b = some cell := fun c => heapAlloc_get h c b cell hb
  have h2 : ∀ c c2, (heapAlloc (heapAlloc h c) c2).get? b = some cell :=
    fun c c2 => heapAlloc_get _ c2 b cell (h1 c)
  have h3 : ∀ c c2 (t : Bool),
      (if t then heapDelete "address".toList (heapAlloc h c).length
          (heapAlloc (heapAlloc h c) c2)
        else heapAlloc (heapAlloc h c) c2).get? b = some cell := by
    intro c c2 t
    cases t
    · exact h2 c c2
    · simp only [if_true]
      rw [heapDelete_get]
      · exact h2 c c2
      · simp only [heapAlloc, List.length_append, List.length_singleton]
        omega
  unfold heapTransform
  split
  · exact hb
  · simp only []
    split
    · exact h1 _
    · split
      · exact h1 _
      · split
        · exact h3 _ _ _
        · exact h3 _ _ _

/-- C20. For every heap and every object `record` of it, after the call
`transformRecordForDatabase(record)`, whether it returned or threw, `record` has the same
own properties with the same values as before, and so has every other object that existed
before the call. -/
theorem heapTransform_leaves_record (h : Heap) (a : Nat) (cell : Cell)
    (ha : h.get? a = some cell) :
    heapFields (heapTransform h (.ref a)).1 (.ref a) = cell ∧
    heapFields (heapTransform h (.ref a)).1 (.ref a) = heapFields h (.ref a) ∧
    (∀ key, heapGetProp (heapTransform h (.ref a)).1 (.ref a) key
      = heapGetProp h (.ref a) key) ∧
    (∀ b c, h.get? b = some c → (heapTransform h (.ref a)).1.get? b = some c) := by
  have hget := heapTransform_get h (.ref a) a cell ha
  have hf : heapFields (heapTransform h (.ref a)).1 (.ref a) = heapFields h (.ref a) := by
    simp only [heapFields, hget, ha]
  refine ⟨?_, hf, ?_, fun b c hb => heapTransform_get h (.ref a) b c hb⟩
  · simp only [heapFields, hget, Option.getD_some]
  · intro key
    simp only [heapGetProp, hf]

theorem heapTransform_leaves_record_witness :
    (heapTransform exampleHeap (.ref 0)).2
      = .ok { name := "Ann Lee".toList, age := .fin false 30 0, address := some (.ref 2),
              additional_info := some (.ref 4) } ∧
    (heapTransform exampleHeap (.ref 0)).1.get? 4 = some [("gender".toList, .str "f".toList)] ∧
    heapFields (heapTransform exampleHeap (.ref 0)).1 (.ref 0)
      = [("name".toList, .ref 1), ("age".toList, .num (.fin false 30 0)),
         ("address".toList, .ref 2), ("gender".toList, .str "f".toList)] ∧
    (heapTransform exampleHeapNoAge (.ref 0)).2
      = .error (missingField "age".toList) ∧
    heapFields (heapTransform exampleHeapNoAge (.ref 0)).1 (.ref 0)
      = [("name".toList, .ref 1), ("address".toList, .ref 2)] :=
  ⟨by decide, by decide,
    (heapTransform_leaves_record exampleHeap 0 _ (by decide)).1,
    by decide,
    (heapTransform_leaves_record exampleHeapNoAge 0 _ (by decide)).1⟩


/-! ## The sink inside a transaction -/

theorem begin_spec (db : Db) :
    db.begin.session ≠ .idle ∧ db.begin.rows = db.rows ∧ db.begin.clients = db.clients := by
  unfold Db.begin
  cases h : db.session <;> simp [h]

theorem connect_spec (db : Db) :
    db.connect.session = db.session ∧ db.connect.rows = db.rows ∧
      db.connect.clients = db.clients + 1 := ⟨rfl, rfl, rfl⟩

theorem insert_in_transaction (verdict : Verdict) (db : Db) (t : FlatRecord)
    (h : db.session ≠ .idle) :
    (db.insert verdict t).1.session ≠ .idle ∧ (db.insert verdict t).1.rows = db.rows ∧
      (db.insert verdict t).1.clients = db.clients := by
  unfold Db.insert
  cases hs : db.session with
  | idle => exact absurd hs h
  | aborted => simp [hs]
  | active written =>
    simp only []
    cases verdict db t <;> simp

theorem insert_error_aborts (verdict : Verdict) (db : Db) (t : FlatRecord) (e : JsError)
    (h : db.session ≠ .idle) (he : (db.insert verdict t).2 = .error e) :
    (db.insert verdict t).1.session = .aborted := by
  unfold Db.insert at he ⊢
  cases hs : db.session with
  | idle => exact absurd hs h
  | aborted => simp [hs]
  | active written =>
    rw [hs] at he
    simp only [] at he ⊢
    cases ha : verdict db t with
    | error e2 => simp
    | ok row =>
      rw [ha] at he
      cases he

theorem insert_aborted (verdict : Verdict) (db : Db) (t : FlatRecord) (h : db.session = .aborted) :
    db.insert verdict t = (db, .error abortedError) := by
  unfold Db.insert
  rw [h]

theorem bulkInsertLoop_in_transaction (verdict : Verdict) (users : List FlatRecord) :
    ∀ db : Db, db.session ≠ .idle →
      (bulkInsertLoop verdict users db).1.session ≠ .idle ∧
      (bulkInsertLoop verdict users db).1.rows = db.rows ∧
      (bulkInsertLoop verdict users db).1.clients = db.clients := by
  induction users with
  | nil => intro db h; exact ⟨h, rfl, rfl⟩
  | cons u rest ih =>
    intro db h
    have hi := insert_in_transaction verdict db u h
    unfold bulkInsertLoop
    cases hr : (db.insert verdict u).2 with
    | error e => exact hi
    | ok _ =>
      simp only []
      have := ih (db.insert verdict u).1 hi.1
      exact ⟨this.1, this.2.1.trans hi.2.1, this.2.2.trans hi.2.2⟩

theorem bulkInsertLoop_append_fail (verdict : Verdict) (pre post : List FlatRecord) (u : FlatRecord)
    (e : JsError) :
    ∀ db db1 : Db, bulkInsertLoop verdict pre db = (db1, .ok ()) →
      (db1.insert verdict u).2 = .error e →
      bulkInsertLoop verdict (pre ++ u :: post) db = ((db1.insert verdict u).1, .error e) := by
  induction pre with
  | nil =>
    intro db db1 hpre hfail
    simp only [bulkInsertLoop, Prod.mk.injEq, and_true] at hpre
    subst hpre
    simp only [List.nil_append, bulkInsertLoop, hfail]
  | cons p pre ih =>
    intro db db1 hpre hfail
    simp only [List.cons_append]
    unfold bulkInsertLoop at hpre ⊢
    cases hr : (db.insert verdict p).2 with
    | error e2 =>
      rw [hr] at hpre
      simp at hpre
    | ok _ =>
      rw [hr] at hpre
      simp only [] at hpre ⊢
      exact ih _ _ hpre hfail

/-- C16. For every decision of the sink on inserts, every sink state and every list of
users in which the inserts before some user succeed and the insert of that user fails with
an error, `bulkInsertUsers` fails with that error, the committed rows of the sink are those
from before the call, no transaction is left open and the client is released. -/
theorem bulkInsertUsers_rolls_back (verdict : Verdict) (pre post : List FlatRecord)
    (u : FlatRecord) (e : JsError) (db db1 : Db)
    (hpre : bulkInsertLoop verdict pre db.connect.begin = (db1, .ok ()))
    (hfail : (db1.insert verdict u).2 = .error e) :
    (bulkInsertUsers verdict (pre ++ u :: post) db).2 = .error e ∧
    (bulkInsertUsers verdict (pre ++ u :: post) db).1.rows = db.rows ∧
    (bulkInsertUsers verdict (pre ++ u :: post) db).1.session = .idle ∧
    (bulkInsertUsers verdict (pre ++ u :: post) db).1.clients = db.clients := by
  have hloop := bulkInsertLoop_append_fail verdict pre post u e _ _ hpre hfail
  have hinv := bulkInsertLoop_in_transaction verdict (pre ++ u :: post) db.connect.begin
    (begin_spec db.connect).1
  have hb := begin_spec db.connect
  unfold bulkInsertUsers
  rw [hloop] at hinv ⊢
  refine ⟨rfl, ?_, rfl, ?_⟩
  · show (db1.insert verdict u).1.rows = db.rows
    rw [hinv.2.1, hb.2.1]
    rfl
  · show (db1.insert verdict u).1.clients - 1 = db.clients
    rw [hinv.2.2, hb.2.2]
    show db.clients + 1 - 1 = db.clients
    omega

theorem bulkInsertUsers_rolls_back_witness :
    (bulkInsertUsers ageColumnVerdict
      ([userOf "Ann Lee".toList (.fin false 30 0), userOf "Bob Ray".toList (.fin false 17 0)] ++
        userOf "Cy Dow".toList .nan ::
        [userOf "Di Eng".toList (.fin false 52 0), userOf "Ed Fox".toList (.fin false 64 0)])
      oneRowDb).2 = .error (.error "invalid input syntax for type integer".toList) ∧
    (bulkInsertUsers ageColumnVerdict
      ([userOf "Ann Lee".toList (.fin false 30 0), userOf "Bob Ray".toList (.fin false 17 0)] ++
        userOf "Cy Dow".toList .nan ::
        [userOf "Di Eng".toList (.fin false 52 0), userOf "Ed Fox".toList (.fin false 64 0)])
      oneRowDb).1.rows = oneRowDb.rows ∧
    (bulkInsertUsers ageColumnVerdict
      ([userOf "Ann Lee".toList (.fin false 30 0), userOf "Bob Ray".toList (.fin false 17 0)] ++
        userOf "Cy Dow".toList .nan ::
        [userOf "Di Eng".toList (.fin false 52 0), userOf "Ed Fox".toList (.fin false 64 0)])
      oneRowDb).1.session = .idle ∧
    (bulkInsertUsers ageColumnVerdict
      ([userOf "Ann Lee".toList (.fin false 30 0), userOf "Bob Ray".toList (.fin false 17 0)] ++
        userOf "Cy Dow".toList .nan ::
        [userOf "Di Eng".toList (.fin false 52 0), userOf "Ed Fox".toList (.fin false 64 0)])
      oneRowDb).1.clients = oneRowDb.clients :=
  bulkInsertUsers_rolls_back ageColumnVerdict
    [userOf "Ann Lee".toList (.fin false 30 0), userOf "Bob Ray".toList (.fin false 17 0)]
    [userOf "Di Eng".toList (.fin false 52 0), userOf "Ed Fox".toList (.fin false 64 0)]
    (userOf "Cy Dow".toList .nan) (.error "invalid input syntax for type integer".toList)
    oneRowDb
    { rows := oneRowDb.rows
      session := .active
        [{ name := "Ann Lee".toList, age := 30, address := none, additional_info := none, id := 2 },
         { name := "Bob Ray".toList, age := 17, address := none, additional_info := none, id := 3 }]
      nextId := 4, clients := 1 }
    (by decide) (by decide)


/-! ## C12, C17: the handler after its insert loop -/

theorem insertLoop_append {S : Type} (query : S → FlatRecord → S × Bool) (pre rest : List Val) :
    ∀ (s : S) (n : Nat), insertLoop query (pre ++ rest) s n =
      insertLoop query rest (insertLoop query pre s n).1 (insertLoop query pre s n).2 := by
  induction pre with
  | nil => intro s n; rfl
  | cons r pre ih =>
    intro s n
    simp only [List.cons_append, insertLoop]
    cases transformRecordForDatabase r with
    | error _ => exact ih s n
    | ok t =>
      by_cases hq : (query s t).2 = true
      · simp only [hq, if_true]
        exact ih _ _
      · simp only [hq]
        exact ih _ _

theorem insertLoop_in_transaction (verdict : Verdict) (records : List Val) :
    ∀ (db : Db) (n : Nat), db.session ≠ .idle →
      (insertLoop (Db.query verdict) records db n).1.session ≠ .idle ∧
      (insertLoop (Db.query verdict) records db n).1.rows = db.rows ∧
      (insertLoop (Db.query verdict) records db n).1.clients = db.clients := by
  induction records with
  | nil => intro db n h; exact ⟨h, rfl, rfl⟩
  | cons r rest ih =>
    intro db n h
    simp only [insertLoop]
    cases transformRecordForDatabase r with
    | error _ => exact ih db n h
    | ok t =>
      have hi := insert_in_transaction verdict db t h
      have hq : (Db.query verdict db t).1 = (db.insert verdict t).1 := rfl
      by_cases hb : (Db.query verdict db t).2 = true
      · simp only [hb, if_true, hq]
        have := ih (db.insert verdict t).1 (n + 1) hi.1
        exact ⟨this.1, this.2.1.trans hi.2.1, this.2.2.trans hi.2.2⟩
      · simp only [hb, hq]
        have := ih (db.insert verdict t).1 n hi.1
        exact ⟨this.1, this.2.1.trans hi.2.1, this.2.2.trans hi.2.2⟩

theorem insertLoop_aborted (verdict : Verdict) (records : List Val) :
    ∀ (db : Db) (n : Nat), db.session = .aborted →
      insertLoop (Db.query verdict) records db n = (db, n) := by
  induction records with
  | nil => intro db n _; rfl
  | cons r rest ih =>
    intro db n h
    simp only [insertLoop]
    cases transformRecordForDatabase r with
    | error _ => exact ih db n h
    | ok t =>
      have hq : Db.query verdict db t = (db, false) := by
        unfold Db.query
        rw [insert_aborted verdict db t h]
        rfl
      simp only [hq]
      exact ih db n h

theorem parseIntCount_zero : parseIntCount (some 0) = .fin false 0 0 := by decide

theorem handlerReport_zero (row : DistributionRow) (insertedCount : Nat)
    (h : row.total_count = 0) :
    handlerReport row insertedCount = (.ok (.success insertedCount none), []) := by
  unfold handlerReport
  rw [h, parseIntCount_zero]
  rfl

theorem commit_aborted (db : Db) (h : db.session = .aborted) :
    db.commit.rows = db.rows ∧ db.commit.session = .idle ∧ db.commit.clients = db.clients ∧
      db.commit.visible = db.rows := by
  unfold Db.commit Db.visible
  rw [h]
  exact ⟨rfl, rfl, rfl, rfl⟩

theorem handlerBody_records (verdict : Verdict) (fileContent : Str) (db : Db) (records : List Val)
    (hparse : parseCSV fileContent = .ok records) (hrecords : records ≠ []) :
    handlerBody verdict (some fileContent) db =
      ((insertLoop (Db.query verdict) records db.begin 0).1.commit,
        (handlerReport (distributionQuery
          (agesOf (insertLoop (Db.query verdict) records db.begin 0).1.commit.visible))
          (insertLoop (Db.query verdict) records db.begin 0).2).1,
        (handlerReport (distributionQuery
          (agesOf (insertLoop (Db.query verdict) records db.begin 0).1.commit.visible))
          (insertLoop (Db.query verdict) records db.begin 0).2).2) := by
  have hlen : ¬ records.length = 0 := by
    cases records with
    | nil => exact absurd rfl hrecords
    | cons r rs => simp
  unfold handlerBody
  simp only [hparse, if_neg hlen]

/-- C12. When the distribution query counts no row, `generateAgeDistributionReport` returns
no distribution and the report of the handler answers `No data` with `success: true`; no
error is raised and no division is evaluated.  So does a whole run of the handler whose
insert loop leaves the table empty. -/
theorem report_no_data_on_zero_total (ages : List Int) (verdict : Verdict) (fileContent : Str)
    (db : Db) (records : List Val)
    (hages : (distributionQuery ages).total_count = 0)
    (hparse : parseCSV fileContent = .ok records) (hrecords : records ≠ [])
    (htotal : (distributionQuery (agesOf
      (insertLoop (Db.query verdict) records db.connect.begin 0).1.commit.visible)).total_count
        = 0) :
    generateAgeDistributionReport ages = (none, []) ∧
    (∀ insertedCount, handlerReport (distributionQuery ages) insertedCount
      = (.ok (.success insertedCount none), [])) ∧
    (processCsv verdict (some fileContent) db).2
      = (.success (insertLoop (Db.query verdict) records db.connect.begin 0).2 none, []) := by
  refine ⟨?_, fun n => handlerReport_zero _ n hages, ?_⟩
  · unfold generateAgeDistributionReport
    simp only [hages, parseIntCount_zero]
    rfl
  · unfold processCsv
    rw [handlerBody_records verdict fileContent db.connect records hparse hrecords]
    simp only [handlerReport_zero _ _ htotal]

theorem report_no_data_on_zero_total_witness :
    generateAgeDistributionReport [] = (none, []) ∧
    (∀ insertedCount, handlerReport (distributionQuery []) insertedCount
      = (.ok (.success insertedCount none), [])) ∧
    (processCsv ageColumnVerdict (some "name.firstName,name.lastName,age\nBob,Ray,".toList)
      emptyDb).2
      = (.success (insertLoop (Db.query ageColumnVerdict)
          [.obj [("name".toList, .obj [("firstName".toList, .str "Bob".toList),
            ("lastName".toList, .str "Ray".toList)]), ("age".toList, .str [])]]
          emptyDb.connect.begin 0).2 none, []) :=
  report_no_data_on_zero_total [] ageColumnVerdict
    "name.firstName,name.lastName,age\nBob,Ray,".toList emptyDb
    [.obj [("name".toList, .obj [("firstName".toList, .str "Bob".toList),
      ("lastName".toList, .str "Ray".toList)]), ("age".toList, .str [])]]
    (by decide) (by decide) (by decide) (by decide)

/-- C17 (the code departs from it). In the handler, when the insert of a transformed record
fails inside the transaction, the error is caught by the loop and goes no further: the
remaining inserts are refused, `COMMIT` is sent and stores nothing, and with a table that
was empty before the handler answers `success: true` with the count of the inserts that
came before the failure and `No data`. -/
theorem handler_swallows_insert_error (verdict : Verdict) (fileContent : Str) (db : Db)
    (pre post : List Val) (r : Val) (t : FlatRecord) (e : JsError)
    (hparse : parseCSV fileContent = .ok (pre ++ r :: post))
    (hempty : db.rows = [])
    (ht : transformRecordForDatabase r = .ok t)
    (hfail : ((insertLoop (Db.query verdict) pre db.connect.begin 0).1.insert verdict t).2
      = .error e) :
    (processCsv verdict (some fileContent) db).2.1
      = .success (insertLoop (Db.query verdict) pre db.connect.begin 0).2 none ∧
    (processCsv verdict (some fileContent) db).1.rows = [] ∧
    (processCsv verdict (some fileContent) db).1.session = .idle ∧
    (processCsv verdict (some fileContent) db).1.clients = db.clients := by
  have hb := begin_spec db.connect
  have hpre := insertLoop_in_transaction verdict pre db.connect.begin 0 hb.1
  have hab := insert_error_aborts verdict _ t e hpre.1 hfail
  have hin := insert_in_transaction verdict _ t hpre.1
  have hloop : insertLoop (Db.query verdict) (pre ++ r :: post) db.connect.begin 0 =
      (((insertLoop (Db.query verdict) pre db.connect.begin 0).1.insert verdict t).1,
        (insertLoop (Db.query verdict) pre db.connect.begin 0).2) := by
    rw [insertLoop_append]
    simp only [insertLoop, ht]
    have hq : (Db.query verdict (insertLoop (Db.query verdict) pre db.connect.begin 0).1 t).2
        = false := by
      show (((insertLoop (Db.query verdict) pre db.connect.begin 0).1.insert verdict t).2).toBool
        = false
      rw [hfail]
      rfl
    have hq1 : (Db.query verdict (insertLoop (Db.query verdict) pre db.connect.begin 0).1 t).1
        = ((insertLoop (Db.query verdict) pre db.connect.begin 0).1.insert verdict t).1 := rfl
    simp only [hq, hq1]
    exact insertLoop_aborted verdict post _ _ hab
  have hc := commit_aborted _ hab
  have hrows : ((insertLoop (Db.query verdict) pre db.connect.begin 0).1.insert verdict t).1.rows
      = [] := by
    rw [hin.2.1, hpre.2.1, hb.2.1]
    exact hempty
  have hcl : ((insertLoop (Db.query verdict) pre db.connect.begin 0).1.insert verdict t).1.clients
      = db.clients + 1 := by
    rw [hin.2.2, hpre.2.2, hb.2.2]
    rfl
  have hne : pre ++ r :: post ≠ [] := by simp
  unfold processCsv
  rw [handlerBody_records verdict fileContent db.connect _ hparse hne, hloop]
  simp only []
  have hzero : (distributionQuery (agesOf
      ((insertLoop (Db.query verdict) pre db.connect.begin 0).1.insert verdict t).1.commit.visible)).total_count
      = 0 := by
    rw [hc.2.2.2, hrows]
    rfl
  rw [handlerReport_zero _ _ hzero]
  simp only []
  refine ⟨trivial, ?_, ?_, ?_⟩
  · show (Db.commit _).rows = []
    rw [hc.1, hrows]
  · show (Db.commit _).session = .idle
    exact hc.2.1
  · show (Db.commit _).clients - 1 = db.clients
    rw [hc.2.2.1, hcl]
    omega

theorem handler_swallows_insert_error_witness :
    (processCsv ageColumnVerdict (some fileWithBadAge) emptyDb).2.1 = .success 1 none ∧
    (processCsv ageColumnVerdict (some fileWithBadAge) emptyDb).1.rows = [] ∧
    (processCsv ageColumnVerdict (some fileWithBadAge) emptyDb).1.session = .idle ∧
    (processCsv ageColumnVerdict (some fileWithBadAge) emptyDb).1.clients = emptyDb.clients :=
  handler_swallows_insert_error ageColumnVerdict fileWithBadAge emptyDb
    [rowRecord "Ann".toList "Lee".toList (.num (.fin false 30 0))] []
    (rowRecord "Bob".toList "Ray".toList (.str "abc".toList))
    (userOf "Bob Ray".toList .nan) (.error "invalid input syntax for type integer".toList)
    (by decide) (by decide) (by decide) (by decide)


/-! ## C18: the service and a record that cannot be transformed -/

theorem mapTransform_fails (transform : Val → Except JsError FlatRecord) (records : List Val)
    (r : Val) (e : JsError) (hr : r ∈ records) (hbad : transform r = .error e) :
    ∃ r1 e1, r1 ∈ records ∧ transform r1 = .error e1 ∧
      mapTransform transform records = .error e1 := by
  induction records with
  | nil => simp at hr
  | cons p rest ih =>
    cases hp : transform p with
    | error e2 => exact ⟨p, e2, List.mem_cons_self _ _, hp, by simp [mapTransform, hp]⟩
    | ok t =>
      have hr2 : r ∈ rest := by
        rcases List.mem_cons.mp hr with h | h
        · subst h
          rw [hbad] at hp
          cases hp
        · exact h
      obtain ⟨r1, e1, hm, hf, hmap⟩ := ih hr2
      exact ⟨r1, e1, List.mem_cons_of_mem _ hm, hf, by simp [mapTransform, hp, hmap]⟩

theorem specTransform_fails_iff (record : Val) (e : JsError) :
    specTransform record = .error e ↔ specValidate record = .error e := by
  unfold specTransform
  cases specValidate record with
  | error e2 => simp
  | ok u => simp

/-- C18 (the code departs from it). With the transformer of the parser module as the
specification describes it, for every parser, every sink and every file whose parsed
records include a record that lacks a mandatory field, with any number of valid records
around it, `processCSVFile` fails, with the missing-field error of a parsed record; the
sink is left as it was: no client is taken, `bulkInsertUsers` is not reached and no record
is inserted. -/
theorem processCSVFile_fails_on_bad_record (parse : Str → Except JsError (List Val))
    (verdict : Verdict) (fileContent : Str) (db : Db) (records : List Val) (r : Val)
    (e : JsError)
    (hparse : parse fileContent = .ok records) (hr : r ∈ records)
    (hbad : specValidate r = .error e) :
    ∃ r1 e1, r1 ∈ records ∧ specValidate r1 = .error e1 ∧
      processCSVFile parse specTransform verdict fileContent db = (db, .error e1) := by
  obtain ⟨r1, e1, hm, hf, hmap⟩ := mapTransform_fails specTransform records r e hr
    ((specTransform_fails_iff r e).mpr hbad)
  refine ⟨r1, e1, hm, (specTransform_fails_iff r1 e1).mp hf, ?_⟩
  unfold processCSVFile
  rw [hparse]
  simp only [hmap]

/-- The file with the rows `Ann,Lee,30` and `Bob,Ray,` (no age): the parser of the
specification returns both records, the first is valid, the second lacks `age`, and
`processCSVFile` fails with `Missing mandatory field: age`, the sink left empty. -/
theorem processCSVFile_fails_on_bad_record_witness :
    specParseCSV fileWithoutAge =
      .ok [rowRecord "Ann".toList "Lee".toList (.num (.fin false 30 0)),
        rowRecord "Bob".toList "Ray".toList (.str [])] ∧
    specTransform (rowRecord "Ann".toList "Lee".toList (.num (.fin false 30 0))) =
      .ok { name := "Ann Lee".toList, age := .fin false 30 0, address := none,
            additional_info := none } ∧
    specValidate (rowRecord "Bob".toList "Ray".toList (.str [])) =
      .error (missingField "age".toList) ∧
    processCSVFile specParseCSV specTransform ageColumnVerdict fileWithoutAge emptyDb =
      (emptyDb, .error (missingField "age".toList)) ∧
    ∃ r1 e1, r1 ∈ [rowRecord "Ann".toList "Lee".toList (.num (.fin false 30 0)),
        rowRecord "Bob".toList "Ray".toList (.str [])] ∧
      specValidate r1 = .error e1 ∧
      processCSVFile specParseCSV specTransform ageColumnVerdict fileWithoutAge emptyDb =
        (emptyDb, .error e1) :=
  ⟨by decide, by decide, by decide, by decide,
    processCSVFile_fails_on_bad_record specParseCSV ageColumnVerdict fileWithoutAge emptyDb
      [rowRecord "Ann".toList "Lee".toList (.num (.fin false 30 0)),
        rowRecord "Bob".toList "Ray".toList (.str [])]
      (rowRecord "Bob".toList "Ray".toList (.str [])) (missingField "age".toList)
      (by decide) (by decide) (by decide)⟩

/-! ## C11: the percentages of the report -/

theorem floorLog2Rat_spec (num den : Nat) (hn : 0 < num) (hd : 0 < den) :
    (2 : ℚ) ^ (floorLog2Rat num den) ≤ (num : ℚ) / den ∧
      (num : ℚ) / den < (2 : ℚ) ^ (floorLog2Rat num den + 1) := by
  obtain ⟨ha1, ha2⟩ := floorLog2_spec num hn
  obtain ⟨hb1, hb2⟩ := floorLog2_spec den hd
  have hdq : (0 : ℚ) < den := by exact_mod_cast hd
  have hnq : (0 : ℚ) < num := by exact_mod_cast hn
  have h2 : (0 : ℚ) < 2 := by norm_num
  have qa1 : (2 : ℚ) ^ (floorLog2 num : ℤ) ≤ num := by
    rw [zpow_natCast]
    exact_mod_cast ha1
  have qa2 : (num : ℚ) < (2 : ℚ) ^ ((floorLog2 num : ℤ) + 1) := by
    have : (num : ℚ) < (2 : ℚ) ^ (floorLog2 num + 1) := by exact_mod_cast ha2
    rw [show ((floorLog2 num : ℤ) + 1) = ((floorLog2 num + 1 : ℕ) : ℤ) by push_cast; ring,
      zpow_natCast]
    exact this
  have qb1 : (2 : ℚ) ^ (floorLog2 den : ℤ) ≤ den := by
    rw [zpow_natCast]
    exact_mod_cast hb1
  have qb2 : (den : ℚ) < (2 : ℚ) ^ ((floorLog2 den : ℤ) + 1) := by
    have : (den : ℚ) < (2 : ℚ) ^ (floorLog2 den + 1) := by exact_mod_cast hb2
    rw [show ((floorLog2 den : ℤ) + 1) = ((floorLog2 den + 1 : ℕ) : ℤ) by push_cast; ring,
      zpow_natCast]
    exact this
  -- the test of `floorLog2Rat` compares `den * 2 ^ l0` with `num`
  have htest : ∀ l0 : ℤ,
      (if 0 ≤ l0 then den * 2 ^ l0.toNat ≤ num else den ≤ num * 2 ^ (-l0).toNat) ↔
        (den : ℚ) * (2 : ℚ) ^ l0 ≤ num := by
    intro l0
    by_cases h0 : 0 ≤ l0
    · rw [if_pos h0]
      have e : (2 : ℚ) ^ l0 = (2 : ℚ) ^ l0.toNat := by
        rw [← zpow_natCast, Int.toNat_of_nonneg h0]
      rw [e]
      exact_mod_cast Iff.rfl
    · rw [if_neg h0]
      have hneg : 0 ≤ -l0 := by omega
      have e : (2 : ℚ) ^ l0 = ((2 : ℚ) ^ (-l0).toNat)⁻¹ := by
        rw [← zpow_natCast, Int.toNat_of_nonneg hneg, zpow_neg, inv_inv]
      rw [e]
      have hp : (0 : ℚ) < (2 : ℚ) ^ (-l0).toNat := by positivity
      rw [← div_eq_mul_inv, div_le_iff₀ hp]
      exact_mod_cast Iff.rfl
  unfold floorLog2Rat
  simp only []
  set l0 : ℤ := (floorLog2 num : ℤ) - (floorLog2 den : ℤ) with hl0
  have hpow : ∀ m : ℤ, (0 : ℚ) < (2 : ℚ) ^ m := fun m => zpow_pos h2 m
  by_cases ht : (if 0 ≤ l0 then den * 2 ^ l0.toNat ≤ num else den ≤ num * 2 ^ (-l0).toNat)
  · rw [if_pos ht]
    have hq := (htest l0).mp ht
    constructor
    · rw [le_div_iff₀ hdq]
      linarith
    · rw [div_lt_iff₀ hdq]
      have e : (2 : ℚ) ^ (l0 + 1) * (2 : ℚ) ^ (floorLog2 den : ℤ)
          = (2 : ℚ) ^ ((floorLog2 num : ℤ) + 1) := by
        rw [← zpow_add₀ (by norm_num : (2 : ℚ) ≠ 0)]
        congr 1
        omega
      calc (num : ℚ) < (2 : ℚ) ^ ((floorLog2 num : ℤ) + 1) := qa2
        _ = (2 : ℚ) ^ (l0 + 1) * (2 : ℚ) ^ (floorLog2 den : ℤ) := e.symm
        _ ≤ (2 : ℚ) ^ (l0 + 1) * den := by
          apply mul_le_mul_of_nonneg_left qb1 (le_of_lt (hpow _))
  · rw [if_neg ht]
    have hq : ¬ (den : ℚ) * (2 : ℚ) ^ l0 ≤ num := fun h => ht ((htest l0).mpr h)
    push_neg at hq
    constructor
    · rw [le_div_iff₀ hdq]
      have e : (2 : ℚ) ^ (l0 - 1) * (2 : ℚ) ^ ((floorLog2 den : ℤ) + 1)
          = (2 : ℚ) ^ (floorLog2 num : ℤ) := by
        rw [← zpow_add₀ (by norm_num : (2 : ℚ) ≠ 0)]
        congr 1
        omega
      calc (2 : ℚ) ^ (l0 - 1) * den ≤ (2 : ℚ) ^ (l0 - 1) * (2 : ℚ) ^ ((floorLog2 den : ℤ) + 1) := by
            apply mul_le_mul_of_nonneg_left (le_of_lt qb2) (le_of_lt (hpow _))
        _ = (2 : ℚ) ^ (floorLog2 num : ℤ) := e
        _ ≤ num := qa1
    · rw [div_lt_iff₀ hdq]
      have : l0 - 1 + 1 = l0 := by ring
      rw [this]
      linarith

theorem norm2_value (n d : Nat) :
    ((norm2 n d).1 : ℚ) / (2 : ℚ) ^ (norm2 n d).2 = (n : ℚ) / (2 : ℚ) ^ d := by
  induction d generalizing n with
  | zero => rfl
  | succ d ih =>
    unfold norm2
    by_cases h0 : n = 0
    · simp [h0]
    · rw [if_neg h0]
      by_cases h2 : n % 2 = 0
      · rw [if_pos h2, ih]
        have hn : n = 2 * (n / 2) := by omega
        have hq : (n : ℚ) = 2 * ((n / 2 : ℕ) : ℚ) := by exact_mod_cast hn
        rw [hq, pow_succ]
        field_simp
        ring
      · rw [if_neg h2]

/-- The quotient rounded to the nearest integer, ties to even, is within a half. -/
theorem nearest_quotient (n1 d1 : Nat) (hd : 0 < d1) :
    |(((if d1 < 2 * (n1 % d1) ∨ (2 * (n1 % d1) = d1 ∧ (n1 / d1) % 2 = 1) then n1 / d1 + 1
        else n1 / d1 : ℕ) : ℚ)) - (n1 : ℚ) / d1| ≤ 1 / 2 := by
  have hdq : (0 : ℚ) < d1 := by exact_mod_cast hd
  have hdiv : (n1 : ℚ) = (d1 : ℚ) * ((n1 / d1 : ℕ) : ℚ) + ((n1 % d1 : ℕ) : ℚ) := by
    exact_mod_cast (Nat.div_add_mod n1 d1).symm
  have hr : ((n1 % d1 : ℕ) : ℚ) < d1 := by exact_mod_cast Nat.mod_lt n1 hd
  have hr0 : (0 : ℚ) ≤ ((n1 % d1 : ℕ) : ℚ) := by positivity
  have hquot : (n1 : ℚ) / d1 = ((n1 / d1 : ℕ) : ℚ) + ((n1 % d1 : ℕ) : ℚ) / d1 := by
    conv_lhs => rw [hdiv]
    field_simp
    ring
  by_cases hc : d1 < 2 * (n1 % d1) ∨ (2 * (n1 % d1) = d1 ∧ (n1 / d1) % 2 = 1)
  · rw [if_pos hc]
    have hle : (d1 : ℚ) ≤ 2 * ((n1 % d1 : ℕ) : ℚ) := by
      rcases hc with h | h
      · exact_mod_cast le_of_lt h
      · exact_mod_cast le_of_eq h.1.symm
    rw [hquot, abs_le]
    push_cast
    have hfrac : ((n1 % d1 : ℕ) : ℚ) / d1 < 1 := by
      rw [div_lt_one hdq]
      exact hr
    have hfrac2 : (1 : ℚ) / 2 ≤ ((n1 % d1 : ℕ) : ℚ) / d1 := by
      rw [le_div_iff₀ hdq]
      linarith
    constructor <;> linarith
  · rw [if_neg hc]
    have hle : 2 * ((n1 % d1 : ℕ) : ℚ) ≤ d1 := by
      have : ¬ d1 < 2 * (n1 % d1) := fun h => hc (Or.inl h)
      exact_mod_cast Nat.le_of_not_lt this
    rw [hquot, abs_le]
    have hfrac0 : (0 : ℚ) ≤ ((n1 % d1 : ℕ) : ℚ) / d1 := div_nonneg hr0 (le_of_lt hdq)
    have hfrac2 : ((n1 % d1 : ℕ) : ℚ) / d1 ≤ 1 / 2 := by
      rw [div_le_iff₀ hdq]
      linarith
    constructor <;> linarith
/-- The rounding of a positive quotient in the normal range: the double returned is within
the fraction `2 ^ -53` of the quotient. -/
theorem roundRat_rel (num den : Nat) (hn : 0 < num) (hd : 0 < den)
    (hlo : -1022 ≤ floorLog2Rat num den) (hhi : floorLog2Rat num den ≤ 51) :
    ∃ n d, roundRat false num den = .fin false n d ∧
      |(n : ℚ) / (2 : ℚ) ^ d - (num : ℚ) / den| ≤ ((num : ℚ) / den) / 2 ^ 53 := by
  obtain ⟨hl1, _⟩ := floorLog2Rat_spec num den hn hd
  have hdq : (0 : ℚ) < den := by exact_mod_cast hd
  have hnd : ¬ (num = 0 ∨ den = 0) := by omega
  unfold roundRat
  rw [if_neg hnd]
  simp only []
  set l := floorLog2Rat num den with hl
  have he : max (l - 52) (-1074) = l - 52 := max_eq_left (by omega)
  rw [he]
  have hneg : ¬ (0 ≤ l - 52) := by omega
  simp only [hneg, if_false]
  refine ⟨_, _, rfl, ?_⟩
  rw [norm2_value]
  set k := (-(l - 52)).toNat with hk
  have hq := nearest_quotient (num * 2 ^ k) den hd
  set q1 : ℕ := (if den < 2 * (num * 2 ^ k % den) ∨
      (2 * (num * 2 ^ k % den) = den ∧ num * 2 ^ k / den % 2 = 1)
    then num * 2 ^ k / den + 1 else num * 2 ^ k / den) with hq1
  have hkpos : (0 : ℚ) < (2 : ℚ) ^ k := by positivity
  have hkz : (2 : ℚ) ^ k = (2 : ℚ) ^ (52 - l) := by
    rw [← zpow_natCast, hk, Int.toNat_of_nonneg (by omega)]
    congr 1
    ring
  have hprod : (2 : ℚ) ^ k * (2 : ℚ) ^ l = 2 ^ 52 := by
    rw [hkz, ← zpow_add₀ (by norm_num : (2 : ℚ) ≠ 0)]
    have : (52 - l + l : ℤ) = ((52 : ℕ) : ℤ) := by push_cast; ring
    rw [this, zpow_natCast]
  have hrew : (q1 : ℚ) / (2 : ℚ) ^ k - (num : ℚ) / den
      = ((q1 : ℚ) - ((num * 2 ^ k : ℕ) : ℚ) / den) / (2 : ℚ) ^ k := by
    push_cast
    field_simp
    ring
  rw [hrew, abs_div, abs_of_pos hkpos, div_le_div_iff₀ hkpos (by positivity)]
  have hx : (2 : ℚ) ^ 52 ≤ (num : ℚ) / den * (2 : ℚ) ^ k := by
    rw [← hprod]
    have := mul_le_mul_of_nonneg_left hl1 (le_of_lt hkpos)
    linarith
  have h53 : (2 : ℚ) ^ 53 = 2 * 2 ^ 52 := by norm_num
  have habs : (0 : ℚ) ≤ |(q1 : ℚ) - ((num * 2 ^ k : ℕ) : ℚ) / den| := abs_nonneg _
  rw [h53]
  nlinarith

theorem floorLog2Rat_bounds (num den : Nat) (hn : 0 < num) (hd : 0 < den) (a b : ℤ)
    (hlow : (2 : ℚ) ^ a ≤ (num : ℚ) / den) (hup : (num : ℚ) / den < (2 : ℚ) ^ b) :
    a ≤ floorLog2Rat num den ∧ floorLog2Rat num den < b := by
  obtain ⟨h1, h2⟩ := floorLog2Rat_spec num den hn hd
  have one2 : (1 : ℚ) < 2 := by norm_num
  constructor
  · have : (2 : ℚ) ^ a < (2 : ℚ) ^ (floorLog2Rat num den + 1) := lt_of_le_of_lt hlow h2
    have := (zpow_lt_zpow_iff_right₀ one2).mp this
    omega
  · have : (2 : ℚ) ^ (floorLog2Rat num den) < (2 : ℚ) ^ b := lt_of_le_of_lt h1 hup
    exact (zpow_lt_zpow_iff_right₀ one2).mp this

/-- The double computed by `c / t * 100` for counts `0 < c ≤ t < 2 ^ 31`. -/
theorem percentage_value (c t : Nat) (hc0 : 0 < c) (hct : c ≤ t) (ht : t < 2 ^ 31) :
    ∃ n d, jsMul (jsDiv (.fin false c 0) (.fin false t 0)) (.fin false 100 0) = .fin false n d ∧
      |(n : ℚ) / (2 : ℚ) ^ d - 100 * (c : ℚ) / t| ≤ 201 / 2 ^ 53 := by
  have ht0 : 0 < t := lt_of_lt_of_le hc0 hct
  have htq : (0 : ℚ) < t := by exact_mod_cast ht0
  have hcq : (0 : ℚ) < c := by exact_mod_cast hc0
  have hctq : (c : ℚ) ≤ t := by exact_mod_cast hct
  have htq2 : (t : ℚ) < 2 ^ 31 := by exact_mod_cast ht
  have hx1 : (c : ℚ) / t ≤ 1 := (div_le_one htq).mpr hctq
  have hx0 : (1 : ℚ) / 2 ^ 31 ≤ (c : ℚ) / t := by
    rw [div_le_div_iff₀ (by positivity) htq]
    have : (1 : ℚ) ≤ c := by exact_mod_cast hc0
    nlinarith
  have hxpos : (0 : ℚ) < (c : ℚ) / t := div_pos hcq htq
  -- the division
  have hb1 := floorLog2Rat_bounds c t hc0 ht0 (-31) 1
    (by rw [zpow_neg, ← one_div]; exact_mod_cast hx0)
    (by rw [zpow_one]; linarith)
  obtain ⟨n1, d1, hdiv, herr1⟩ := roundRat_rel c t hc0 ht0 (by omega) (by omega)
  have hjs : jsDiv (.fin false c 0) (.fin false t 0) = .fin false n1 d1 := by
    have : ¬ t = 0 := by omega
    simp only [jsDiv, this, if_false, pow_zero, Nat.mul_one, Bool.xor_false]
    exact hdiv
  rw [hjs]
  have hd1pos : (0 : ℚ) < (2 : ℚ) ^ d1 := by positivity
  rw [abs_le] at herr1
  have hv1lo : (c : ℚ) / t * (1 - 1 / 2 ^ 53) ≤ (n1 : ℚ) / (2 : ℚ) ^ d1 := by linarith
  have hv1hi : (n1 : ℚ) / (2 : ℚ) ^ d1 ≤ (c : ℚ) / t * (1 + 1 / 2 ^ 53) := by linarith
  have hv1pos : (0 : ℚ) < (n1 : ℚ) / (2 : ℚ) ^ d1 := by
    have : (0 : ℚ) < (c : ℚ) / t * (1 - 1 / 2 ^ 53) := by
      apply mul_pos hxpos
      norm_num
    linarith
  have hn1 : 0 < n1 := by
    rcases Nat.eq_zero_or_pos n1 with h | h
    · rw [h] at hv1pos
      simp at hv1pos
    · exact h
  -- the multiplication
  have hy : ((n1 * 100 : ℕ) : ℚ) / ((2 ^ (d1 + 0) : ℕ) : ℚ) = 100 * ((n1 : ℚ) / (2 : ℚ) ^ d1) := by
    push_cast
    rw [Nat.add_zero]
    ring
  have hylo : (1 : ℚ) / 2 ^ 31 ≤ 100 * ((n1 : ℚ) / (2 : ℚ) ^ d1) := by
    have : (c : ℚ) / t * (1 - 1 / 2 ^ 53) ≥ (c : ℚ) / t * (1 / 100) := by
      apply mul_le_mul_of_nonneg_left _ (le_of_lt hxpos)
      norm_num
    linarith
  have hyhi : 100 * ((n1 : ℚ) / (2 : ℚ) ^ d1) ≤ 101 := by
    have : (c : ℚ) / t * (1 + 1 / 2 ^ 53) ≤ 1 * (1 + 1 / 2 ^ 53) := by
      apply mul_le_mul_of_nonneg_right hx1
      norm_num
    have h2 : 100 * ((1 : ℚ) * (1 + 1 / 2 ^ 53)) ≤ 101 := by norm_num
    linarith
  have hb2 := floorLog2Rat_bounds (n1 * 100) (2 ^ (d1 + 0)) (by omega) (by positivity) (-31) 7
    (by rw [hy, zpow_neg, ← one_div]; exact_mod_cast hylo)
    (by rw [hy]; norm_num; linarith)
  obtain ⟨n2, d2, hmul, herr2⟩ := roundRat_rel (n1 * 100) (2 ^ (d1 + 0)) (by omega)
    (by positivity) (by omega) (by omega)
  refine ⟨n2, d2, ?_, ?_⟩
  · simp only [jsMul, Bool.xor_false]
    exact hmul
  · rw [hy] at herr2
    rw [abs_le] at herr2 ⊢
    have e1 : 100 * ((n1 : ℚ) / (2 : ℚ) ^ d1) / 2 ^ 53 ≤ 101 / 2 ^ 53 := by
      apply div_le_div_of_nonneg_right hyhi
      positivity
    have e2 : 100 * ((c : ℚ) / t / 2 ^ 53) ≤ 100 / 2 ^ 53 := by
      have : (c : ℚ) / t / 2 ^ 53 ≤ 1 / 2 ^ 53 := by
        apply div_le_div_of_nonneg_right hx1
        positivity
      linarith
    have e3 : 100 * (c : ℚ) / t = 100 * ((c : ℚ) / t) := by ring
    rw [e3]
    constructor <;> linarith

theorem parseIntCount_nat (k : Nat) (h : k < 2 ^ 53) : parseIntCount (some k) = .fin false k 0 := by
  have hne : natDigits k ≠ [] := by
    have := (natDigits_length k).1
    intro e
    rw [e] at this
    simp at this
  show parseIntStr (natDigits k) = _
  rw [parseIntStr_digits _ hne (natDigits_all k), natDigits_value]
  rcases Nat.eq_zero_or_pos k with h0 | h0
  · subst h0
    rfl
  · exact roundRat_nat false k h0 h

theorem percentage_nearest (c t : Nat) (hct : c ≤ t) (ht0 : 0 < t) (ht : t < 2 ^ 31) :
    ∃ n : Nat, percentage (some c) (parseIntCount (some t)) = fixedDigits n ∧
      2 * |(n : ℤ) * t - 10000 * c| ≤ t := by
  have hc53 : c < 2 ^ 53 := by
    have : (2 : ℕ) ^ 31 < 2 ^ 53 := by norm_num
    omega
  have ht53 : t < 2 ^ 53 := by
    have : (2 : ℕ) ^ 31 < 2 ^ 53 := by norm_num
    omega
  unfold percentage
  rw [parseIntCount_nat c hc53, parseIntCount_nat t ht53]
  rcases Nat.eq_zero_or_pos c with hc0 | hc0
  · subst hc0
    refine ⟨0, ?_, ?_⟩
    · have hne : ¬ t = 0 := by omega
      have h1 : jsDiv (.fin false 0 0) (.fin false t 0) = .fin false 0 0 := by
        simp [jsDiv, hne, roundRat]
      rw [h1]
      rfl
    · simp
  · obtain ⟨n2, d2, hval, herr⟩ := percentage_value c t hc0 hct ht
    rw [hval]
    have htq : (0 : ℚ) < t := by exact_mod_cast ht0
    have htq2 : (t : ℚ) < 2 ^ 31 := by exact_mod_cast ht
    have hctq : (c : ℚ) ≤ t := by exact_mod_cast hct
    have hd2 : (0 : ℚ) < (2 : ℚ) ^ d2 := by positivity
    have hx1 : 100 * (c : ℚ) / t ≤ 100 := by
      rw [div_le_iff₀ htq]
      linarith
    rw [abs_le] at herr
    have hv2 : (n2 : ℚ) / (2 : ℚ) ^ d2 < 10 ^ 21 := by
      have : (201 : ℚ) / 2 ^ 53 < 1 := by norm_num
      have : (101 : ℚ) < 10 ^ 21 := by norm_num
      linarith
    have hsmall : ¬ 10 ^ 21 * 2 ^ d2 ≤ n2 := by
      intro hle
      have hle2 : ((10 ^ 21 * 2 ^ d2 : ℕ) : ℚ) ≤ n2 := by exact_mod_cast hle
      push_cast at hle2
      rw [div_lt_iff₀ hd2] at hv2
      linarith
    refine ⟨(200 * n2 + 2 ^ d2) / 2 ^ (d2 + 1), ?_, ?_⟩
    · simp only [toFixed2]
      rw [if_neg hsmall]
      simp
    · set N := (200 * n2 + 2 ^ d2) / 2 ^ (d2 + 1) with hN
      have hDpos : 0 < 2 ^ (d2 + 1) := by positivity
      have hfl1 : N * 2 ^ (d2 + 1) ≤ 200 * n2 + 2 ^ d2 := Nat.div_mul_le_self _ _
      have hfl2 : 200 * n2 + 2 ^ d2 < (N + 1) * 2 ^ (d2 + 1) := by
        have := Nat.lt_succ_self ((200 * n2 + 2 ^ d2) / 2 ^ (d2 + 1))
        exact (Nat.div_lt_iff_lt_mul hDpos).mp this
      have q1 : (N : ℚ) * (2 * (2 : ℚ) ^ d2) ≤ 200 * n2 + (2 : ℚ) ^ d2 := by
        have : ((N * 2 ^ (d2 + 1) : ℕ) : ℚ) ≤ ((200 * n2 + 2 ^ d2 : ℕ) : ℚ) := by
          exact_mod_cast hfl1
        push_cast at this
        rw [pow_succ] at this
        linarith
      have q2 : 200 * (n2 : ℚ) + (2 : ℚ) ^ d2 < ((N : ℚ) + 1) * (2 * (2 : ℚ) ^ d2) := by
        have : ((200 * n2 + 2 ^ d2 : ℕ) : ℚ) < (((N + 1) * 2 ^ (d2 + 1) : ℕ) : ℚ) := by
          exact_mod_cast hfl2
        push_cast at this
        rw [pow_succ] at this
        linarith
      -- with `v = n2 / 2 ^ d2`: `N ≤ 100 v + 1 / 2 < N + 1`
      set v : ℚ := (n2 : ℚ) / (2 : ℚ) ^ d2 with hv
      have hn2 : (n2 : ℚ) = v * (2 : ℚ) ^ d2 := by
        rw [hv]
        field_simp
      have r1 : (N : ℚ) ≤ 100 * v + 1 / 2 := by
        rw [hn2] at q1
        have : (N : ℚ) * (2 * (2 : ℚ) ^ d2) ≤ (100 * v + 1 / 2) * (2 * (2 : ℚ) ^ d2) := by
          linarith
        exact le_of_mul_le_mul_right this (by positivity)
      have r2 : 100 * v + 1 / 2 < (N : ℚ) + 1 := by
        rw [hn2] at q2
        have : (100 * v + 1 / 2) * (2 * (2 : ℚ) ^ d2) < ((N : ℚ) + 1) * (2 * (2 : ℚ) ^ d2) := by
          linarith
        exact lt_of_mul_lt_mul_right this (by positivity)
      have hs : 100 * (c : ℚ) / t * t = 100 * c := by field_simp
      have hδ : (200 : ℚ) * t * (201 / 2 ^ 53) < 1 := by
        have : (200 : ℚ) * 2 ^ 31 * (201 / 2 ^ 53) < 1 := by norm_num
        nlinarith
      have up : (2 * ((N : ℤ) * t - 10000 * c) : ℤ) < t + 1 := by
        have : ((2 * ((N : ℤ) * t - 10000 * c) : ℤ) : ℚ) < ((t + 1 : ℤ) : ℚ) := by
          push_cast
          have h1 : (N : ℚ) * t ≤ (100 * v + 1 / 2) * t :=
            mul_le_mul_of_nonneg_right r1 (le_of_lt htq)
          have h2 : (v - 100 * (c : ℚ) / t) * t ≤ 201 / 2 ^ 53 * t :=
            mul_le_mul_of_nonneg_right herr.2 (le_of_lt htq)
          nlinarith
        exact_mod_cast this
      have lo : (-(t : ℤ) - 1) < 2 * ((N : ℤ) * t - 10000 * c) := by
        have : ((-(t : ℤ) - 1 : ℤ) : ℚ) < ((2 * ((N : ℤ) * t - 10000 * c) : ℤ) : ℚ) := by
          push_cast
          have h1 : (100 * v + 1 / 2) * t < ((N : ℚ) + 1) * t :=
            mul_lt_mul_of_pos_right r2 htq
          have h2 : -(201 / 2 ^ 53) * t ≤ (v - 100 * (c : ℚ) / t) * t :=
            mul_le_mul_of_nonneg_right herr.1 (le_of_lt htq)
          nlinarith
        exact_mod_cast this
      rcases abs_cases ((N : ℤ) * t - 10000 * c) with ⟨h, _⟩ | ⟨h, _⟩ <;> rw [h] <;> omega

theorem indicator_sum (cond : Int → Bool) (ages : List Int) :
    (ages.map (fun a => if cond a then 1 else 0)).sum = ages.countP cond := by
  induction ages with
  | nil => rfl
  | cons a rest ih =>
    simp only [List.map_cons, List.sum_cons, List.countP_cons, ih]
    cases cond a <;> simp
    omega

theorem sumCase_some (cond : Int → Bool) (ages : List Int) (hne : ages ≠ []) :
    sumCase cond ages = some (ages.countP cond) := by
  unfold sumCase
  rw [if_neg hne, indicator_sum]

theorem nearestPercent_off_ties (text : Str) (c t : Nat)
    (h : NearestPercent text c t) (hoff : isHalfway c t = false) :
    text = specPercentage c t := by
  obtain ⟨n, htext, hn⟩ := h
  have hmod : (20000 * c + t) % (2 * t) ≠ 0 := by
    simpa [isHalfway] using hoff
  have e1 : (2 : ℤ) * ((n : ℤ) * t - 10000 * c) ≤ t ∧
      -(t : ℤ) ≤ 2 * ((n : ℤ) * t - 10000 * c) := by
    rcases abs_cases ((n : ℤ) * t - 10000 * c) with ⟨h1, _⟩ | ⟨h1, _⟩ <;> rw [h1] at hn <;>
      constructor <;> omega
  have lo : n * (2 * t) ≤ 20000 * c + t := by
    have : ((n * (2 * t) : ℕ) : ℤ) ≤ ((20000 * c + t : ℕ) : ℤ) := by
      push_cast
      linarith [e1.1]
    exact_mod_cast this
  have hle : 20000 * c + t ≤ (n + 1) * (2 * t) := by
    have : ((20000 * c + t : ℕ) : ℤ) ≤ (((n + 1) * (2 * t) : ℕ) : ℤ) := by
      push_cast
      linarith [e1.2]
    exact_mod_cast this
  have hi : 20000 * c + t < (n + 1) * (2 * t) := by
    rcases Nat.lt_or_eq_of_le hle with hlt | heq
    · exact hlt
    · exfalso
      apply hmod
      rw [heq]
      exact Nat.mul_mod_left _ _
  rw [htext]
  unfold specPercentage
  rw [Nat.div_eq_of_lt_le lo hi]

theorem percentage_roundedPercent (cond : Int → Bool) (ages : List Int) (hne : ages ≠ [])
    (hlen : ages.length < 2 ^ 31) :
    RoundedPercent (percentage (sumCase cond ages) (parseIntCount (some ages.length)))
      (ages.countP cond) ages.length := by
  rw [sumCase_some cond ages hne]
  have h := percentage_nearest _ _ (List.countP_le_length cond) (List.length_pos.mpr hne) hlen
  exact ⟨h, nearestPercent_off_ties _ _ _ h⟩

/-- C11 (amended). For every non-empty sequence of fewer than `2 ^ 31` ages,
`generateAgeDistributionReport` returns a distribution, and each of its four percentages is
`100 * bucketCount / totalCount` rounded to two decimal places, except that a value exactly
halfway between two hundredths may go to either of them (the text is always within `0.005`
of the exact value); the handler evaluates the same object literal.  For the ages
`[10, 25, 45, 70]` the four texts are `25.00`. -/
theorem report_percentages_nearest (ages : List Int) (hne : ages ≠ [])
    (hlen : ages.length < 2 ^ 31) :
    (∃ d, (generateAgeDistributionReport ages).1 = some d ∧
      d = distributionOf (distributionQuery ages)
        (parseIntCount (some (distributionQuery ages).total_count)) ∧
      RoundedPercent d.under_20 (ages.countP under_20) ages.length ∧
      RoundedPercent d.between_20_40 (ages.countP between_20_40) ages.length ∧
      RoundedPercent d.between_40_60 (ages.countP between_40_60) ages.length ∧
      RoundedPercent d.over_60 (ages.countP over_60) ages.length) ∧
    (generateAgeDistributionReport [10, 25, 45, 70]).1
      = some { under_20 := "25.00".toList, between_20_40 := "25.00".toList,
               between_40_60 := "25.00".toList, over_60 := "25.00".toList } := by
  refine ⟨?_, by decide⟩
  have hpos : 0 < ages.length := List.length_pos.mpr hne
  have h53 : ages.length < 2 ^ 53 := by
    have : (2 : ℕ) ^ 31 < 2 ^ 53 := by norm_num
    omega
  have htotal : parseIntCount (some (distributionQuery ages).total_count)
      = .fin false ages.length 0 := parseIntCount_nat _ h53
  have hz : (JSNum.fin false ages.length 0).isZero = false := by
    simp only [JSNum.isZero, decide_eq_false_iff_not]
    omega
  refine ⟨distributionOf (distributionQuery ages) (.fin false ages.length 0), ?_, ?_, ?_⟩
  · unfold generateAgeDistributionReport
    simp only [htotal, hz]
    rfl
  · rw [htotal]
  · rw [← parseIntCount_nat _ h53]
    exact ⟨percentage_roundedPercent under_20 ages hne hlen,
      percentage_roundedPercent between_20_40 ages hne hlen,
      percentage_roundedPercent between_40_60 ages hne hlen,
      percentage_roundedPercent over_60 ages hne hlen⟩

theorem report_percentages_nearest_witness :
    (∃ d, (generateAgeDistributionReport [15, 33, 70]).1 = some d ∧
      d = distributionOf (distributionQuery [15, 33, 70])
        (parseIntCount (some (distributionQuery [15, 33, 70]).total_count)) ∧
      RoundedPercent d.under_20 (List.countP under_20 [15, 33, 70]) 3 ∧
      RoundedPercent d.between_20_40 (List.countP between_20_40 [15, 33, 70]) 3 ∧
      RoundedPercent d.between_40_60 (List.countP between_40_60 [15, 33, 70]) 3 ∧
      RoundedPercent d.over_60 (List.countP over_60 [15, 33, 70]) 3) ∧
    (generateAgeDistributionReport [10, 25, 45, 70]).1
      = some { under_20 := "25.00".toList, between_20_40 := "25.00".toList,
               between_40_60 := "25.00".toList, over_60 := "25.00".toList } :=
  report_percentages_nearest [15, 33, 70] (by decide) (by decide)

set_option maxRecDepth 100000 in
/-- C11 fails as stated: with 23 of 160 ages under twenty the exact percentage is 14.375,
which rounds to `14.38`, and the report prints `14.37`, because the quotient is rounded to a
double before it is multiplied and rounded again.  Values halfway between two hundredths go
up or down case by case: `3.125` (1 of 32) prints as `3.13`, `3.625` (29 of 800) as
`3.62`. -/
theorem report_rounds_halfway_down :
    (generateAgeDistributionReport (List.replicate 23 10 ++ List.replicate 137 30)).1
      = some { under_20 := "14.37".toList, between_20_40 := "85.63".toList,
               between_40_60 := "0.00".toList, over_60 := "0.00".toList } ∧
    specPercentage 23 160 = "14.38".toList ∧
    percentage (some 1) (parseIntCount (some 32)) = "3.13".toList ∧
    percentage (some 29) (parseIntCount (some 800)) = "3.62".toList := by
  decide


/-! ## C21: the answer of the handler when the table holds rows -/

theorem parseIntCount_positive (k : Nat) (h : 0 < k) :
    (parseIntCount (some k)).isPositive = true ∧ (parseIntCount (some k)).isZero = false := by
  have hne : natDigits k ≠ [] := by
    have := (natDigits_length k).1
    intro e
    rw [e] at this
    simp at this
  have hp : parseIntCount (some k) = roundRat false k 1 := by
    show parseIntStr (natDigits k) = _
    rw [parseIntStr_digits _ hne (natDigits_all k), natDigits_value]
  rw [hp]
  rcases Nat.lt_or_ge k (2 ^ 53) with hlt | hge
  · rw [roundRat_nat false k h hlt]
    simp only [JSNum.isPositive, JSNum.isZero, Bool.not_false, Bool.true_and,
      decide_eq_true_eq, decide_eq_false_iff_not]
    omega
  · rcases roundRat_big false k hge with hinf | ⟨v, hv, hbig⟩
    · rw [hinf]
      exact ⟨rfl, rfl⟩
    · rw [hv]
      have hv0 : v ≠ 0 := by
        have : 0 < 2 ^ 53 := by positivity
        omega
      simp only [JSNum.isPositive, JSNum.isZero, Bool.not_false, Bool.true_and,
        decide_eq_true_eq, decide_eq_false_iff_not]
      exact ⟨hv0, hv0⟩

theorem handlerReport_positive (row : DistributionRow) (insertedCount : Nat)
    (h : 0 < row.total_count) :
    handlerReport row insertedCount =
      (.error (.referenceError "distribution".toList),
        distributionDivisions row (parseIntCount (some row.total_count))) := by
  obtain ⟨hpos, hzero⟩ := parseIntCount_positive row.total_count h
  unfold handlerReport
  simp only [hpos, hzero, if_true, Bool.false_eq_true, if_false]

/-- C21 (the code departs from it). For every run of the handler in which parsing yields at
least one record and the table holds at least one row after the insert loop, the object
literal of the response reads the constant `distribution`, which is declared inside the
`else` block and is out of scope there: a `ReferenceError` is raised, the handler falls into
its error branch and answers with status 500, never with the success result, although the
four percentages have been computed.  The rows of the batch stay committed, since `COMMIT`
came before and the `ROLLBACK` of the error branch finds no transaction. -/
theorem handler_fails_when_table_has_rows (verdict : Verdict) (fileContent : Str) (db : Db)
    (records : List Val)
    (hparse : parseCSV fileContent = .ok records) (hrecords : records ≠ [])
    (htotal : 0 < (distributionQuery (agesOf
      (insertLoop (Db.query verdict) records db.connect.begin 0).1.commit.visible)).total_count) :
    (processCsv verdict (some fileContent) db).2.1
      = .failure (.referenceError "distribution".toList) ∧
    (∀ n dist, (processCsv verdict (some fileContent) db).2.1 ≠ .success n dist) ∧
    (processCsv verdict (some fileContent) db).2.2
      = distributionDivisions (distributionQuery (agesOf
          (insertLoop (Db.query verdict) records db.connect.begin 0).1.commit.visible))
        (parseIntCount (some (distributionQuery (agesOf
          (insertLoop (Db.query verdict) records db.connect.begin 0).1.commit.visible)).total_count)) ∧
    (processCsv verdict (some fileContent) db).1.rows
      = (insertLoop (Db.query verdict) records db.connect.begin 0).1.commit.rows ∧
    (processCsv verdict (some fileContent) db).1.session = .idle := by
  have hbody := handlerBody_records verdict fileContent db.connect records hparse hrecords
  have hrep := handlerReport_positive _
    (insertLoop (Db.query verdict) records db.connect.begin 0).2 htotal
  have hresp : (processCsv verdict (some fileContent) db).2.1
      = .failure (.referenceError "distribution".toList) := by
    unfold processCsv
    rw [hbody, hrep]
  refine ⟨hresp, ?_, ?_, ?_, ?_⟩
  · intro n dist hs
    rw [hresp] at hs
    cases hs
  · unfold processCsv
    rw [hbody, hrep]
  · unfold processCsv
    rw [hbody, hrep]
    rfl
  · unfold processCsv
    rw [hbody, hrep]
    rfl

/-- The run on a file with one good row and an empty table: the insert succeeds, the row
is committed, the four divisions are evaluated, and the answer is the one of the error
branch. -/
theorem handler_fails_when_table_has_rows_witness :
    processCsv ageColumnVerdict (some fileWithOneRow) emptyDb
      = ({ rows := [{ name := "Ann Lee".toList, age := 30, address := none,
                      additional_info := none, id := 1 }]
           session := .idle, nextId := 2, clients := 0 },
         .failure (.referenceError "distribution".toList),
         [⟨.fin false 0 0, .fin false 1 0⟩, ⟨.fin false 1 0, .fin false 1 0⟩,
          ⟨.fin false 0 0, .fin false 1 0⟩, ⟨.fin false 0 0, .fin false 1 0⟩]) ∧
    (insertLoop (Db.query ageColumnVerdict)
      [rowRecord "Ann".toList "Lee".toList (.num (.fin false 30 0))]
      emptyDb.connect.begin 0).2 = 1 ∧
    (processCsv ageColumnVerdict (some fileWithOneRow) emptyDb).2.1
      = .failure (.referenceError "distribution".toList) :=
  ⟨by decide, by decide,
    (handler_fails_when_table_has_rows ageColumnVerdict fileWithOneRow emptyDb
      [rowRecord "Ann".toList "Lee".toList (.num (.fin false 30 0))]
      (by decide) (by decide) (by decide)).1⟩


end CsvJson
